import Mathlib

/-!
# setlog/fio: advisory-locked file operations

A shallow embedding of `fio_api.go` and `fio_linux.go`.

* The package variable `fsApi` (an `fsi.FileSystem`) is the parameter `fs` of every
  function; the methods of `fsi.File` (`Read`, `Write`, `Close`) are fields of the same
  record, since a handle's behaviour is decided by the filesystem that issued it.
* Stateful code is written in state-passing style over the state `σ` of the filesystem.
* `traced fs` is the filesystem `fs` with a recorder in front of it (the role gomock plays
  in `fio_test.go`): it appends every call it receives to a log and delegates to `fs`.
* `posix` is a reference filesystem (paths, contents, permission bits, open descriptors,
  an injected-failure script) against which the content claims are stated.
-/

namespace Fio

/-! ## Values -/

/-- One byte of file content. -/
abbrev Byte := Fin 256

/-- Go `error` values that occur in the package: the `io` sentinels, errors produced by the
environment (`sys`, with the answer `os.IsNotExist` gives for it), and the two shapes
`fmt.Errorf` produces (`wrapError` for a format with `%w`, `errorString` without). -/
inductive Error where
  | EOF
  | ErrShortWrite
  | errInvalidWrite
  | sys (msg : String) (notExist : Bool)
  | wrapError (msg : String) (err : Error)
  | errorString (msg : String)
deriving DecidableEq, Repr

/-- The method `Error()` of an error: its message. -/
def Error.message : Error → String
  | .EOF => "EOF"
  | .ErrShortWrite => "short write"
  | .errInvalidWrite => "invalid write result"
  | .sys msg _ => msg
  | .wrapError msg _ => msg
  | .errorString msg => msg

/-- The method `Unwrap()`: the `%w` operand of a wrapped error. -/
def Error.Unwrap : Error → Option Error
  | .wrapError _ err => some err
  | _ => none

/-- The function `os.IsNotExist`: it looks at the error itself and does not follow
`fmt.Errorf` wrappers. -/
def IsNotExist : Error → Bool
  | .sys _ notExist => notExist
  | _ => false

/-- The handle `fsi.File`: its descriptor `Fd()` and its `Name()`. -/
structure File where
  fd : Nat
  name : String
deriving DecidableEq, Repr

/-- The record `fileInfoImpl` of `fio_impl.go`. -/
structure FileInfo where
  name : String
  size : Int
  mode : Nat
deriving DecidableEq, Repr

/-- The method `fs.FileMode.Perm`: the nine permission bits. -/
def FileInfo.Perm (fi : FileInfo) : Nat := fi.mode &&& 0o777

/-- The record `syscall.Flock_t`. -/
structure Flock_t where
  Typ : Int
  Whence : Int
  Start : Int
  Len : Int
  Pid : Int
deriving DecidableEq, Repr

deriving instance DecidableEq for Except

/-! ## Constants of `os`, `io` and `syscall` (linux) -/

def O_RDONLY : Int := 0
def O_WRONLY : Int := 1
def O_RDWR : Int := 2
def O_CREATE : Int := 0x40
def O_TRUNC : Int := 0x200
def F_SETLK : Int := 6
def F_SETLKW : Int := 7
def F_RDLCK : Int := 0
def F_WRLCK : Int := 1
def F_UNLCK : Int := 2
def SeekStart : Int := 0

/-! ## The interface `fsi.FileSystem` -/

/-- The interface `fsi.FileSystem`, with the methods of `fsi.File` next to it. `Read f n`
is `f.Read(p)` with `len(p) = n` and returns the bytes placed in `p`; `Write f p` returns
the count `f.Write(p)` reports. -/
structure FileSystem (σ : Type) where
  OpenFile : String → Int → Nat → σ → Except Error File × σ
  FcntlFlock : Nat → Int → Flock_t → σ → Option Error × σ
  Remove : String → σ → Option Error × σ
  Stat : String → σ → Except Error FileInfo × σ
  Read : File → Nat → σ → (List Byte × Option Error) × σ
  Write : File → List Byte → σ → (Int × Option Error) × σ
  Close : File → σ → Option Error × σ

/-- An `io.Reader` with private state `ρ` that may also act on the filesystem state. -/
abbrev Reader (ρ σ : Type) := Nat → ρ → σ → (List Byte × Option Error) × ρ × σ

/-- A handle used as an `io.Reader`. -/
def fileReader {σ : Type} (fs : FileSystem σ) (f : File) : Reader Unit σ :=
  fun n _ s => let r := fs.Read f n s; (r.1, (), r.2)

/-- The reader `bytes.NewReader(data)`, seen through its `Read` method: the state is the
unread rest. -/
def bytesReader {σ : Type} : Reader (List Byte) σ :=
  fun n rest s =>
    if rest = [] then (([], some Error.EOF), rest, s)
    else ((rest.take n, none), rest.drop n, s)

/-! ## The recorder -/

/-- A call received by the filesystem or by one of its handles. -/
inductive Call where
  | OpenFile (name : String) (flag : Int) (perm : Nat)
  | FcntlFlock (fd : Nat) (cmd : Int) (lk : Flock_t)
  | Remove (name : String)
  | Stat (name : String)
  | Read (f : File)
  | Write (f : File) (p : List Byte)
  | Close (f : File)
deriving DecidableEq, Repr

/-- The filesystem `fs` behind a recorder: every call is appended to the log and then
answered by `fs`. -/
def traced {σ : Type} (fs : FileSystem σ) : FileSystem (σ × List Call) where
  OpenFile name flag perm s :=
    let r := fs.OpenFile name flag perm s.1
    (r.1, r.2, s.2 ++ [Call.OpenFile name flag perm])
  FcntlFlock fd cmd lk s :=
    let r := fs.FcntlFlock fd cmd lk s.1
    (r.1, r.2, s.2 ++ [Call.FcntlFlock fd cmd lk])
  Remove name s :=
    let r := fs.Remove name s.1
    (r.1, r.2, s.2 ++ [Call.Remove name])
  Stat name s :=
    let r := fs.Stat name s.1
    (r.1, r.2, s.2 ++ [Call.Stat name])
  Read f n s :=
    let r := fs.Read f n s.1
    (r.1, r.2, s.2 ++ [Call.Read f])
  Write f p s :=
    let r := fs.Write f p s.1
    (r.1, r.2, s.2 ++ [Call.Write f p])
  Close f s :=
    let r := fs.Close f s.1
    (r.1, r.2, s.2 ++ [Call.Close f])

/-! ## `fio_linux.go` -/

/-- The function `lockWithType`. -/
def lockWithType (typ : Int) : Flock_t :=
  { Typ := typ, Whence := SeekStart, Start := 0, Len := 0, Pid := 0 }

/-- The function `rdLock`. -/
def rdLock : Flock_t := lockWithType F_RDLCK

/-- The function `wrLock`. -/
def wrLock : Flock_t := lockWithType F_WRLCK

/-- The constant `mask` of `lockForFlag`. -/
def mask : Int := Int.lor (Int.lor O_RDONLY O_WRONLY) O_RDWR

/-- The function `lockForFlag`. -/
def lockForFlag {σ : Type} (fs : FileSystem σ) (fd : Nat) (flag : Int) (s : σ) :
    Option Error × σ :=
  let accessMode := Int.land flag mask
  if accessMode = O_RDWR ∨ accessMode = O_WRONLY then
    match fs.FcntlFlock fd F_SETLK wrLock s with
    | (some err, s1) => (some (Error.wrapError ("acquire write-lock: " ++ err.message) err), s1)
    | (none, s1) => (none, s1)
  else if accessMode = O_RDONLY then
    match fs.FcntlFlock fd F_SETLK rdLock s with
    | (some err, s1) => (some (Error.wrapError ("acquire read-lock: " ++ err.message) err), s1)
    | (none, s1) => (none, s1)
  else
    (some (Error.errorString ("acquire lock: bad access mode " ++ toString accessMode
      ++ " for flag " ++ toString flag)), s)

/-- The function `openFile`; the deferred function closes the handle when `haveLock` is
still false. -/
def openFile {σ : Type} (fs : FileSystem σ) (filePath : String) (flag : Int) (perm : Nat)
    (s : σ) : Except Error File × σ :=
  match fs.OpenFile filePath flag perm s with
  | (.error err, s1) => (.error err, s1)
  | (.ok file, s1) =>
    match lockForFlag fs file.fd flag s1 with
    | (some err, s2) =>
      let s3 := (fs.Close file s2).2
      (.error (Error.wrapError ("open '" ++ filePath ++ "': " ++ err.message) err), s3)
    | (none, s2) => (.ok file, s2)

/-- The size of the buffer `io.Copy` allocates. -/
def copyBufSize : Nat := 32 * 1024

/-- The bookkeeping of `io.Copy` after `nw, ew := dst.Write(buf[0:nr])`: a count that is
negative or larger than `nr` is an invalid write, `written` grows by `nw`, and the loop
stops with `ew` or, on a short count, with `io.ErrShortWrite`. Returns the new `written`
and the error the loop stops with, if any. -/
def chunkResult (nr written nw : Int) (ew : Option Error) : Int × Option Error :=
  let invalid : Bool := decide (nw < 0) || decide (nr < nw)
  let nw1 : Int := if invalid then 0 else nw
  let ew1 : Option Error :=
    if invalid then (match ew with | none => some Error.errInvalidWrite | some e => some e)
    else ew
  match ew1 with
  | some e => (written + nw1, some e)
  | none =>
    if nr ≠ nw1 then (written + nw1, some Error.ErrShortWrite)
    else (written + nw1, none)

/-- The body of `if nr > 0` in the loop of `io.Copy`: one `dst.Write(buf[0:nr])` and the
bookkeeping after it. -/
def writeChunk {σ : Type} (fs : FileSystem σ) (dst : File) (buf : List Byte) (written : Int)
    (s : σ) : (Int × Option Error) × σ :=
  let w := fs.Write dst buf s
  (chunkResult buf.length written w.1.1 w.1.2, w.2)

/-- The generic loop of `io.Copy(dst, src)` (Go standard library): read into the buffer,
write what was read, stop at the first error, report `io.EOF` as success. The shortcuts
through `WriterTo` and `ReaderFrom`, which move the same bytes in fewer calls, are not
modelled, and the `int64` count is taken without wrap-around. `fuel` bounds the number of
iterations; `none` means the bound was reached. -/
def Copy {σ ρ : Type} (fs : FileSystem σ) (dst : File) (src : Reader ρ σ) :
    Nat → Int → ρ → σ → Option ((Int × Option Error) × ρ × σ)
  | 0, _, _, _ => none
  | fuel + 1, written, r, s =>
    match src copyBufSize r s with
    | ((buf, er), r1, s1) =>
      match (if 0 < buf.length then writeChunk fs dst buf written s1
             else ((written, none), s1)) with
      | ((written1, some e), s2) => some ((written1, some e), r1, s2)
      | ((written1, none), s2) =>
        match er with
        | some e => some ((written1, if e = Error.EOF then none else some e), r1, s2)
        | none => Copy fs dst src fuel written1 r1 s2

/-- The number of bytes each `Read` of `ioutil.ReadAll` asks for. The Go runtime grows the
buffer as it fills; only the initial room of 512 bytes is modelled. -/
def readAllChunk : Nat := 512

/-- The loop of `ioutil.ReadAll` (Go standard library): append what each `Read` yields
until an error; `io.EOF` is reported as success. -/
def ReadAll {σ ρ : Type} (src : Reader ρ σ) :
    Nat → List Byte → ρ → σ → Option ((List Byte × Option Error) × ρ × σ)
  | 0, _, _, _ => none
  | fuel + 1, b, r, s =>
    match src readAllChunk r s with
    | ((p, err), r1, s1) =>
      match err with
      | some e => some ((b ++ p, if e = Error.EOF then none else some e), r1, s1)
      | none => ReadAll src fuel (b ++ p) r1 s1

/-- The deferred function of `writeFile`: close the destination and, unless writing
finished, remove the file; `err` is the variable of `writeFile` the closure captures and
the result is the new value of `retErr`. -/
def writeFileDeferred {σ : Type} (fs : FileSystem σ) (filePath : String) (dst : File)
    (finishedWriting : Bool) (err retErr : Option Error) (s : σ) : Option Error × σ :=
  let s1 := (fs.Close dst s).2
  if !finishedWriting then
    match fs.Remove filePath s1 with
    | (some remErr, s2) =>
      if !IsNotExist remErr then
        match err with
        | some e =>
          (some (Error.wrapError (e.message ++ ". Then: " ++ remErr.message) e), s2)
        | none => (some remErr, s2)
      else (retErr, s2)
    | (none, s2) => (retErr, s2)
  else (retErr, s1)

/-- The function `writeFile`. -/
def writeFile {σ ρ : Type} (fs : FileSystem σ) (fuel : Nat) (filePath : String)
    (reader : Reader ρ σ) (r : ρ) (perm : Nat) (s : σ) :
    Option ((Int × Option Error) × σ) :=
  match openFile fs filePath (Int.lor (Int.lor O_WRONLY O_TRUNC) O_CREATE) perm s with
  | (.error err, s1) => some ((0, some err), s1)
  | (.ok dst, s1) =>
    match Copy fs dst reader fuel 0 r s1 with
    | none => none
    | some ((n, some err), _, s2) =>
      let d := writeFileDeferred fs filePath dst false (some err) (some err) s2
      some ((n, d.1), d.2)
    | some ((n, none), _, s2) =>
      let d := writeFileDeferred fs filePath dst true none none s2
      some ((n, d.1), d.2)

/-- The function `readFile`; `Except.error` is the panic raised through `panik`, and the
deferred `file.Close()` runs on every path after the open. -/
def readFile {σ : Type} (fs : FileSystem σ) (fuel : Nat) (filePath : String) (s : σ) :
    Option (Except Error (List Byte) × σ) :=
  match fs.OpenFile filePath O_RDONLY 0o660 s with
  | (.error err, s1) => some (.error err, s1)
  | (.ok file, s1) =>
    match lockForFlag fs file.fd O_RDONLY s1 with
    | (some err, s2) =>
      some (.error (Error.wrapError ("open '" ++ filePath ++ "': " ++ err.message) err),
        (fs.Close file s2).2)
    | (none, s2) =>
      match ReadAll (fileReader fs file) fuel [] () s2 with
      | none => none
      | some ((_, some err), _, s3) => some (.error err, (fs.Close file s3).2)
      | some ((data, none), _, s3) => some (.ok data, (fs.Close file s3).2)

/-- The function `copyFile`. -/
def copyFile {σ : Type} (fs : FileSystem σ) (fuel : Nat) (fromFilePath toFilePath : String)
    (s : σ) : Option ((Int × Option Error) × σ) :=
  match fs.Stat fromFilePath s with
  | (.error err, s1) =>
    some ((0, some (Error.wrapError ("copy '" ++ fromFilePath ++ "' to '" ++ toFilePath
      ++ "': stat source: " ++ err.message) err)), s1)
  | (.ok fileInfo, s1) =>
    match openFile fs fromFilePath O_RDONLY 0o660 s1 with
    | (.error err, s2) =>
      some ((0, some (Error.wrapError ("copy '" ++ fromFilePath ++ "' to '" ++ toFilePath
        ++ "': open source: " ++ err.message) err)), s2)
    | (.ok src, s2) =>
      match writeFile fs fuel toFilePath (fileReader fs src) () fileInfo.Perm s2 with
      | none => none
      | some ((n, some err), s3) =>
        some ((n, some (Error.wrapError ("copy '" ++ fromFilePath ++ "' to '" ++ toFilePath
          ++ "': open destination: " ++ err.message) err)), (fs.Close src s3).2)
      | some ((n, none), s3) => some ((n, none), (fs.Close src s3).2)

/-- The function `moveFile`. -/
def moveFile {σ : Type} (fs : FileSystem σ) (fuel : Nat) (fromFilePath toFilePath : String)
    (s : σ) : Option ((Int × Option Error) × σ) :=
  match fs.Stat fromFilePath s with
  | (.error err, s1) =>
    some ((0, some (Error.wrapError ("move '" ++ fromFilePath ++ "' to '" ++ toFilePath
      ++ "': stat source: " ++ err.message) err)), s1)
  | (.ok fileInfo, s1) =>
    match openFile fs fromFilePath O_RDONLY 0o660 s1 with
    | (.error err, s2) =>
      some ((0, some (Error.wrapError ("move '" ++ fromFilePath ++ "' to '" ++ toFilePath
        ++ "': open source: " ++ err.message) err)), s2)
    | (.ok src, s2) =>
      match writeFile fs fuel toFilePath (fileReader fs src) () fileInfo.Perm s2 with
      | none => none
      | some ((n, some err), s3) =>
        some ((n, some (Error.wrapError ("move '" ++ fromFilePath ++ "' to '" ++ toFilePath
          ++ "': open destination: " ++ err.message) err)), (fs.Close src s3).2)
      | some ((n, none), s3) =>
        match fs.Remove fromFilePath s3 with
        | (some err, s4) =>
          some ((n, some (Error.wrapError ("move '" ++ fromFilePath ++ "' to '" ++ toFilePath
            ++ "': Remove source: " ++ err.message) err)), (fs.Close src s4).2)
        | (none, s4) => some ((n, none), (fs.Close src s4).2)

/-! ## `fio_api.go` -/

/-- The exported function `OpenFile`; `Except.error` is the panic raised by
`panik.OnError`. The type assertion `file.(*os.File)`, which holds for every file the
production filesystem returns, is not modelled. -/
def OpenFile {σ : Type} (fs : FileSystem σ) (filePath : String) (flag : Int) (perm : Nat)
    (s : σ) : Except Error File × σ :=
  match fs.OpenFile filePath flag perm s with
  | (.error err, s1) => (.error err, s1)
  | (.ok file, s1) => (.ok file, s1)

/-! ## A reference filesystem

Regular files under path names, each with its content and permission bits; open
descriptors with their access mode and offset; the whole-file advisory lock the process
holds on each path; the process umask; and a script of injected failures, one entry per
call, by which any call can be made to fail for a reason outside the model (permissions,
contention with another process, a full disk). Not modelled: directories and links (a
path names at most one file and distinct paths name distinct files), other processes
changing files, flag bits other than the access mode, `O_CREATE` and `O_TRUNC`, and lock
ranges. A descriptor finds its file through its path.

The locks are the record locks of `fcntl(2)`, which `syscall.FcntlFlock` requests: they
belong to the process and the file, not to the descriptor. A new lock on a file the
process has already locked replaces the old one, and closing any descriptor of a file
releases the process's locks on that file. -/

/-- A regular file: content and permission bits. -/
structure FileData where
  content : List Byte
  perm : Nat
deriving DecidableEq, Repr

/-- An open descriptor. -/
structure Handle where
  path : String
  flag : Int
  offset : Nat
deriving DecidableEq, Repr

/-- The state of the reference filesystem. -/
structure World where
  files : String → Option FileData
  handles : Nat → Option Handle
  locks : String → Option Int
  nextFd : Nat
  umask : Nat
  faults : List (Option String)

/-- The error `ENOENT`. -/
def ENOENT : Error := Error.sys "no such file or directory" true

/-- The error `EBADF`. -/
def EBADF : Error := Error.sys "bad file descriptor" false

/-- The error `EINVAL`. -/
def EINVAL : Error := Error.sys "invalid argument" false

/-- Take the next entry of the failure script; an exhausted script injects nothing. -/
def World.popFault (w : World) : Option Error × World :=
  ((w.faults.headD none).map (fun msg => Error.sys msg false), { w with faults := w.faults.tail })

/-- The access mode of a flag word. -/
def accessModeOf (flag : Int) : Int := Int.land flag 3

/-- Whether a descriptor opened with `flag` may be read. -/
def readable (flag : Int) : Bool :=
  decide (accessModeOf flag = O_RDONLY) || decide (accessModeOf flag = O_RDWR)

/-- Whether a descriptor opened with `flag` may be written. -/
def writable (flag : Int) : Bool :=
  decide (accessModeOf flag = O_WRONLY) || decide (accessModeOf flag = O_RDWR)

/-- The mode a file created with `perm` gets under `umask`. -/
def createMode (umask perm : Nat) : Nat := (perm &&& 0o777) &&& (0o777 ^^^ (umask &&& 0o777))

/-- Register a new descriptor for `name`. -/
def World.newHandle (w : World) (name : String) (flag : Int) : File × World :=
  ({ fd := w.nextFd, name := name },
   { w with handles := Function.update w.handles w.nextFd
              (some { path := name, flag := flag, offset := 0 }),
            nextFd := w.nextFd + 1 })

/-- The call `open(2)`: an absent path is created with `O_CREATE` (mode `perm` less the
umask) and is an error without it; an existing file keeps its mode and is emptied by
`O_TRUNC`. -/
def posixOpenFile (name : String) (flag : Int) (perm : Nat) (w : World) :
    Except Error File × World :=
  match w.popFault with
  | (some e, w1) => (.error e, w1)
  | (none, w1) =>
    match w1.files name with
    | none =>
      if Int.land flag O_CREATE ≠ 0 then
        let r := World.newHandle
          { w1 with files := Function.update w1.files name
                      (some { content := [], perm := createMode w1.umask perm }) } name flag
        (.ok r.1, r.2)
      else (.error ENOENT, w1)
    | some file =>
      if Int.land flag O_TRUNC ≠ 0 then
        let r := World.newHandle
          { w1 with files := Function.update w1.files name (some { file with content := [] }) }
          name flag
        (.ok r.1, r.2)
      else
        let r := World.newHandle w1 name flag
        (.ok r.1, r.2)

/-- The call `fcntl(fd, F_SETLK, lk)` on the whole file: a read lock needs a readable
descriptor and a write lock a writable one; the process's lock on the file is replaced. -/
def posixFcntlFlock (fd : Nat) (cmd : Int) (lk : Flock_t) (w : World) : Option Error × World :=
  match w.popFault with
  | (some e, w1) => (some e, w1)
  | (none, w1) =>
    match w1.handles fd with
    | none => (some EBADF, w1)
    | some h =>
      if cmd ≠ F_SETLK then (some EINVAL, w1)
      else if lk.Typ = F_RDLCK then
        if readable h.flag then
          (none, { w1 with locks := Function.update w1.locks h.path (some F_RDLCK) })
        else (some EBADF, w1)
      else if lk.Typ = F_WRLCK then
        if writable h.flag then
          (none, { w1 with locks := Function.update w1.locks h.path (some F_WRLCK) })
        else (some EBADF, w1)
      else if lk.Typ = F_UNLCK then
        (none, { w1 with locks := Function.update w1.locks h.path none })
      else (some EINVAL, w1)

/-- The call `unlink(2)`. -/
def posixRemove (name : String) (w : World) : Option Error × World :=
  match w.popFault with
  | (some e, w1) => (some e, w1)
  | (none, w1) =>
    match w1.files name with
    | none => (some ENOENT, w1)
    | some _ => (none, { w1 with files := Function.update w1.files name none })

/-- The call `stat(2)`. -/
def posixStat (name : String) (w : World) : Except Error FileInfo × World :=
  match w.popFault with
  | (some e, w1) => (.error e, w1)
  | (none, w1) =>
    match w1.files name with
    | none => (.error ENOENT, w1)
    | some file => (.ok { name := name, size := file.content.length, mode := file.perm }, w1)

/-- The method `(*os.File).Read`: up to `n` bytes from the offset, `io.EOF` at the end of
the file. -/
def posixRead (f : File) (n : Nat) (w : World) : (List Byte × Option Error) × World :=
  match w.popFault with
  | (some e, w1) => (([], some e), w1)
  | (none, w1) =>
    match w1.handles f.fd with
    | none => (([], some EBADF), w1)
    | some h =>
      if readable h.flag then
        match w1.files h.path with
        | none => (([], some EBADF), w1)
        | some file =>
          let chunk := (file.content.drop h.offset).take n
          if n = 0 then (([], none), w1)
          else if chunk = [] then (([], some Error.EOF), w1)
          else ((chunk, none),
            { w1 with handles := Function.update w1.handles f.fd
                        (some { h with offset := h.offset + chunk.length }) })
      else (([], some EBADF), w1)

/-- The method `(*os.File).Write`: the bytes replace the content from the offset on, a
gap before the offset is filled with zero bytes. -/
def posixWrite (f : File) (p : List Byte) (w : World) : (Int × Option Error) × World :=
  match w.popFault with
  | (some e, w1) => ((0, some e), w1)
  | (none, w1) =>
    match w1.handles f.fd with
    | none => ((0, some EBADF), w1)
    | some h =>
      if writable h.flag then
        match w1.files h.path with
        | none => ((0, some EBADF), w1)
        | some file =>
          let content := file.content.take h.offset
            ++ List.replicate (h.offset - file.content.length) 0
            ++ p ++ file.content.drop (h.offset + p.length)
          ((p.length, none),
            { w1 with files := Function.update w1.files h.path (some { file with content := content }),
                      handles := Function.update w1.handles f.fd
                        (some { h with offset := h.offset + p.length }) })
      else ((0, some EBADF), w1)

/-- The method `(*os.File).Close`: the descriptor is released, and with it every lock the
process holds on the file, also when the call reports an error. -/
def posixClose (f : File) (w : World) : Option Error × World :=
  match w.popFault with
  | (fault, w1) =>
    match w1.handles f.fd with
    | none => (some EBADF, w1)
    | some h =>
      (fault, { w1 with handles := Function.update w1.handles f.fd none,
                        locks := Function.update w1.locks h.path none })

/-- The reference filesystem as an `fsi.FileSystem`. -/
def posix : FileSystem World where
  OpenFile := posixOpenFile
  FcntlFlock := posixFcntlFlock
  Remove := posixRemove
  Stat := posixStat
  Read := posixRead
  Write := posixWrite
  Close := posixClose

/-- A world holding the given files, with no open descriptor, no lock and no injected
failure. -/
def World.ofFiles (files : String → Option FileData) (umask : Nat) : World :=
  { files := files, handles := fun _ => none, locks := fun _ => none, nextFd := 3,
    umask := umask, faults := [] }

/-! ## Notions used in the statements -/

/-- No failure is injected: every entry of the failure script is empty. -/
def World.NoFaults (w : World) : Prop := ∀ f ∈ w.faults, f = none

instance (w : World) : Decidable w.NoFaults :=
  inferInstanceAs (Decidable (∀ f ∈ w.faults, f = none))

/-- The mode of `name` once it has been opened with `O_CREATE`: the mode it had, or the
mode a new file gets. -/
def destMode (w : World) (name : String) (perm : Nat) : Nat :=
  match w.files name with
  | none => createMode w.umask perm
  | some file => file.perm

/-- A reader that is not a filesystem handle, run next to the recorder: its reads are not
filesystem calls and leave the log alone. -/
def liftReader {ρ σ : Type} (reader : Reader ρ σ) : Reader ρ (σ × List Call) :=
  fun n r s => let x := reader n r s.1; (x.1, x.2.1, x.2.2, s.2)

/-- The reader `rd'` on the recorded filesystem behaves as `rd` on the plain one and
records only calls satisfying `P`. -/
def Records {ρ σ : Type} (P : Call → Prop) (rd' : Reader ρ (σ × List Call))
    (rd : Reader ρ σ) : Prop :=
  ∀ n r s log, ∃ tr, (∀ c ∈ tr, P c)
    ∧ rd' n r (s, log) = ((rd n r s).1, (rd n r s).2.1, (rd n r s).2.2, log ++ tr)

/-- The error `writeFile` returns after a copy error `e`, given what the rollback
`Remove` answered. -/
def rollbackError (e : Error) (remRes : Option Error) : Error :=
  match remRes with
  | some remErr =>
    if !IsNotExist remErr then
      Error.wrapError (e.message ++ ". Then: " ++ remErr.message) e
    else e
  | none => e

/-- The bytes a handle yields to successive `Read` calls of `readAllChunk` bytes, up to and
including the first call that reports an error, within `fuel` calls. -/
def yieldedBytes {σ : Type} (fs : FileSystem σ) (f : File) : Nat → σ → List Byte
  | 0, _ => []
  | fuel + 1, s =>
    match fs.Read f readAllChunk s with
    | ((p, some _), _) => p
    | ((p, none), s1) => p ++ yieldedBytes fs f fuel s1

/-- The bytes of the file behind descriptor `fd` that lie after its offset. -/
def unreadLength (w : World) (fd : Nat) : Nat :=
  match w.handles fd with
  | none => 0
  | some h =>
    match w.files h.path with
    | none => 0
    | some file => file.content.length - h.offset

/-! ## Example data -/

/-- A stream that yields the given chunks, one per `Read`, and then reports `final`
(`io.EOF` for a stream that ends, any other error for one that breaks). -/
def scriptReader {σ : Type} (final : Error) : Reader (List (List Byte)) σ :=
  fun _ chunks s =>
    match chunks with
    | [] => (([], some final), [], s)
    | c :: rest => ((c, none), rest, s)

/-- The bytes of "Hello World". -/
def helloWorld : List Byte := [72, 101, 108, 108, 111, 32, 87, 111, 114, 108, 100]

/-- A world whose only file is `foo`, holding "Hello World" with mode 0644, under umask
022. -/
def fooWorld : World :=
  World.ofFiles (fun p => if p = "foo" then some { content := helloWorld, perm := 0o644 }
    else none) 0o022

/-- A world with `foo` ("Hello World", mode 0644) and `bar` (one byte, mode 0600), under
umask 0. -/
def fooBarWorld : World :=
  World.ofFiles (fun p =>
    if p = "foo" then some { content := helloWorld, perm := 0o644 }
    else if p = "bar" then some { content := [33], perm := 0o600 }
    else none) 0

/-- A world whose only file is `foo`, holding "Hello World" with mode 0666, under umask
022. -/
def fooWideWorld : World :=
  World.ofFiles (fun p => if p = "foo" then some { content := helloWorld, perm := 0o666 }
    else none) 0o022

/-- The empty world under umask 0. -/
def emptyWorld : World := World.ofFiles (fun _ => none) 0

/-! ## Calls made, as functions of the arguments -/

/-- The calls `lockForFlag fd flag` makes. -/
def lockCalls (fd : Nat) (flag : Int) : List Call :=
  if Int.land flag mask = O_RDWR ∨ Int.land flag mask = O_WRONLY then
    [Call.FcntlFlock fd F_SETLK wrLock]
  else if Int.land flag mask = O_RDONLY then [Call.FcntlFlock fd F_SETLK rdLock]
  else []

/-- The calls `openFile` makes from state `s`. -/
def openCalls {σ : Type} (fs : FileSystem σ) (filePath : String) (flag : Int) (perm : Nat)
    (s : σ) : List Call :=
  match fs.OpenFile filePath flag perm s with
  | (.error _, _) => [Call.OpenFile filePath flag perm]
  | (.ok file, s1) =>
    match lockForFlag fs file.fd flag s1 with
    | (some _, _) =>
      Call.OpenFile filePath flag perm :: (lockCalls file.fd flag ++ [Call.Close file])
    | (none, _) => Call.OpenFile filePath flag perm :: lockCalls file.fd flag

/-! ## Theorems -/

variable {σ ρ : Type}

theorem mask_eq : mask = 3 := by decide

theorem land_three_cases (n : Int) :
    Int.land n 3 = 0 ∨ Int.land n 3 = 1 ∨ Int.land n 3 = 2 ∨ Int.land n 3 = 3 := by
  cases n with
  | ofNat m =>
    have h : Int.land (Int.ofNat m) 3 = ((m &&& 3 : Nat) : Int) := rfl
    have h2 : m &&& 3 = m % 4 := Nat.and_pow_two_sub_one_eq_mod m 2
    rw [h, h2]
    omega
  | negSucc m =>
    have h : Int.land (Int.negSucc m) 3 = ((Nat.ldiff 3 m : Nat) : Int) := rfl
    have h3 : Nat.ldiff 3 m < 2 ^ 2 := by
      apply Nat.lt_pow_two_of_testBit
      intro i hi
      have h4 : Nat.testBit 3 i = false :=
        Nat.testBit_eq_false_of_lt
          (lt_of_lt_of_le (by decide : 3 < 2 ^ 2) (Nat.pow_le_pow_right (by decide) hi))
      simp [Nat.testBit_ldiff, h4]
    rw [h]
    omega

@[simp] theorem traced_OpenFile (fs : FileSystem σ) (name : String) (flag : Int) (perm : Nat)
    (s : σ × List Call) :
    (traced fs).OpenFile name flag perm s
      = ((fs.OpenFile name flag perm s.1).1, (fs.OpenFile name flag perm s.1).2,
          s.2 ++ [Call.OpenFile name flag perm]) := rfl

@[simp] theorem traced_FcntlFlock (fs : FileSystem σ) (fd : Nat) (cmd : Int) (lk : Flock_t)
    (s : σ × List Call) :
    (traced fs).FcntlFlock fd cmd lk s
      = ((fs.FcntlFlock fd cmd lk s.1).1, (fs.FcntlFlock fd cmd lk s.1).2,
          s.2 ++ [Call.FcntlFlock fd cmd lk]) := rfl

@[simp] theorem traced_Remove (fs : FileSystem σ) (name : String) (s : σ × List Call) :
    (traced fs).Remove name s
      = ((fs.Remove name s.1).1, (fs.Remove name s.1).2, s.2 ++ [Call.Remove name]) := rfl

@[simp] theorem traced_Stat (fs : FileSystem σ) (name : String) (s : σ × List Call) :
    (traced fs).Stat name s
      = ((fs.Stat name s.1).1, (fs.Stat name s.1).2, s.2 ++ [Call.Stat name]) := rfl

@[simp] theorem traced_Read (fs : FileSystem σ) (f : File) (n : Nat) (s : σ × List Call) :
    (traced fs).Read f n s
      = ((fs.Read f n s.1).1, (fs.Read f n s.1).2, s.2 ++ [Call.Read f]) := rfl

@[simp] theorem traced_Write (fs : FileSystem σ) (f : File) (p : List Byte)
    (s : σ × List Call) :
    (traced fs).Write f p s
      = ((fs.Write f p s.1).1, (fs.Write f p s.1).2, s.2 ++ [Call.Write f p]) := rfl

@[simp] theorem traced_Close (fs : FileSystem σ) (f : File) (s : σ × List Call) :
    (traced fs).Close f s
      = ((fs.Close f s.1).1, (fs.Close f s.1).2, s.2 ++ [Call.Close f]) := rfl

theorem lockForFlag_traced (fs : FileSystem σ) (fd : Nat) (flag : Int) (s : σ)
    (log : List Call) :
    lockForFlag (traced fs) fd flag (s, log)
      = ((lockForFlag fs fd flag s).1, (lockForFlag fs fd flag s).2,
          log ++ lockCalls fd flag) := by
  unfold lockForFlag lockCalls
  by_cases h1 : Int.land flag mask = O_RDWR ∨ Int.land flag mask = O_WRONLY
  · simp only [if_pos h1, traced_FcntlFlock]
    rcases h : fs.FcntlFlock fd F_SETLK wrLock s with ⟨_ | e, s1⟩ <;> simp [h]
  · by_cases h2 : Int.land flag mask = O_RDONLY
    · simp only [if_neg h1, if_pos h2, traced_FcntlFlock]
      rcases h : fs.FcntlFlock fd F_SETLK rdLock s with ⟨_ | e, s1⟩ <;> simp [h]
    · simp only [if_neg h1, if_neg h2, List.append_nil]

theorem openFile_traced (fs : FileSystem σ) (filePath : String) (flag : Int) (perm : Nat)
    (s : σ) (log : List Call) :
    openFile (traced fs) filePath flag perm (s, log)
      = ((openFile fs filePath flag perm s).1, (openFile fs filePath flag perm s).2,
          log ++ openCalls fs filePath flag perm s) := by
  unfold openFile openCalls
  simp only [traced_OpenFile]
  rcases h : fs.OpenFile filePath flag perm s with ⟨e | file, s1⟩
  · simp
  · simp only [lockForFlag_traced]
    rcases h2 : lockForFlag fs file.fd flag s1 with ⟨_ | le, s2⟩ <;> simp

/-- The exported `OpenFile` makes one call, the open itself: no `FcntlFlock` request is
issued, whatever the flag and whatever the filesystem answers. -/
theorem OpenFile_calls (fs : FileSystem σ) (filePath : String) (flag : Int)
    (perm : Nat) (s : σ) :
    (OpenFile (traced fs) filePath flag perm (s, [])).2.2
        = [Call.OpenFile filePath flag perm]
      ∧ ∀ fd cmd lk, Call.FcntlFlock fd cmd lk ∉
          (OpenFile (traced fs) filePath flag perm (s, [])).2.2 := by
  have h : (OpenFile (traced fs) filePath flag perm (s, [])).2.2
      = [Call.OpenFile filePath flag perm] := by
    unfold OpenFile
    simp only [traced_OpenFile]
    rcases h : fs.OpenFile filePath flag perm s with ⟨e | file, s1⟩ <;> simp
  refine ⟨h, ?_⟩
  intro fd cmd lk
  rw [h]
  simp

/-- C2: `lockForFlag` on the access mode `flag & mask`, which is one of 0, 1, 2, 3: for
`O_RDONLY`, `O_WRONLY` and `O_RDWR` it issues exactly one request, with command `F_SETLK`
(not `F_SETLKW`) for the whole file (`Whence = SeekStart`, `Start = 0`, `Len = 0`), of type
`F_RDLCK` exactly for `O_RDONLY` and `F_WRLCK` exactly for `O_WRONLY` and `O_RDWR`; for
access mode 3 it issues no request, leaves the filesystem untouched and returns an error. -/
theorem lockForFlag_one_nonblocking_whole_file_request (fs : FileSystem σ) (fd : Nat)
    (flag : Int) (s : σ) :
    (Int.land flag mask = O_RDONLY ∨ Int.land flag mask = O_WRONLY
        ∨ Int.land flag mask = O_RDWR ∨ Int.land flag mask = 3)
      ∧ (Int.land flag mask ≠ 3 →
          ∃ lk, (lockForFlag (traced fs) fd flag (s, [])).2.2 = [Call.FcntlFlock fd F_SETLK lk]
            ∧ F_SETLK ≠ F_SETLKW
            ∧ lk.Whence = SeekStart ∧ lk.Start = 0 ∧ lk.Len = 0
            ∧ (lk.Typ = F_RDLCK ↔ Int.land flag mask = O_RDONLY)
            ∧ (lk.Typ = F_WRLCK ↔
                (Int.land flag mask = O_WRONLY ∨ Int.land flag mask = O_RDWR)))
      ∧ (Int.land flag mask = 3 →
          (lockForFlag (traced fs) fd flag (s, [])).2 = (s, [])
            ∧ ∃ err, (lockForFlag (traced fs) fd flag (s, [])).1 = some err) := by
  have hm : mask = 3 := mask_eq
  have hc : Int.land flag mask = 0 ∨ Int.land flag mask = 1 ∨ Int.land flag mask = 2
      ∨ Int.land flag mask = 3 := by
    rw [hm]
    exact land_three_cases flag
  refine ⟨?_, ?_, ?_⟩
  · rcases hc with h | h | h | h <;> simp [h, O_RDONLY, O_WRONLY, O_RDWR]
  · intro h3
    rw [lockForFlag_traced]
    unfold lockCalls
    rcases hc with h | h | h | h
    · refine ⟨rdLock, ?_⟩
      simp [h, O_RDONLY, O_WRONLY, O_RDWR, rdLock, lockWithType, F_SETLK, F_SETLKW, F_RDLCK,
        F_WRLCK, SeekStart]
    · refine ⟨wrLock, ?_⟩
      simp [h, O_RDONLY, O_WRONLY, O_RDWR, wrLock, lockWithType, F_SETLK, F_SETLKW, F_RDLCK,
        F_WRLCK, SeekStart]
    · refine ⟨wrLock, ?_⟩
      simp [h, O_RDONLY, O_WRONLY, O_RDWR, wrLock, lockWithType, F_SETLK, F_SETLKW, F_RDLCK,
        F_WRLCK, SeekStart]
    · exact absurd h h3
  · intro h3
    rw [lockForFlag_traced]
    unfold lockCalls lockForFlag
    simp [h3, O_RDONLY, O_WRONLY, O_RDWR]

theorem lockForFlag_one_nonblocking_whole_file_request_witness :
    Int.land O_RDONLY mask ≠ 3
      ∧ ∃ lk, (lockForFlag (traced posix) 3 O_RDONLY (fooWorld, [])).2.2
            = [Call.FcntlFlock 3 F_SETLK lk]
          ∧ F_SETLK ≠ F_SETLKW
          ∧ lk.Whence = SeekStart ∧ lk.Start = 0 ∧ lk.Len = 0
          ∧ (lk.Typ = F_RDLCK ↔ Int.land O_RDONLY mask = O_RDONLY)
          ∧ (lk.Typ = F_WRLCK ↔
              (Int.land O_RDONLY mask = O_WRONLY ∨ Int.land O_RDONLY mask = O_RDWR)) :=
  ⟨by decide,
    (lockForFlag_one_nonblocking_whole_file_request posix 3 O_RDONLY fooWorld).2.1
      (by decide)⟩

/-- C1 (the code at the failing input): on a filesystem that holds `foo`, the exported
`OpenFile("foo", O_RDONLY, 0660)` returns a file after a single call, the open itself; no
`FcntlFlock` request is made and the process holds no lock on `foo`, whereas the internal
`openFile` with the same arguments requests and obtains the read lock. -/
theorem OpenFile_foo_returns_file_without_lock :
    (OpenFile (traced posix) "foo" O_RDONLY 0o660 (fooWorld, [])).1 = .ok ⟨3, "foo"⟩
      ∧ (OpenFile (traced posix) "foo" O_RDONLY 0o660 (fooWorld, [])).2.2
          = [Call.OpenFile "foo" O_RDONLY 0o660]
      ∧ (OpenFile (traced posix) "foo" O_RDONLY 0o660 (fooWorld, [])).2.1.locks "foo" = none
      ∧ (openFile (traced posix) "foo" O_RDONLY 0o660 (fooWorld, [])).2.2
          = [Call.OpenFile "foo" O_RDONLY 0o660, Call.FcntlFlock 3 F_SETLK rdLock]
      ∧ (openFile (traced posix) "foo" O_RDONLY 0o660 (fooWorld, [])).2.1.locks "foo"
          = some F_RDLCK := by
  refine ⟨by decide, by decide, by decide, by decide, by decide⟩

theorem lockCalls_shape (fd : Nat) (flag : Int) (c : Call) (h : c ∈ lockCalls fd flag) :
    ∃ lk, c = Call.FcntlFlock fd F_SETLK lk := by
  unfold lockCalls at h
  split_ifs at h
  · exact ⟨wrLock, by simpa using h⟩
  · exact ⟨rdLock, by simpa using h⟩
  · simp at h

theorem lockCalls_count_Close (fd : Nat) (flag : Int) (f : File) :
    (lockCalls fd flag).count (Call.Close f) = 0 := by
  rw [List.count_eq_zero]
  intro h
  obtain ⟨lk, hlk⟩ := lockCalls_shape fd flag _ h
  cases hlk

/-- C3: `openFile` hands path, flag and permission unchanged to the filesystem's
`OpenFile`, which is its first call. If that open fails, the error is returned as it is and
nothing else is called. If the open succeeds and `lockForFlag` fails, the handle just
opened is closed exactly once, after the lock request, and the result is no handle and an
error that wraps the lock error. If the lock succeeds, that handle is returned and no
`Close` is called. -/
theorem openFile_open_lock_close (fs : FileSystem σ) (filePath : String) (flag : Int)
    (perm : Nat) (s : σ) :
    (∃ rest, (openFile (traced fs) filePath flag perm (s, [])).2.2
        = Call.OpenFile filePath flag perm :: rest)
      ∧ (∀ e s1, fs.OpenFile filePath flag perm s = (.error e, s1) →
          openFile (traced fs) filePath flag perm (s, [])
            = (.error e, s1, [Call.OpenFile filePath flag perm]))
      ∧ (∀ file s1 le s2, fs.OpenFile filePath flag perm s = (.ok file, s1) →
          lockForFlag fs file.fd flag s1 = (some le, s2) →
          ∃ err, openFile (traced fs) filePath flag perm (s, [])
              = (.error err, (fs.Close file s2).2,
                  Call.OpenFile filePath flag perm
                    :: (lockCalls file.fd flag ++ [Call.Close file]))
            ∧ err.Unwrap = some le
            ∧ (Call.OpenFile filePath flag perm
                :: (lockCalls file.fd flag ++ [Call.Close file])).count (Call.Close file) = 1)
      ∧ (∀ file s1 s2, fs.OpenFile filePath flag perm s = (.ok file, s1) →
          lockForFlag fs file.fd flag s1 = (none, s2) →
          openFile (traced fs) filePath flag perm (s, [])
              = (.ok file, s2, Call.OpenFile filePath flag perm :: lockCalls file.fd flag)
            ∧ ∀ f, Call.Close f ∉
                Call.OpenFile filePath flag perm :: lockCalls file.fd flag) := by
  rw [openFile_traced]
  unfold openFile openCalls
  refine ⟨?_, ?_, ?_, ?_⟩
  · rcases h : fs.OpenFile filePath flag perm s with ⟨e | file, s1⟩
    · exact ⟨[], by simp⟩
    · rcases h2 : lockForFlag fs file.fd flag s1 with ⟨_ | le, s2⟩
      · exact ⟨lockCalls file.fd flag, by simp [h2]⟩
      · exact ⟨lockCalls file.fd flag ++ [Call.Close file], by simp [h2]⟩
  · intro e s1 h
    simp [h]
  · intro file s1 le s2 h h2
    refine ⟨Error.wrapError ("open '" ++ filePath ++ "': " ++ le.message) le, ?_, rfl, ?_⟩
    · simp [h, h2]
    · rw [List.count_cons, List.count_append, lockCalls_count_Close]
      simp
  · intro file s1 s2 h h2
    refine ⟨by simp [h, h2], ?_⟩
    intro f hf
    rcases List.mem_cons.1 hf with hf | hf
    · cases hf
    · obtain ⟨lk, hlk⟩ := lockCalls_shape _ _ _ hf
      cases hlk

theorem openFile_open_lock_close_witness :
    ∃ err, openFile (traced posix) "bar" (Int.lor (Int.lor O_WRONLY O_TRUNC) O_CREATE) 0o660
          ({ emptyWorld with faults := [none, some "resource temporarily unavailable"] }, [])
        = (.error err,
            (posix.Close ⟨3, "bar"⟩
              (posix.FcntlFlock 3 F_SETLK wrLock
                (posix.OpenFile "bar" (Int.lor (Int.lor O_WRONLY O_TRUNC) O_CREATE) 0o660
                  { emptyWorld with
                    faults := [none, some "resource temporarily unavailable"] }).2).2).2,
            Call.OpenFile "bar" (Int.lor (Int.lor O_WRONLY O_TRUNC) O_CREATE) 0o660
              :: (lockCalls 3 (Int.lor (Int.lor O_WRONLY O_TRUNC) O_CREATE)
                  ++ [Call.Close ⟨3, "bar"⟩]))
      ∧ err.Unwrap
        = some (Error.wrapError "acquire write-lock: resource temporarily unavailable"
            (Error.sys "resource temporarily unavailable" false))
      ∧ (Call.OpenFile "bar" (Int.lor (Int.lor O_WRONLY O_TRUNC) O_CREATE) 0o660
              :: (lockCalls 3 (Int.lor (Int.lor O_WRONLY O_TRUNC) O_CREATE)
                  ++ [Call.Close ⟨3, "bar"⟩])).count (Call.Close ⟨3, "bar"⟩) = 1 :=
  (openFile_open_lock_close posix "bar" (Int.lor (Int.lor O_WRONLY O_TRUNC) O_CREATE) 0o660
      { emptyWorld with faults := [none, some "resource temporarily unavailable"] }).2.2.1
    ⟨3, "bar"⟩ _
    (Error.wrapError "acquire write-lock: resource temporarily unavailable"
      (Error.sys "resource temporarily unavailable" false)) _ rfl rfl

theorem NoFaults_popFault (w : World) (h : w.NoFaults) :
    w.popFault.1 = none ∧ w.popFault.2.NoFaults := by
  unfold World.popFault World.NoFaults at *
  cases hf : w.faults with
  | nil => simp
  | cons a l =>
    rw [hf] at h
    have ha : a = none := h a (by simp)
    subst ha
    simp only [List.headD_cons, Option.map_none', List.tail_cons, true_and]
    intro f hfm
    exact h f (by simp [hfm])

theorem writable_create : writable (Int.lor (Int.lor O_WRONLY O_TRUNC) O_CREATE) = true := by
  decide

theorem posixWrite_append (f : File) (p done : List Byte) (w : World) (path : String)
    (flag : Int) (pm : Nat) (hnf : w.NoFaults)
    (hh : w.handles f.fd = some ⟨path, flag, done.length⟩) (hw : writable flag = true)
    (hfile : w.files path = some ⟨done, pm⟩) :
    posixWrite f p w
      = (((p.length : Int), (none : Option Error)),
          { files := Function.update w.files path (some ⟨done ++ p, pm⟩),
            handles := Function.update w.handles f.fd (some ⟨path, flag, done.length + p.length⟩),
            locks := w.locks, nextFd := w.nextFd, umask := w.umask,
            faults := w.faults.tail }) := by
  obtain ⟨hp1, -⟩ := NoFaults_popFault w hnf
  unfold posixWrite
  have hp : w.popFault = (none, { w with faults := w.faults.tail }) := by
    rw [← hp1]
    rfl
  have hd : List.drop (done.length + p.length) done = [] :=
    List.drop_eq_nil_of_le (Nat.le_add_right _ _)
  rw [hp]
  simp [hh, hw, hfile, hd]

theorem writeChunk_posix_append (f : File) (p done : List Byte) (written : Int) (w : World)
    (path : String) (flag : Int) (pm : Nat) (hnf : w.NoFaults)
    (hh : w.handles f.fd = some ⟨path, flag, done.length⟩) (hw : writable flag = true)
    (hfile : w.files path = some ⟨done, pm⟩) :
    writeChunk posix f p written w
      = ((written + p.length, none),
          { files := Function.update w.files path (some ⟨done ++ p, pm⟩),
            handles := Function.update w.handles f.fd (some ⟨path, flag, done.length + p.length⟩),
            locks := w.locks, nextFd := w.nextFd, umask := w.umask,
            faults := w.faults.tail }) := by
  unfold writeChunk
  have h : posix.Write f p w = posixWrite f p w := rfl
  have hneg : ¬ ((p.length : Int) < 0) := by omega
  rw [h, posixWrite_append f p done w path flag pm hnf hh hw hfile]
  simp [chunkResult, hneg]

theorem Copy_bytes_posix (dst : File) (path : String) (flag : Int) (pm : Nat)
    (hw : writable flag = true) :
    ∀ (fuel : Nat) (rest done : List Byte) (written : Int) (w : World),
      w.NoFaults →
      w.handles dst.fd = some ⟨path, flag, done.length⟩ →
      w.files path = some ⟨done, pm⟩ →
      rest.length < fuel →
      ∃ w', Copy posix dst bytesReader fuel written rest w
            = some ((written + rest.length, none), [], w')
        ∧ w'.files = Function.update w.files path (some ⟨done ++ rest, pm⟩)
        ∧ w'.handles
            = Function.update w.handles dst.fd (some ⟨path, flag, done.length + rest.length⟩)
        ∧ w'.locks = w.locks ∧ w'.nextFd = w.nextFd ∧ w'.umask = w.umask ∧ w'.NoFaults := by
  intro fuel
  induction fuel with
  | zero => intro rest done written w _ _ _ h; exact absurd h (Nat.not_lt_zero _)
  | succ fuel ih =>
    intro rest done written w hnf hh hfile hlt
    by_cases hrest : rest = []
    · subst hrest
      refine ⟨w, ?_, ?_, ?_, rfl, rfl, rfl, hnf⟩
      · simp [Copy, bytesReader]
      · simp [← hfile]
      · simp [← hh]
    · obtain ⟨hp1, hp2⟩ := NoFaults_popFault w hnf
      have hbuf : 0 < (rest.take copyBufSize).length := by
        cases rest with
        | nil => exact absurd rfl hrest
        | cons a l => simp [copyBufSize]
      have hstep := writeChunk_posix_append dst (rest.take copyBufSize) done written w path flag
        pm hnf hh hw hfile
      have hdrop : (rest.drop copyBufSize).length < fuel := by
        have h1 : (rest.drop copyBufSize).length = rest.length - copyBufSize := List.length_drop _ _
        have h2 : 0 < rest.length := List.length_pos.2 hrest
        have h3 : 0 < copyBufSize := by decide
        omega
      obtain ⟨w', hc, hf, hhd, hl, hn, hu, hnf'⟩ :=
        ih (rest.drop copyBufSize) (done ++ rest.take copyBufSize)
          (written + (rest.take copyBufSize).length)
          { files := Function.update w.files path (some ⟨done ++ rest.take copyBufSize, pm⟩),
            handles := Function.update w.handles dst.fd
              (some ⟨path, flag, done.length + (rest.take copyBufSize).length⟩),
            locks := w.locks, nextFd := w.nextFd, umask := w.umask, faults := w.faults.tail }
          hp2 (by simp) (by simp) hdrop
      have hlen : (rest.take copyBufSize).length + (rest.drop copyBufSize).length = rest.length := by
        rw [← List.length_append, List.take_append_drop]
      refine ⟨w', ?_, ?_, ?_, hl, hn, hu, hnf'⟩
      · rw [Copy]
        simp only [bytesReader, if_neg hrest, if_pos hbuf, hstep]
        rw [hc]
        have : written + ((rest.take copyBufSize).length : Int) + ((rest.drop copyBufSize).length : Int)
            = written + (rest.length : Int) := by
          rw [← hlen]; push_cast; ring
        rw [this]
      · rw [hf]
        simp [List.append_assoc]
      · rw [hhd]
        simp only [List.length_append, Function.update_idem]
        rw [Nat.add_assoc, hlen]

theorem popFault_of_NoFaults (w : World) (h : w.NoFaults) :
    w.popFault = (none, { w with faults := w.faults.tail }) := by
  have h1 := (NoFaults_popFault w h).1
  rw [← h1]
  rfl

theorem NoFaults_tail (w w' : World) (h : w.NoFaults) (h' : w'.faults = w.faults.tail) :
    w'.NoFaults := by
  intro f hf
  rw [h'] at hf
  exact h f (List.mem_of_mem_tail hf)

theorem posixOpenFile_create (w : World) (hnf : w.NoFaults) (name : String) (perm : Nat) :
    posixOpenFile name (Int.lor (Int.lor O_WRONLY O_TRUNC) O_CREATE) perm w
      = (.ok ⟨w.nextFd, name⟩,
          { files := Function.update w.files name (some ⟨[], destMode w name perm⟩),
            handles := Function.update w.handles w.nextFd
              (some ⟨name, Int.lor (Int.lor O_WRONLY O_TRUNC) O_CREATE, 0⟩),
            locks := w.locks, nextFd := w.nextFd + 1, umask := w.umask,
            faults := w.faults.tail }) := by
  unfold posixOpenFile destMode
  rw [popFault_of_NoFaults w hnf]
  have h1 : Int.land (Int.lor (Int.lor O_WRONLY O_TRUNC) O_CREATE) O_CREATE ≠ 0 := by decide
  have h2 : Int.land (Int.lor (Int.lor O_WRONLY O_TRUNC) O_CREATE) O_TRUNC ≠ 0 := by decide
  cases hf : w.files name <;> simp [hf, h1, h2, World.newHandle]

theorem posixFcntlFlock_write (w : World) (hnf : w.NoFaults) (fd : Nat) (h : Handle)
    (hh : w.handles fd = some h) (hw : writable h.flag = true) :
    posixFcntlFlock fd F_SETLK wrLock w
      = (none, { w with locks := Function.update w.locks h.path (some F_WRLCK),
                        faults := w.faults.tail }) := by
  unfold posixFcntlFlock
  rw [popFault_of_NoFaults w hnf]
  simp [hh, hw, wrLock, lockWithType, F_WRLCK, F_RDLCK]

theorem posixFcntlFlock_read (w : World) (hnf : w.NoFaults) (fd : Nat) (h : Handle)
    (hh : w.handles fd = some h) (hr : readable h.flag = true) :
    posixFcntlFlock fd F_SETLK rdLock w
      = (none, { w with locks := Function.update w.locks h.path (some F_RDLCK),
                        faults := w.faults.tail }) := by
  unfold posixFcntlFlock
  rw [popFault_of_NoFaults w hnf]
  simp [hh, hr, rdLock, lockWithType]

theorem posixClose_open (w : World) (hnf : w.NoFaults) (f : File) (h : Handle)
    (hh : w.handles f.fd = some h) :
    posixClose f w
      = (none, { w with handles := Function.update w.handles f.fd none,
                        locks := Function.update w.locks h.path none,
                        faults := w.faults.tail }) := by
  unfold posixClose
  rw [popFault_of_NoFaults w hnf]
  simp [hh]

theorem lockForFlag_posix_write (w : World) (hnf : w.NoFaults) (fd : Nat) (h : Handle)
    (hh : w.handles fd = some h) (hw : writable h.flag = true) :
    lockForFlag posix fd (Int.lor (Int.lor O_WRONLY O_TRUNC) O_CREATE) w
      = (none, { w with locks := Function.update w.locks h.path (some F_WRLCK),
                        faults := w.faults.tail }) := by
  unfold lockForFlag
  have h1 : Int.land (Int.lor (Int.lor O_WRONLY O_TRUNC) O_CREATE) mask = O_WRONLY := by decide
  have h2 : posix.FcntlFlock = posixFcntlFlock := rfl
  rw [if_pos (Or.inr h1), h2, posixFcntlFlock_write w hnf fd h hh hw]

theorem lockForFlag_posix_read (w : World) (hnf : w.NoFaults) (fd : Nat) (h : Handle)
    (hh : w.handles fd = some h) (hr : readable h.flag = true) :
    lockForFlag posix fd O_RDONLY w
      = (none, { w with locks := Function.update w.locks h.path (some F_RDLCK),
                        faults := w.faults.tail }) := by
  unfold lockForFlag
  have h0 : ¬ (Int.land O_RDONLY mask = O_RDWR ∨ Int.land O_RDONLY mask = O_WRONLY) := by decide
  have h1 : Int.land O_RDONLY mask = O_RDONLY := by decide
  have h2 : posix.FcntlFlock = posixFcntlFlock := rfl
  rw [if_neg h0, if_pos h1, h2, posixFcntlFlock_read w hnf fd h hh hr]

theorem take_append_drop_length {α : Type} (l : List α) (n : Nat) :
    l.take n ++ l.drop (l.take n).length = l := by
  rcases Nat.le_total n l.length with h | h
  · rw [List.length_take, Nat.min_eq_left h, List.take_append_drop]
  · rw [List.take_of_length_le h, List.drop_length, List.append_nil]

theorem posixRead_chunk (w : World) (hnf : w.NoFaults) (f : File) (n : Nat) (path : String)
    (flag : Int) (k : Nat) (content : List Byte) (pm : Nat)
    (hh : w.handles f.fd = some ⟨path, flag, k⟩) (hr : readable flag = true)
    (hfile : w.files path = some ⟨content, pm⟩) (hn : 0 < n) :
    posixRead f n w
      = if (content.drop k).take n = [] then (([], some Error.EOF), { w with faults := w.faults.tail })
        else (((content.drop k).take n, none),
          { w with handles := Function.update w.handles f.fd
                      (some ⟨path, flag, k + ((content.drop k).take n).length⟩),
                   faults := w.faults.tail }) := by
  unfold posixRead
  rw [popFault_of_NoFaults w hnf]
  have hn' : n ≠ 0 := Nat.pos_iff_ne_zero.1 hn
  simp only [hh, hr, hfile, if_true, if_neg hn']

theorem ReadAll_posix (f : File) (path : String) (flag : Int) (content : List Byte) (pm : Nat)
    (hr : readable flag = true) :
    ∀ (fuel : Nat) (b : List Byte) (k : Nat) (w : World),
      w.NoFaults →
      w.handles f.fd = some ⟨path, flag, k⟩ →
      w.files path = some ⟨content, pm⟩ →
      (content.drop k).length < fuel →
      ∃ w' k', ReadAll (fileReader posix f) fuel b () w
            = some ((b ++ content.drop k, none), (), w')
        ∧ w'.files = w.files
        ∧ w'.handles = Function.update w.handles f.fd (some ⟨path, flag, k'⟩)
        ∧ w'.locks = w.locks ∧ w'.nextFd = w.nextFd ∧ w'.umask = w.umask ∧ w'.NoFaults := by
  intro fuel
  induction fuel with
  | zero => intro b k w _ _ _ h; exact absurd h (Nat.not_lt_zero _)
  | succ fuel ih =>
    intro b k w hnf hh hfile hlt
    have hread := posixRead_chunk w hnf f readAllChunk path flag k content pm hh hr hfile
      (by decide)
    have hR : posix.Read f readAllChunk w = posixRead f readAllChunk w := rfl
    by_cases hrest : content.drop k = []
    · refine ⟨{ w with faults := w.faults.tail }, k, ?_, rfl, ?_, rfl, rfl, rfl,
        NoFaults_tail w _ hnf rfl⟩
      · rw [ReadAll]
        simp only [fileReader, hR, hread, hrest, List.take_nil, if_true, List.append_nil]
      · simp [← hh]
    · have hne : (content.drop k).take readAllChunk ≠ [] := by
        cases hc : content.drop k with
        | nil => exact absurd hc hrest
        | cons a l => simp [readAllChunk]
      have hsplit : (content.drop k).take readAllChunk
          ++ content.drop (k + ((content.drop k).take readAllChunk).length)
          = content.drop k := by
        have h1 := take_append_drop_length (content.drop k) readAllChunk
        rw [List.drop_drop] at h1
        exact h1
      have hpos : 0 < ((content.drop k).take readAllChunk).length := List.length_pos.2 hne
      have hlt' : (content.drop (k + ((content.drop k).take readAllChunk).length)).length
          < fuel := by
        have h2 := congrArg List.length hsplit
        rw [List.length_append] at h2
        omega
      obtain ⟨w', k', hc, hf, hhd, hl, hn, hu, hnf'⟩ :=
        ih (b ++ (content.drop k).take readAllChunk)
          (k + ((content.drop k).take readAllChunk).length)
          { w with handles := Function.update w.handles f.fd
                      (some ⟨path, flag, k + ((content.drop k).take readAllChunk).length⟩),
                   faults := w.faults.tail }
          (NoFaults_tail w _ hnf rfl) (by simp) hfile hlt'
      refine ⟨w', k', ?_, hf, ?_, hl, hn, hu, hnf'⟩
      · rw [ReadAll]
        simp only [fileReader, hR, hread, if_neg hne]
        rw [hc, List.append_assoc, hsplit]
      · rw [hhd]
        simp

theorem posixOpenFile_rdonly (w : World) (hnf : w.NoFaults) (name : String) (perm : Nat)
    (file : FileData) (hfile : w.files name = some file) :
    posixOpenFile name O_RDONLY perm w
      = (.ok ⟨w.nextFd, name⟩,
          { w with handles := Function.update w.handles w.nextFd (some ⟨name, O_RDONLY, 0⟩),
                   nextFd := w.nextFd + 1, faults := w.faults.tail }) := by
  unfold posixOpenFile
  rw [popFault_of_NoFaults w hnf]
  have h2 : ¬ Int.land O_RDONLY O_TRUNC ≠ 0 := by decide
  simp [hfile, h2, World.newHandle]

theorem writeFile_posix_bytes (w : World) (hnf : w.NoFaults) (filePath : String)
    (data : List Byte) (perm fuel : Nat) (hfuel : data.length < fuel) :
    ∃ w1, writeFile posix fuel filePath bytesReader data perm w
          = some (((data.length : Int), none), w1)
      ∧ w1.files = Function.update w.files filePath (some ⟨data, destMode w filePath perm⟩)
      ∧ w1.NoFaults := by
  have hO : posix.OpenFile = posixOpenFile := rfl
  have hC : posix.Close = posixClose := rfl
  have hopen := posixOpenFile_create w hnf filePath perm
  obtain ⟨wa, hw1⟩ : ∃ wa : World, wa =
          { files := Function.update w.files filePath (some ⟨[], destMode w filePath perm⟩),
            handles := Function.update w.handles w.nextFd
              (some ⟨filePath, Int.lor (Int.lor O_WRONLY O_TRUNC) O_CREATE, 0⟩),
            locks := w.locks, nextFd := w.nextFd + 1, umask := w.umask,
            faults := w.faults.tail } := ⟨_, rfl⟩
  rw [← hw1] at hopen
  have hwa_nf : wa.NoFaults := NoFaults_tail w wa hnf (by rw [hw1])
  have hwa_h : wa.handles w.nextFd
      = some ⟨filePath, Int.lor (Int.lor O_WRONLY O_TRUNC) O_CREATE, 0⟩ := by
    rw [hw1]; simp
  have hwa_f : wa.files filePath = some ⟨[], destMode w filePath perm⟩ := by
    rw [hw1]; simp
  have hwa_files : wa.files = Function.update w.files filePath (some ⟨[], destMode w filePath perm⟩) := by
    rw [hw1]
  have hlock := lockForFlag_posix_write wa hwa_nf w.nextFd _ hwa_h writable_create
  obtain ⟨wb, hw2⟩ : ∃ wb : World, wb =
          { wa with locks := Function.update wa.locks filePath (some F_WRLCK),
                    faults := wa.faults.tail } := ⟨_, rfl⟩
  rw [← hw2] at hlock
  have hwb_nf : wb.NoFaults := NoFaults_tail wa wb hwa_nf (by rw [hw2])
  have hwb_h : wb.handles (File.mk w.nextFd filePath).fd
      = some ⟨filePath, Int.lor (Int.lor O_WRONLY O_TRUNC) O_CREATE, ([] : List Byte).length⟩ := by
    rw [hw2]; exact hwa_h
  have hwb_f : wb.files filePath = some ⟨[], destMode w filePath perm⟩ := by
    rw [hw2]; exact hwa_f
  have hwb_files : wb.files = wa.files := by rw [hw2]
  obtain ⟨wc, hcopy, hcf, hch, -, -, -, hwc_nf⟩ :=
    Copy_bytes_posix ⟨w.nextFd, filePath⟩ filePath _ (destMode w filePath perm) writable_create
      fuel data [] 0 wb hwb_nf hwb_h hwb_f hfuel
  have hwc_h : wc.handles (File.mk w.nextFd filePath).fd
      = some ⟨filePath, Int.lor (Int.lor O_WRONLY O_TRUNC) O_CREATE,
          ([] : List Byte).length + data.length⟩ := by
    rw [hch]; simp
  have hclose := posixClose_open wc hwc_nf ⟨w.nextFd, filePath⟩ _ hwc_h
  refine ⟨(posixClose ⟨w.nextFd, filePath⟩ wc).2, ?_, ?_, ?_⟩
  · unfold writeFile openFile
    rw [hO, hopen]
    simp only [hlock, hcopy, zero_add, writeFileDeferred, hC]
    rfl
  · rw [hclose]
    simp [hcf, hwb_files, hwa_files]
  · rw [hclose]
    exact NoFaults_tail wc _ hwc_nf rfl

theorem readable_rdonly : readable O_RDONLY = true := by decide

theorem readFile_posix (w : World) (hnf : w.NoFaults) (filePath : String)
    (content : List Byte) (pm fuel : Nat) (hfile : w.files filePath = some ⟨content, pm⟩)
    (hfuel : content.length < fuel) :
    ∃ w2, readFile posix fuel filePath w = some (.ok content, w2) ∧ w2.files = w.files := by
  have hO : posix.OpenFile = posixOpenFile := rfl
  have hC : posix.Close = posixClose := rfl
  have hopen := posixOpenFile_rdonly w hnf filePath 0o660 _ hfile
  obtain ⟨wa, hw1⟩ : ∃ wa : World, wa =
      { w with handles := Function.update w.handles w.nextFd (some ⟨filePath, O_RDONLY, 0⟩),
               nextFd := w.nextFd + 1, faults := w.faults.tail } := ⟨_, rfl⟩
  rw [← hw1] at hopen
  have hwa_nf : wa.NoFaults := NoFaults_tail w wa hnf (by rw [hw1])
  have hwa_h : wa.handles w.nextFd = some ⟨filePath, O_RDONLY, 0⟩ := by
    rw [hw1]; simp
  have hwa_files : wa.files = w.files := by rw [hw1]
  have hlock := lockForFlag_posix_read wa hwa_nf w.nextFd _ hwa_h readable_rdonly
  obtain ⟨wb, hw2⟩ : ∃ wb : World, wb =
      { wa with locks := Function.update wa.locks filePath (some F_RDLCK),
                faults := wa.faults.tail } := ⟨_, rfl⟩
  rw [← hw2] at hlock
  have hwb_nf : wb.NoFaults := NoFaults_tail wa wb hwa_nf (by rw [hw2])
  have hwb_h : wb.handles (File.mk w.nextFd filePath).fd = some ⟨filePath, O_RDONLY, 0⟩ := by
    rw [hw2]; exact hwa_h
  have hwb_files : wb.files = wa.files := by rw [hw2]
  have hwb_f : wb.files filePath = some ⟨content, pm⟩ := by
    rw [hwb_files, hwa_files]; exact hfile
  obtain ⟨wc, k', hread, hcf, hch, -, -, -, hwc_nf⟩ :=
    ReadAll_posix ⟨w.nextFd, filePath⟩ filePath O_RDONLY content pm readable_rdonly
      fuel [] 0 wb hwb_nf hwb_h hwb_f (by simpa using hfuel)
  have hwc_h : wc.handles (File.mk w.nextFd filePath).fd = some ⟨filePath, O_RDONLY, k'⟩ := by
    rw [hch]; simp
  have hclose := posixClose_open wc hwc_nf ⟨w.nextFd, filePath⟩ _ hwc_h
  refine ⟨(posixClose ⟨w.nextFd, filePath⟩ wc).2, ?_, ?_⟩
  · unfold readFile
    rw [hO, hopen]
    simp only [hlock, hread, hC]
    simp
  · rw [hclose]
    simp [hcf, hwb_files, hwa_files]

/-- C4: on the reference filesystem with no injected failure, `writeFile` fed the reader
`bytes.NewReader(data)` returns `(len(data), nil)` and leaves exactly `data` as the content
of the destination, and `readFile` on the same path afterwards returns exactly `data`; both
return as soon as the fuel exceeds `len(data)`. -/
theorem writeFile_then_readFile_roundtrip (data : List Byte) (filePath : String)
    (perm fuel : Nat) (w : World) (hnf : w.NoFaults) (hfuel : data.length < fuel) :
    ∃ w1 w2, writeFile posix fuel filePath bytesReader data perm w
          = some (((data.length : Int), none), w1)
      ∧ (w1.files filePath).map FileData.content = some data
      ∧ readFile posix fuel filePath w1 = some (.ok data, w2) := by
  obtain ⟨w1, hwrite, hfiles, hnf1⟩ := writeFile_posix_bytes w hnf filePath data perm fuel hfuel
  have hf : w1.files filePath = some ⟨data, destMode w filePath perm⟩ := by
    rw [hfiles]; simp
  obtain ⟨w2, hread, -⟩ := readFile_posix w1 hnf1 filePath data _ fuel hf hfuel
  exact ⟨w1, w2, hwrite, by rw [hf]; rfl, hread⟩

theorem writeFile_then_readFile_roundtrip_witness :
    ∃ w1 w2, writeFile posix 12 "bar" bytesReader helloWorld 0o660 emptyWorld
          = some ((11, none), w1)
      ∧ (w1.files "bar").map FileData.content = some helloWorld
      ∧ readFile posix 12 "bar" w1 = some (.ok helloWorld, w2) :=
  writeFile_then_readFile_roundtrip helloWorld "bar" 0o660 12 emptyWorld
    (by intro f hf; cases hf) (by decide)

theorem Records_liftReader (rd : Reader ρ σ) :
    Records (fun _ => False) (liftReader rd) rd := by
  intro n r s log
  exact ⟨[], by simp, by simp [liftReader]⟩

theorem Records_fileReader (fs : FileSystem σ) (src : File) :
    Records (fun c => c = Call.Read src) (fileReader (traced fs) src) (fileReader fs src) := by
  intro n r s log
  exact ⟨[Call.Read src], by simp, by simp [fileReader]⟩

theorem writeChunk_traced (fs : FileSystem σ) (dst : File) (buf : List Byte) (written : Int)
    (s : σ) (log : List Call) :
    writeChunk (traced fs) dst buf written (s, log)
      = ((writeChunk fs dst buf written s).1, (writeChunk fs dst buf written s).2,
          log ++ [Call.Write dst buf]) := by
  rfl

theorem Copy_traced (fs : FileSystem σ) (dst : File) (P : Call → Prop)
    (rd' : Reader ρ (σ × List Call)) (rd : Reader ρ σ) (hrd : Records P rd' rd) :
    ∀ (fuel : Nat) (written : Int) (r : ρ) (s : σ) (log : List Call),
      ∃ tr, (∀ c ∈ tr, P c ∨ ∃ p, c = Call.Write dst p)
        ∧ Copy (traced fs) dst rd' fuel written r (s, log)
            = (Copy fs dst rd fuel written r s).map
                (fun x => (x.1, x.2.1, x.2.2, log ++ tr)) := by
  intro fuel
  induction fuel with
  | zero => intro written r s log; exact ⟨[], by simp, by simp [Copy]⟩
  | succ fuel ih =>
    intro written r s log
    obtain ⟨tr1, htr1, hread⟩ := hrd copyBufSize r s log
    rcases hrd0 : rd copyBufSize r s with ⟨⟨buf, er⟩, r1, s1⟩
    rw [hrd0] at hread
    simp only [] at hread
    by_cases hbuf : 0 < buf.length
    · rcases hw : writeChunk fs dst buf written s1 with ⟨⟨written1, ew⟩, s2⟩
      have hw' := writeChunk_traced fs dst buf written s1 (log ++ tr1)
      rw [hw] at hw'
      simp only [] at hw'
      cases ew with
      | some e =>
        refine ⟨tr1 ++ [Call.Write dst buf], ?_, ?_⟩
        · intro c hc
          rcases List.mem_append.1 hc with h | h
          · exact Or.inl (htr1 c h)
          · exact Or.inr ⟨buf, by simpa using h⟩
        · rw [Copy, Copy, hread, hrd0]
          simp only [if_pos hbuf, hw, hw', Option.map_some', List.append_assoc]
      | none =>
        cases er with
        | some e =>
          refine ⟨tr1 ++ [Call.Write dst buf], ?_, ?_⟩
          · intro c hc
            rcases List.mem_append.1 hc with h | h
            · exact Or.inl (htr1 c h)
            · exact Or.inr ⟨buf, by simpa using h⟩
          · rw [Copy, Copy, hread, hrd0]
            simp only [if_pos hbuf, hw, hw', Option.map_some', List.append_assoc]
        | none =>
          obtain ⟨tr2, htr2, hrec⟩ := ih written1 r1 s2 (log ++ tr1 ++ [Call.Write dst buf])
          refine ⟨tr1 ++ [Call.Write dst buf] ++ tr2, ?_, ?_⟩
          · intro c hc
            rcases List.mem_append.1 hc with h | h
            · rcases List.mem_append.1 h with h | h
              · exact Or.inl (htr1 c h)
              · exact Or.inr ⟨buf, by simpa using h⟩
            · exact htr2 c h
          · rw [Copy, Copy, hread, hrd0]
            simp only [if_pos hbuf, hw, hw']
            rw [hrec]
            simp only [List.append_assoc]
    · cases er with
      | some e =>
        refine ⟨tr1, fun c hc => Or.inl (htr1 c hc), ?_⟩
        rw [Copy, Copy, hread, hrd0]
        simp only [if_neg hbuf, Option.map_some']
      | none =>
        obtain ⟨tr2, htr2, hrec⟩ := ih written r1 s1 (log ++ tr1)
        refine ⟨tr1 ++ tr2, ?_, ?_⟩
        · intro c hc
          rcases List.mem_append.1 hc with h | h
          · exact Or.inl (htr1 c h)
          · exact htr2 c h
        · rw [Copy, Copy, hread, hrd0]
          simp only [if_neg hbuf]
          rw [hrec]
          simp only [List.append_assoc]

theorem lockCalls_create (fd : Nat) :
    lockCalls fd (Int.lor (Int.lor O_WRONLY O_TRUNC) O_CREATE)
      = [Call.FcntlFlock fd F_SETLK wrLock] := by
  have h1 : Int.land (Int.lor (Int.lor O_WRONLY O_TRUNC) O_CREATE) mask = O_WRONLY := by decide
  unfold lockCalls
  rw [if_pos (Or.inr h1)]

theorem lockCalls_rdonly (fd : Nat) :
    lockCalls fd O_RDONLY = [Call.FcntlFlock fd F_SETLK rdLock] := by
  have h0 : ¬ (Int.land O_RDONLY mask = O_RDWR ∨ Int.land O_RDONLY mask = O_WRONLY) := by decide
  have h1 : Int.land O_RDONLY mask = O_RDONLY := by decide
  unfold lockCalls
  rw [if_neg h0, if_pos h1]

theorem openCalls_ok (fs : FileSystem σ) (filePath : String) (flag : Int) (perm : Nat)
    (s s1 : σ) (file : File) (h : openFile fs filePath flag perm s = (.ok file, s1)) :
    openCalls fs filePath flag perm s = Call.OpenFile filePath flag perm :: lockCalls file.fd flag := by
  unfold openFile at h
  unfold openCalls
  rcases h1 : fs.OpenFile filePath flag perm s with ⟨e | f, sa⟩
  · rw [h1] at h; simp at h
  · rw [h1] at h
    simp only [] at h ⊢
    rcases h2 : lockForFlag fs f.fd flag sa with ⟨_ | le, sb⟩
    · rw [h2] at h
      simp only [Prod.mk.injEq, Except.ok.injEq] at h
      simp only [h.1]
    · rw [h2] at h; simp at h

theorem writeFileDeferred_traced (fs : FileSystem σ) (filePath : String) (dst : File)
    (finishedWriting : Bool) (err retErr : Option Error) (s : σ) (log : List Call) :
    writeFileDeferred (traced fs) filePath dst finishedWriting err retErr (s, log)
      = ((writeFileDeferred fs filePath dst finishedWriting err retErr s).1,
          (writeFileDeferred fs filePath dst finishedWriting err retErr s).2,
          log ++ Call.Close dst :: (if finishedWriting then [] else [Call.Remove filePath])) := by
  unfold writeFileDeferred
  cases finishedWriting with
  | true => simp
  | false =>
    simp only [traced_Close, traced_Remove, Bool.not_false, if_true]
    rcases h : fs.Remove filePath (fs.Close dst s).2 with ⟨_ | remErr, s2⟩
    · simp
    · cases hne : IsNotExist remErr <;> cases err <;> simp [hne]

theorem writeFile_of_open (fs : FileSystem σ) (fuel : Nat) (filePath : String)
    (rd : Reader ρ σ) (r : ρ) (perm : Nat) (s s1 : σ) (dst : File)
    (hopen : openFile fs filePath (Int.lor (Int.lor O_WRONLY O_TRUNC) O_CREATE) perm s
      = (.ok dst, s1)) :
    writeFile fs fuel filePath rd r perm s
      = (Copy fs dst rd fuel 0 r s1).map (fun x =>
          ((x.1.1, (writeFileDeferred fs filePath dst x.1.2.isNone x.1.2 x.1.2 x.2.2).1),
            (writeFileDeferred fs filePath dst x.1.2.isNone x.1.2 x.1.2 x.2.2).2)) := by
  unfold writeFile
  rw [hopen]
  simp only []
  rcases hc : Copy fs dst rd fuel 0 r s1 with _ | ⟨⟨n, _ | e⟩, r2, s2⟩ <;> simp

theorem writeFile_traced_of_open (fs : FileSystem σ) (fuel : Nat) (filePath : String)
    (P : Call → Prop) (rd' : Reader ρ (σ × List Call)) (rd : Reader ρ σ)
    (hrd : Records P rd' rd) (r : ρ) (perm : Nat) (s s1 : σ) (log : List Call) (dst : File)
    (hopen : openFile fs filePath (Int.lor (Int.lor O_WRONLY O_TRUNC) O_CREATE) perm s
      = (.ok dst, s1)) :
    ∃ tr, (∀ c ∈ tr, P c ∨ ∃ p, c = Call.Write dst p)
      ∧ writeFile (traced fs) fuel filePath rd' r perm (s, log)
        = (Copy fs dst rd fuel 0 r s1).map (fun x =>
            ((x.1.1, (writeFileDeferred fs filePath dst x.1.2.isNone x.1.2 x.1.2 x.2.2).1),
              (writeFileDeferred fs filePath dst x.1.2.isNone x.1.2 x.1.2 x.2.2).2,
              log ++ ([Call.OpenFile filePath (Int.lor (Int.lor O_WRONLY O_TRUNC) O_CREATE) perm,
                  Call.FcntlFlock dst.fd F_SETLK wrLock] ++ tr
                ++ Call.Close dst :: (if x.1.2.isNone then [] else [Call.Remove filePath])))) := by
  have hopen' := openFile_traced fs filePath (Int.lor (Int.lor O_WRONLY O_TRUNC) O_CREATE) perm
    s log
  rw [hopen, openCalls_ok fs _ _ _ _ _ _ hopen, lockCalls_create] at hopen'
  obtain ⟨tr, htr, hcopy⟩ := Copy_traced fs dst P rd' rd hrd fuel 0 r s1
    (log ++ [Call.OpenFile filePath (Int.lor (Int.lor O_WRONLY O_TRUNC) O_CREATE) perm,
      Call.FcntlFlock dst.fd F_SETLK wrLock])
  refine ⟨tr, htr, ?_⟩
  rw [writeFile_of_open (traced fs) fuel filePath rd' r perm (s, log) _ dst hopen', hcopy]
  rcases hc : Copy fs dst rd fuel 0 r s1 with _ | ⟨⟨n, _ | e⟩, r2, s2⟩
  · simp
  · simp [writeFileDeferred_traced]
  · simp [writeFileDeferred_traced]

theorem posixRemove_absent (name : String) (w w' : World) (res : Option Error)
    (h : posixRemove name w = (res, w'))
    (hres : res = none ∨ ∃ r, res = some r ∧ IsNotExist r = true) :
    w'.files name = none := by
  unfold posixRemove World.popFault at h
  cases hf : w.faults.headD none with
  | some msg =>
    rw [hf] at h
    simp only [Option.map_some', Prod.mk.injEq] at h
    rcases hres with hres | ⟨r, hr, hne⟩
    · rw [hres] at h; simp at h
    · rw [hr] at h
      have : r = Error.sys msg false := by
        have := h.1; simp at this; exact this.symm
      rw [this] at hne
      simp [IsNotExist] at hne
  | none =>
    rw [hf] at h
    simp only [Option.map_none'] at h
    cases hfile : w.files name with
    | none =>
      rw [hfile] at h
      simp only [Prod.mk.injEq] at h
      rw [← h.2]
      exact hfile
    | some file =>
      rw [hfile] at h
      simp only [Prod.mk.injEq] at h
      rw [← h.2]
      simp

theorem writeFileDeferred_rollback (fs : FileSystem σ) (filePath : String) (dst : File)
    (e : Error) (s : σ) :
    writeFileDeferred fs filePath dst false (some e) (some e) s
      = (some (rollbackError e (fs.Remove filePath (fs.Close dst s).2).1),
          (fs.Remove filePath (fs.Close dst s).2).2) := by
  unfold writeFileDeferred rollbackError
  rcases h : fs.Remove filePath (fs.Close dst s).2 with ⟨_ | remErr, s2⟩
  · simp [h]
  · cases hne : IsNotExist remErr <;> simp [h, hne]

/-- C5: when the copy step of `writeFile` stops with an error (the stream's read or the
write to the destination failed), `writeFile` returns an error with the count copied so
far; its calls are the open, the lock request, the writes, then one `Close` of the
destination and after it one `Remove` of the destination path, the only one; nothing
happens after that `Remove`. On the reference filesystem, when that `Remove` succeeds the
destination path does not exist once `writeFile` has returned. -/
theorem writeFile_copy_error_closes_then_removes (fs : FileSystem σ) (reader : Reader ρ σ)
    (fuel : Nat) (filePath : String) (r : ρ) (perm : Nat) :
    (∀ (s s1 s2 : σ) (dst : File) (n : Int) (e : Error) (r2 : ρ),
      openFile fs filePath (Int.lor (Int.lor O_WRONLY O_TRUNC) O_CREATE) perm s = (.ok dst, s1) →
      Copy fs dst reader fuel 0 r s1 = some ((n, some e), r2, s2) →
      ∃ err writes, (∀ c ∈ writes, ∃ p, c = Call.Write dst p)
        ∧ writeFile (traced fs) fuel filePath (liftReader reader) r perm (s, [])
          = some ((n, some err), (fs.Remove filePath (fs.Close dst s2).2).2,
              [Call.OpenFile filePath (Int.lor (Int.lor O_WRONLY O_TRUNC) O_CREATE) perm,
                Call.FcntlFlock dst.fd F_SETLK wrLock] ++ writes
                ++ [Call.Close dst, Call.Remove filePath])
        ∧ ([Call.OpenFile filePath (Int.lor (Int.lor O_WRONLY O_TRUNC) O_CREATE) perm,
                Call.FcntlFlock dst.fd F_SETLK wrLock] ++ writes
                ++ [Call.Close dst, Call.Remove filePath]).count (Call.Remove filePath) = 1)
      ∧ (∀ (rd : Reader ρ World) (w w1 w2 w3 : World) (dst : File) (n : Int) (e : Error)
          (r2 : ρ),
        openFile posix filePath (Int.lor (Int.lor O_WRONLY O_TRUNC) O_CREATE) perm w
          = (.ok dst, w1) →
        Copy posix dst rd fuel 0 r w1 = some ((n, some e), r2, w2) →
        posix.Remove filePath (posix.Close dst w2).2 = (none, w3) →
        ∃ err, writeFile posix fuel filePath rd r perm w = some ((n, some err), w3)
          ∧ w3.files filePath = none) := by
  constructor
  · intro s s1 s2 dst n e r2 hopen hcopy
    obtain ⟨tr, htr, hw⟩ := writeFile_traced_of_open fs fuel filePath (fun _ => False)
      (liftReader reader) reader (Records_liftReader reader) r perm s s1 [] dst hopen
    rw [hcopy] at hw
    have htr' : ∀ c ∈ tr, ∃ p, c = Call.Write dst p := by
      intro c hc
      rcases htr c hc with h | h
      · exact absurd h id
      · exact h
    refine ⟨rollbackError e (fs.Remove filePath (fs.Close dst s2).2).1, tr, htr', ?_, ?_⟩
    · rw [hw]
      simp only [Option.map_some', Option.isNone_some, List.nil_append,
        writeFileDeferred_rollback]
      simp
    · rw [List.count_append, List.count_append]
      have h0 : tr.count (Call.Remove filePath) = 0 := by
        rw [List.count_eq_zero]
        intro hmem
        obtain ⟨p, hp⟩ := htr' _ hmem
        cases hp
      rw [h0]
      simp [List.count_cons]
  · intro rd w w1 w2 w3 dst n e r2 hopen hcopy hrem
    rw [writeFile_of_open posix fuel filePath rd r perm w w1 dst hopen, hcopy]
    refine ⟨e, ?_, posixRemove_absent filePath _ w3 none hrem (Or.inl rfl)⟩
    simp [writeFileDeferred_rollback, hrem, rollbackError]

theorem writeFile_copy_error_closes_then_removes_witness :
    (∃ err writes,
        (writeFile (traced posix) 3 "bar"
            (liftReader (scriptReader (Error.sys "unexpected EOF" false))) [[72, 101]] 0o660
            (emptyWorld, [])).map (fun x => (x.1, x.2.2))
          = some ((2, some err),
              [Call.OpenFile "bar" (Int.lor (Int.lor O_WRONLY O_TRUNC) O_CREATE) 0o660,
                Call.FcntlFlock 3 F_SETLK wrLock] ++ writes
                ++ [Call.Close ⟨3, "bar"⟩, Call.Remove "bar"]))
      ∧ (∃ err w3,
          writeFile posix 3 "bar" (scriptReader (Error.sys "unexpected EOF" false)) [[72, 101]]
              0o660 emptyWorld = some ((2, some err), w3)
            ∧ w3.files "bar" = none) := by
  constructor
  · obtain ⟨err, writes, -, h, -⟩ :=
      (writeFile_copy_error_closes_then_removes posix
        (scriptReader (Error.sys "unexpected EOF" false)) 3 "bar" [[72, 101]] 0o660).1
        emptyWorld _ _ ⟨3, "bar"⟩ 2 (Error.sys "unexpected EOF" false) [] rfl rfl
    exact ⟨err, writes, by rw [h]; rfl⟩
  · obtain ⟨err, h1, h2⟩ :=
      (writeFile_copy_error_closes_then_removes posix
        (scriptReader (Error.sys "unexpected EOF" false)) 3 "bar" [[72, 101]] 0o660).2
        (scriptReader (Error.sys "unexpected EOF" false)) emptyWorld _ _ _ ⟨3, "bar"⟩ 2
        (Error.sys "unexpected EOF" false) [] rfl rfl rfl
    exact ⟨err, _, h1, h2⟩

/-- C7: after a copy error `e` in `writeFile`, whatever the rollback `Remove` answers: if
it fails with an error `remErr` that is not a not-exist error, the returned error unwraps
to `e` and its message is `e`'s message, then ". Then: ", then `remErr`'s message; if it
succeeds, or fails with a not-exist error, the returned error is `e` itself. The count
returned is the one the copy reported. -/
theorem writeFile_rollback_failure_wraps_copy_error (fs : FileSystem σ) (reader : Reader ρ σ)
    (fuel : Nat) (filePath : String) (r : ρ) (perm : Nat) (s s1 s2 : σ) (dst : File) (n : Int)
    (e : Error) (r2 : ρ)
    (hopen : openFile fs filePath (Int.lor (Int.lor O_WRONLY O_TRUNC) O_CREATE) perm s
      = (.ok dst, s1))
    (hcopy : Copy fs dst reader fuel 0 r s1 = some ((n, some e), r2, s2)) :
    (∀ remErr s4, fs.Remove filePath (fs.Close dst s2).2 = (some remErr, s4) →
        IsNotExist remErr = false →
        ∃ err, writeFile fs fuel filePath reader r perm s = some ((n, some err), s4)
          ∧ err.Unwrap = some e
          ∧ err.message = e.message ++ ". Then: " ++ remErr.message)
      ∧ (∀ s4, fs.Remove filePath (fs.Close dst s2).2 = (none, s4) →
          writeFile fs fuel filePath reader r perm s = some ((n, some e), s4))
      ∧ (∀ remErr s4, fs.Remove filePath (fs.Close dst s2).2 = (some remErr, s4) →
          IsNotExist remErr = true →
          writeFile fs fuel filePath reader r perm s = some ((n, some e), s4)) := by
  have hw := writeFile_of_open fs fuel filePath reader r perm s s1 dst hopen
  rw [hcopy] at hw
  simp only [Option.map_some', Option.isNone_some, writeFileDeferred_rollback] at hw
  refine ⟨?_, ?_, ?_⟩
  · intro remErr s4 hrem hne
    refine ⟨Error.wrapError (e.message ++ ". Then: " ++ remErr.message) e, ?_, rfl, rfl⟩
    rw [hw, hrem]
    simp [rollbackError, hne]
  · intro s4 hrem
    rw [hw, hrem]
    simp [rollbackError]
  · intro remErr s4 hrem hne
    rw [hw, hrem]
    simp [rollbackError, hne]

theorem writeFile_rollback_failure_wraps_copy_error_witness :
    ∃ err w4,
      writeFile posix 3 "bar" (scriptReader (Error.sys "unexpected EOF" false)) [[72, 101]] 0o660
          { emptyWorld with faults := [none, none, none, none, some "permission denied"] }
        = some ((2, some err), w4)
      ∧ err.Unwrap = some (Error.sys "unexpected EOF" false)
      ∧ err.message = "unexpected EOF" ++ ". Then: " ++ "permission denied" := by
  obtain ⟨err, h1, h2, h3⟩ :=
    (writeFile_rollback_failure_wraps_copy_error posix
      (scriptReader (Error.sys "unexpected EOF" false)) 3 "bar" [[72, 101]] 0o660
      { emptyWorld with faults := [none, none, none, none, some "permission denied"] }
      _ _ ⟨3, "bar"⟩ 2 (Error.sys "unexpected EOF" false) [] rfl rfl).1
      (Error.sys "permission denied" false) _ rfl rfl
  exact ⟨err, _, h1, h2, h3⟩

/-- C6, refuted as stated. (a) `foo` exists; the open truncates it, the lock request fails:
`writeFile` returns an error and `foo` is still there, empty, holding neither its old
content nor the input. (b) `bar` does not exist; two bytes are written, the stream breaks
and the rollback `Remove` fails: `writeFile` returns an error and `bar` is there with the
two bytes. -/
theorem writeFile_error_can_leave_incomplete_destination :
    ((writeFile posix 12 "foo" bytesReader [72, 105] 0o660
          { fooWorld with faults := [none, some "resource temporarily unavailable"] }).map
        (fun x => (x.1.2.isSome, (x.2.files "foo").map FileData.content))
      = some (true, some [])
      ∧ (fooWorld.files "foo").map FileData.content = some helloWorld)
    ∧ ((writeFile posix 3 "bar" (scriptReader (Error.sys "unexpected EOF" false)) [[72, 101]]
          0o660 { emptyWorld with faults := [none, none, none, none, some "permission denied"] }).map
        (fun x => (x.1.2.isSome, (x.2.files "bar").map FileData.content))
      = some (true, some [72, 101])
      ∧ emptyWorld.files "bar" = none) := by
  refine ⟨⟨by decide, by decide⟩, ⟨by decide, by decide⟩⟩

/-- C6, amended: when the copy step of `writeFile` stops with an error `e` and the rollback
`Remove` succeeds or reports not-exist, `writeFile` returns `e` and the destination path
does not exist afterwards, whether or not it existed before the call. -/
theorem writeFile_copy_error_leaves_destination_absent (rd : Reader ρ World) (fuel : Nat)
    (filePath : String) (r : ρ) (perm : Nat) (w w1 w2 w3 : World) (dst : File) (n : Int)
    (e : Error) (r2 : ρ) (res : Option Error)
    (hopen : openFile posix filePath (Int.lor (Int.lor O_WRONLY O_TRUNC) O_CREATE) perm w
      = (.ok dst, w1))
    (hcopy : Copy posix dst rd fuel 0 r w1 = some ((n, some e), r2, w2))
    (hrem : posix.Remove filePath (posix.Close dst w2).2 = (res, w3))
    (hres : res = none ∨ ∃ x, res = some x ∧ IsNotExist x = true) :
    writeFile posix fuel filePath rd r perm w = some ((n, some e), w3)
      ∧ w3.files filePath = none := by
  refine ⟨?_, posixRemove_absent filePath _ w3 res hrem hres⟩
  rw [writeFile_of_open posix fuel filePath rd r perm w w1 dst hopen, hcopy]
  simp only [Option.map_some', Option.isNone_some, writeFileDeferred_rollback, hrem]
  rcases hres with h | ⟨x, hx, hne⟩
  · simp [h, rollbackError]
  · simp [hx, hne, rollbackError]

theorem writeFile_copy_error_leaves_destination_absent_witness :
    (fooWorld.files "foo").map FileData.content = some helloWorld
      ∧ ∃ w3, writeFile posix 3 "foo" (scriptReader (Error.sys "unexpected EOF" false))
            [[72, 101]] 0o660 fooWorld
          = some ((2, some (Error.sys "unexpected EOF" false)), w3)
        ∧ w3.files "foo" = none :=
  ⟨by decide, _,
    writeFile_copy_error_leaves_destination_absent
      (scriptReader (Error.sys "unexpected EOF" false)) 3 "foo" [[72, 101]] 0o660 fooWorld
      _ _ _ ⟨3, "foo"⟩ 2 (Error.sys "unexpected EOF" false) [] none rfl rfl rfl (Or.inl rfl)⟩

theorem popFault_snd (w : World) : w.popFault.2 = { w with faults := w.faults.tail } := rfl

theorem posixStat_ok_inv (name : String) (w w' : World) (fi : FileInfo)
    (h : posixStat name w = (.ok fi, w')) :
    ∃ file, w.files name = some file ∧ fi.mode = file.perm ∧ w' = w.popFault.2 := by
  unfold posixStat at h
  rcases hp : w.popFault with ⟨_ | e, w1⟩
  · rw [hp] at h
    simp only [] at h
    cases hf : w1.files name with
    | none => rw [hf] at h; simp at h
    | some file =>
      rw [hf] at h
      simp only [Prod.mk.injEq, Except.ok.injEq] at h
      have hw1 : w1 = w.popFault.2 := by rw [hp]
      refine ⟨file, ?_, ?_, ?_⟩
      · rw [hw1] at hf; exact hf
      · rw [← h.1]
      · rw [← h.2]
  · rw [hp] at h; simp at h

theorem posixOpenFile_rdonly_inv (name : String) (perm : Nat) (w w' : World) (f : File)
    (h : posixOpenFile name O_RDONLY perm w = (.ok f, w')) :
    f = ⟨w.nextFd, name⟩ ∧ w'.files = w.files
      ∧ w'.handles = Function.update w.handles w.nextFd (some ⟨name, O_RDONLY, 0⟩)
      ∧ w'.nextFd = w.nextFd + 1 ∧ w'.umask = w.umask := by
  unfold posixOpenFile at h
  have h2 : ¬ Int.land O_RDONLY O_TRUNC ≠ 0 := by decide
  have h3 : ¬ Int.land O_RDONLY O_CREATE ≠ 0 := by decide
  rcases hp : w.popFault with ⟨_ | e, w1⟩
  · rw [hp] at h
    have hw1 : w1 = w.popFault.2 := by rw [hp]
    simp only [if_neg h2, if_neg h3] at h
    cases hf : w1.files name with
    | none => rw [hf] at h; simp at h
    | some file =>
      rw [hf] at h
      simp only [World.newHandle, Prod.mk.injEq, Except.ok.injEq] at h
      obtain ⟨h1, h4⟩ := h
      subst h4
      subst hw1
      exact ⟨h1.symm, rfl, rfl, rfl, rfl⟩
  · rw [hp] at h; simp at h

theorem posixOpenFile_create_inv (name : String) (perm : Nat) (w w' : World) (f : File)
    (h : posixOpenFile name (Int.lor (Int.lor O_WRONLY O_TRUNC) O_CREATE) perm w = (.ok f, w')) :
    f = ⟨w.nextFd, name⟩
      ∧ w'.files = Function.update w.files name (some ⟨[], destMode w name perm⟩)
      ∧ w'.handles = Function.update w.handles w.nextFd
          (some ⟨name, Int.lor (Int.lor O_WRONLY O_TRUNC) O_CREATE, 0⟩)
      ∧ w'.nextFd = w.nextFd + 1 ∧ w'.umask = w.umask := by
  unfold posixOpenFile at h
  have h1 : Int.land (Int.lor (Int.lor O_WRONLY O_TRUNC) O_CREATE) O_CREATE ≠ 0 := by decide
  have h2 : Int.land (Int.lor (Int.lor O_WRONLY O_TRUNC) O_CREATE) O_TRUNC ≠ 0 := by decide
  rcases hp : w.popFault with ⟨_ | e, w1⟩
  · rw [hp] at h
    have hw1 : w1 = w.popFault.2 := by rw [hp]
    simp only [if_pos h1, if_pos h2] at h
    subst hw1
    cases hf : w.popFault.2.files name with
    | none =>
      rw [hf] at h
      simp only [World.newHandle, Prod.mk.injEq, Except.ok.injEq] at h
      obtain ⟨h3, h4⟩ := h
      subst h4
      have hf' : w.files name = none := hf
      exact ⟨h3.symm, by simp [destMode, hf']; rfl, rfl, rfl, rfl⟩
    | some file =>
      rw [hf] at h
      simp only [World.newHandle, Prod.mk.injEq, Except.ok.injEq] at h
      obtain ⟨h3, h4⟩ := h
      subst h4
      have hf' : w.files name = some file := hf
      exact ⟨h3.symm, by simp [destMode, hf']; rfl, rfl, rfl, rfl⟩
  · rw [hp] at h; simp at h

theorem posixFcntlFlock_frame (fd : Nat) (cmd : Int) (lk : Flock_t) (w : World) :
    (posixFcntlFlock fd cmd lk w).2.files = w.files
      ∧ (posixFcntlFlock fd cmd lk w).2.handles = w.handles
      ∧ (posixFcntlFlock fd cmd lk w).2.nextFd = w.nextFd
      ∧ (posixFcntlFlock fd cmd lk w).2.umask = w.umask := by
  unfold posixFcntlFlock
  rcases hp : w.popFault with ⟨_ | e, w1⟩
  · have hw1 : w1 = w.popFault.2 := by rw [hp]
    subst hw1
    simp only []
    cases hh : w.popFault.2.handles fd with
    | none => exact ⟨rfl, rfl, rfl, rfl⟩
    | some hd =>
      simp only []
      split_ifs <;> exact ⟨rfl, rfl, rfl, rfl⟩
  · have hw1 : w1 = w.popFault.2 := by rw [hp]
    subst hw1
    exact ⟨rfl, rfl, rfl, rfl⟩

theorem lockForFlag_posix_frame (fd : Nat) (flag : Int) (w : World) :
    (lockForFlag posix fd flag w).2.files = w.files
      ∧ (lockForFlag posix fd flag w).2.handles = w.handles
      ∧ (lockForFlag posix fd flag w).2.nextFd = w.nextFd
      ∧ (lockForFlag posix fd flag w).2.umask = w.umask := by
  have hF : posix.FcntlFlock = posixFcntlFlock := rfl
  unfold lockForFlag
  rw [hF]
  simp only []
  split_ifs
  · have := posixFcntlFlock_frame fd F_SETLK wrLock w
    rcases h : posixFcntlFlock fd F_SETLK wrLock w with ⟨_ | e, w1⟩ <;> rw [h] at this <;>
      exact this
  · have := posixFcntlFlock_frame fd F_SETLK rdLock w
    rcases h : posixFcntlFlock fd F_SETLK rdLock w with ⟨_ | e, w1⟩ <;> rw [h] at this <;>
      exact this
  · exact ⟨rfl, rfl, rfl, rfl⟩

theorem posixClose_files (f : File) (w : World) : (posixClose f w).2.files = w.files := by
  unfold posixClose
  rcases hp : w.popFault with ⟨fault, w1⟩
  have hw1 : w1 = w.popFault.2 := by rw [hp]
  subst hw1
  simp only []
  cases hh : w.popFault.2.handles f.fd <;> rfl

theorem posixRemove_ok_inv (name : String) (w w' : World)
    (h : posixRemove name w = (none, w')) :
    w'.files = Function.update w.files name none := by
  unfold posixRemove at h
  rcases hp : w.popFault with ⟨_ | e, w1⟩
  · rw [hp] at h
    have hw1 : w1 = w.popFault.2 := by rw [hp]
    subst hw1
    simp only [] at h
    cases hf : w.popFault.2.files name with
    | none => rw [hf] at h; simp at h
    | some file =>
      rw [hf] at h
      simp only [Prod.mk.injEq, true_and] at h
      rw [← h]
      rfl
  · rw [hp] at h; simp at h

theorem openFile_ok_inv (fs : FileSystem σ) (filePath : String) (flag : Int) (perm : Nat)
    (s s' : σ) (f : File) (h : openFile fs filePath flag perm s = (.ok f, s')) :
    ∃ s1, fs.OpenFile filePath flag perm s = (.ok f, s1)
      ∧ lockForFlag fs f.fd flag s1 = (none, s') := by
  unfold openFile at h
  rcases h1 : fs.OpenFile filePath flag perm s with ⟨e | f1, sa⟩
  · rw [h1] at h; simp at h
  · rw [h1] at h
    simp only [] at h
    rcases h2 : lockForFlag fs f1.fd flag sa with ⟨_ | le, sb⟩
    · rw [h2] at h
      simp only [Prod.mk.injEq, Except.ok.injEq] at h
      obtain ⟨hf, hs⟩ := h
      subst hf
      subst hs
      exact ⟨sa, rfl, h2⟩
    · rw [h2] at h; simp at h

theorem openFile_posix_rdonly_inv (name : String) (perm : Nat) (w w' : World) (f : File)
    (h : openFile posix name O_RDONLY perm w = (.ok f, w')) :
    f = ⟨w.nextFd, name⟩ ∧ w'.files = w.files
      ∧ w'.handles = Function.update w.handles w.nextFd (some ⟨name, O_RDONLY, 0⟩)
      ∧ w'.nextFd = w.nextFd + 1 ∧ w'.umask = w.umask := by
  obtain ⟨w1, ho, hl⟩ := openFile_ok_inv posix name O_RDONLY perm w w' f h
  obtain ⟨hf, h1, h2, h3, h4⟩ := posixOpenFile_rdonly_inv name perm w w1 f ho
  obtain ⟨g1, g2, g3, g4⟩ := lockForFlag_posix_frame f.fd O_RDONLY w1
  rw [hl] at g1 g2 g3 g4
  exact ⟨hf, g1.trans h1, g2.trans h2, g3.trans h3, g4.trans h4⟩

theorem openFile_posix_create_inv (name : String) (perm : Nat) (w w' : World) (f : File)
    (h : openFile posix name (Int.lor (Int.lor O_WRONLY O_TRUNC) O_CREATE) perm w
      = (.ok f, w')) :
    f = ⟨w.nextFd, name⟩
      ∧ w'.files = Function.update w.files name (some ⟨[], destMode w name perm⟩)
      ∧ w'.handles = Function.update w.handles w.nextFd
          (some ⟨name, Int.lor (Int.lor O_WRONLY O_TRUNC) O_CREATE, 0⟩)
      ∧ w'.nextFd = w.nextFd + 1 ∧ w'.umask = w.umask := by
  obtain ⟨w1, ho, hl⟩ := openFile_ok_inv posix name _ perm w w' f h
  obtain ⟨hf, h1, h2, h3, h4⟩ := posixOpenFile_create_inv name perm w w1 f ho
  obtain ⟨g1, g2, g3, g4⟩ := lockForFlag_posix_frame f.fd
    (Int.lor (Int.lor O_WRONLY O_TRUNC) O_CREATE) w1
  rw [hl] at g1 g2 g3 g4
  exact ⟨hf, g1.trans h1, g2.trans h2, g3.trans h3, g4.trans h4⟩

/-- What `posixRead` answers for a readable descriptor on an existing file. -/
theorem posixRead_known (w : World) (f : File) (n : Nat) (path : String) (flag : Int)
    (k : Nat) (content : List Byte) (pm : Nat)
    (hh : w.handles f.fd = some ⟨path, flag, k⟩) (hr : readable flag = true)
    (hfile : w.files path = some ⟨content, pm⟩) (hn : 0 < n) :
    posixRead f n w
      = match w.popFault.1 with
        | some e => (([], some e), w.popFault.2)
        | none =>
          if (content.drop k).take n = [] then (([], some Error.EOF), w.popFault.2)
          else (((content.drop k).take n, none),
            { w.popFault.2 with
              handles := Function.update w.handles f.fd
                (some ⟨path, flag, k + ((content.drop k).take n).length⟩) }) := by
  unfold posixRead
  have hn' : n ≠ 0 := Nat.pos_iff_ne_zero.1 hn
  rcases hp : w.popFault with ⟨_ | e, w1⟩
  · have hw1 : w1 = w.popFault.2 := by rw [hp]
    subst hw1
    have hh' : w.popFault.2.handles f.fd = some ⟨path, flag, k⟩ := hh
    have hfile' : w.popFault.2.files path = some ⟨content, pm⟩ := hfile
    simp only [hh', hr, hfile', if_true, if_neg hn']
    rfl
  · rfl

/-- What `posixWrite` answers for a writable descriptor at the end of an existing file. -/
theorem posixWrite_known (w : World) (f : File) (p : List Byte) (path : String) (flag : Int)
    (content : List Byte) (pm : Nat)
    (hh : w.handles f.fd = some ⟨path, flag, content.length⟩) (hw : writable flag = true)
    (hfile : w.files path = some ⟨content, pm⟩) :
    posixWrite f p w
      = match w.popFault.1 with
        | some e => ((0, some e), w.popFault.2)
        | none => (((p.length : Int), none),
            { w.popFault.2 with
              files := Function.update w.files path (some ⟨content ++ p, pm⟩),
              handles := Function.update w.handles f.fd
                (some ⟨path, flag, content.length + p.length⟩) }) := by
  unfold posixWrite
  rcases hp : w.popFault with ⟨_ | e, w1⟩
  · have hw1 : w1 = w.popFault.2 := by rw [hp]
    subst hw1
    have hh' : w.popFault.2.handles f.fd = some ⟨path, flag, content.length⟩ := hh
    have hfile' : w.popFault.2.files path = some ⟨content, pm⟩ := hfile
    have hd : List.drop (content.length + p.length) content = [] :=
      List.drop_eq_nil_of_le (Nat.le_add_right _ _)
    simp only [hh', hw, hfile', if_true, hd, List.take_length, Nat.sub_self,
      List.replicate_zero, List.append_nil]
    rfl
  · rfl

theorem popFault_ne_EOF (w : World) (e : Error) (h : w.popFault.1 = some e) : e ≠ Error.EOF := by
  unfold World.popFault at h
  cases hf : w.faults.headD none with
  | none => rw [hf] at h; simp at h
  | some msg =>
    rw [hf] at h
    simp only [Option.map_some', Option.some.injEq] at h
    rw [← h]
    intro hc
    cases hc

theorem chunkResult_full (len : Nat) (written : Int) :
    chunkResult len written len none = (written + len, none) := by
  have h1 : ¬ ((len : Int) < 0) := by omega
  simp [chunkResult, h1]

theorem chunkResult_error (nr written : Int) (nw : Int) (e : Error) :
    ∃ n, chunkResult nr written nw (some e) = (n, some e) := by
  unfold chunkResult
  by_cases h : (decide (nw < 0) || decide (nr < nw)) = true
  · exact ⟨written + 0, by simp [h]⟩
  · exact ⟨written + nw, by simp [h]⟩

theorem Copy_posix_file_success (src dst : File) (A B : String) (fa fb : Int)
    (ca : List Byte) (pa pb : Nat) (hsd : src.fd ≠ dst.fd) (hAB : A ≠ B)
    (hr : readable fa = true) (hw : writable fb = true) :
    ∀ (fuel : Nat) (written : Int) (oa : Nat) (cb : List Byte) (w w' : World) (n : Int)
      (u : Unit),
      w.handles src.fd = some ⟨A, fa, oa⟩ →
      w.handles dst.fd = some ⟨B, fb, cb.length⟩ →
      w.files A = some ⟨ca, pa⟩ →
      w.files B = some ⟨cb, pb⟩ →
      Copy posix dst (fileReader posix src) fuel written () w = some ((n, none), u, w') →
      n = written + (ca.drop oa).length
        ∧ w'.files = Function.update w.files B (some ⟨cb ++ ca.drop oa, pb⟩) := by
  intro fuel
  induction fuel with
  | zero => intro written oa cb w w' n u _ _ _ _ h; simp [Copy] at h
  | succ fuel ih =>
    intro written oa cb w w' n u hhs hhd hfa hfb h
    have hR : posix.Read src copyBufSize w = posixRead src copyBufSize w := rfl
    have hread := posixRead_known w src copyBufSize A fa oa ca pa hhs hr hfa (by decide)
    rw [Copy] at h
    simp only [fileReader, hR, hread] at h
    cases hp : w.popFault.1 with
    | some e =>
      have hne := popFault_ne_EOF w e hp
      simp [hp, hne] at h
    | none =>
      simp only [hp] at h
      by_cases hchunk : (ca.drop oa).take copyBufSize = []
      · simp only [hchunk, if_true, List.length_nil, lt_irrefl, if_false] at h
        simp only [Option.some.injEq, Prod.mk.injEq] at h
        obtain ⟨⟨hn, -⟩, -, hw'⟩ := h
        have hnil : ca.drop oa = [] := by
          rcases List.take_eq_nil_iff.1 hchunk with h0 | h0
          · exact absurd h0 (by decide)
          · exact h0
        subst hw'
        refine ⟨by rw [hnil, ← hn]; simp, ?_⟩
        rw [hnil, List.append_nil, ← hfb, Function.update_eq_self]
        rfl
      · have hpos : 0 < ((ca.drop oa).take copyBufSize).length := List.length_pos.2 hchunk
        simp only [if_neg hchunk, if_pos hpos] at h
        obtain ⟨w1, hw1⟩ : ∃ w1 : World, w1 =
            { w.popFault.2 with
              handles := Function.update w.handles src.fd
                (some ⟨A, fa, oa + ((ca.drop oa).take copyBufSize).length⟩) } := ⟨_, rfl⟩
        have hw1' : w1 =
            { files := w.popFault.2.files,
              handles := Function.update w.handles src.fd
                (some ⟨A, fa, oa + ((ca.drop oa).take copyBufSize).length⟩),
              locks := w.popFault.2.locks, nextFd := w.popFault.2.nextFd,
              umask := w.popFault.2.umask, faults := w.popFault.2.faults } := hw1
        rw [← hw1'] at h
        have h1s : w1.handles src.fd
            = some ⟨A, fa, oa + ((ca.drop oa).take copyBufSize).length⟩ := by
          rw [hw1]; simp
        have h1d : w1.handles dst.fd = some ⟨B, fb, cb.length⟩ := by
          rw [hw1]
          simp only [Function.update_noteq (Ne.symm hsd)]
          exact hhd
        have h1a : w1.files A = some ⟨ca, pa⟩ := by rw [hw1]; exact hfa
        have h1b : w1.files B = some ⟨cb, pb⟩ := by rw [hw1]; exact hfb
        have h1f : w1.files = w.files := by rw [hw1]; rfl
        have hW : writeChunk posix dst ((ca.drop oa).take copyBufSize) written w1
            = (chunkResult ((ca.drop oa).take copyBufSize).length written
                (posixWrite dst ((ca.drop oa).take copyBufSize) w1).1.1
                (posixWrite dst ((ca.drop oa).take copyBufSize) w1).1.2,
               (posixWrite dst ((ca.drop oa).take copyBufSize) w1).2) := rfl
        rw [hW, posixWrite_known w1 dst _ B fb cb pb h1d hw h1b] at h
        cases hp1 : w1.popFault.1 with
        | some e =>
          simp only [hp1] at h
          obtain ⟨m, hm⟩ := chunkResult_error ((ca.drop oa).take copyBufSize).length written 0 e
          rw [hm] at h
          simp at h
        | none =>
          simp only [hp1, chunkResult_full] at h
          obtain ⟨w2, hw2⟩ : ∃ w2 : World, w2 =
              { w1.popFault.2 with
                files := Function.update w1.files B
                  (some ⟨cb ++ (ca.drop oa).take copyBufSize, pb⟩),
                handles := Function.update w1.handles dst.fd
                  (some ⟨B, fb, cb.length + ((ca.drop oa).take copyBufSize).length⟩) } :=
            ⟨_, rfl⟩
          rw [← hw2] at h
          have h2s : w2.handles src.fd
              = some ⟨A, fa, oa + ((ca.drop oa).take copyBufSize).length⟩ := by
            rw [hw2]
            simp only [Function.update_noteq hsd]
            exact h1s
          have h2d : w2.handles dst.fd
              = some ⟨B, fb, (cb ++ (ca.drop oa).take copyBufSize).length⟩ := by
            rw [hw2]; simp
          have h2a : w2.files A = some ⟨ca, pa⟩ := by
            rw [hw2]
            simp only [Function.update_noteq hAB]
            exact h1a
          have h2b : w2.files B = some ⟨cb ++ (ca.drop oa).take copyBufSize, pb⟩ := by
            rw [hw2]; simp
          have h2f : w2.files = Function.update w.files B
              (some ⟨cb ++ (ca.drop oa).take copyBufSize, pb⟩) := by
            rw [hw2, ← h1f]
          obtain ⟨hn, hfiles⟩ := ih _ _ _ w2 w' n u h2s h2d h2a h2b h
          have hsplit : (ca.drop oa).take copyBufSize
              ++ ca.drop (oa + ((ca.drop oa).take copyBufSize).length) = ca.drop oa := by
            have h1 := take_append_drop_length (ca.drop oa) copyBufSize
            rw [List.drop_drop] at h1
            exact h1
          refine ⟨?_, ?_⟩
          · rw [hn]
            have := congrArg List.length hsplit
            rw [List.length_append] at this
            rw [← this]
            push_cast
            ring
          · rw [hfiles, h2f, Function.update_idem, List.append_assoc, hsplit]

theorem writeFile_ok_inv (fs : FileSystem σ) (fuel : Nat) (filePath : String)
    (rd : Reader ρ σ) (r : ρ) (perm : Nat) (s s' : σ) (n : Int)
    (h : writeFile fs fuel filePath rd r perm s = some ((n, none), s')) :
    ∃ dst s1 r2 s2,
      openFile fs filePath (Int.lor (Int.lor O_WRONLY O_TRUNC) O_CREATE) perm s = (.ok dst, s1)
        ∧ Copy fs dst rd fuel 0 r s1 = some ((n, none), r2, s2)
        ∧ s' = (fs.Close dst s2).2 := by
  rcases ho : openFile fs filePath (Int.lor (Int.lor O_WRONLY O_TRUNC) O_CREATE) perm s
    with ⟨e | dst, s1⟩
  · unfold writeFile at h
    rw [ho] at h
    simp at h
  · rw [writeFile_of_open fs fuel filePath rd r perm s s1 dst ho] at h
    rcases hc : Copy fs dst rd fuel 0 r s1 with _ | ⟨⟨m, _ | e⟩, r2, s2⟩
    · rw [hc] at h; simp at h
    · rw [hc] at h
      simp only [Option.map_some', Option.isNone_none, Option.some.injEq, Prod.mk.injEq] at h
      obtain ⟨⟨hm, -⟩, hs⟩ := h
      refine ⟨dst, s1, r2, s2, rfl, ?_, ?_⟩
      · rw [← hm]
        exact hc
      · rw [← hs]
        simp [writeFileDeferred]
    · rw [hc] at h
      simp [writeFileDeferred_rollback] at h

theorem posixStat_frame (name : String) (w : World) :
    (posixStat name w).2 = w.popFault.2 := by
  unfold posixStat
  rcases hp : w.popFault with ⟨_ | e, w1⟩
  · simp only []
    cases hf : w1.files name <;> rfl
  · rfl

theorem destMode_congr (w w1 : World) (name : String) (perm : Nat)
    (hf : w1.files = w.files) (hu : w1.umask = w.umask) :
    destMode w1 name perm = destMode w name perm := by
  unfold destMode
  rw [hf, hu]

theorem copy_steps_posix (A B : String) (hAB : A ≠ B) (fuel : Nat) (w wS wO w3 : World)
    (fi : FileInfo) (src : File) (m : Int)
    (hS : posixStat A w = (.ok fi, wS))
    (hO : openFile posix A O_RDONLY 0o660 wS = (.ok src, wO))
    (hW : writeFile posix fuel B (fileReader posix src) () fi.Perm wO = some ((m, none), w3)) :
    ∃ ca pa, w.files A = some ⟨ca, pa⟩ ∧ m = ca.length
      ∧ fi.Perm = pa &&& 0o777
      ∧ w3.files = Function.update w.files B (some ⟨ca, destMode w B (pa &&& 0o777)⟩) := by
  obtain ⟨⟨ca, pa⟩, hfa, hmode, hwS⟩ := posixStat_ok_inv A w wS fi hS
  have hperm : fi.Perm = pa &&& 0o777 := by
    unfold FileInfo.Perm
    rw [hmode]
  obtain ⟨hsrc, hOf, hOh, hOn, hOu⟩ := openFile_posix_rdonly_inv A 0o660 wS wO src hO
  obtain ⟨dst, w1, r2, w2, hD, hC, hw3⟩ := writeFile_ok_inv posix fuel B _ () fi.Perm wO w3 m hW
  obtain ⟨hdst, hDf, hDh, hDn, hDu⟩ := openFile_posix_create_inv B fi.Perm wO w1 dst hD
  have hSf : wS.files = w.files := by rw [hwS]; rfl
  have hSu : wS.umask = w.umask := by rw [hwS]; rfl
  have hfd : src.fd ≠ dst.fd := by
    rw [hsrc, hdst, hOn]
    exact Nat.ne_of_lt (Nat.lt_succ_self _)
  have h1s : w1.handles src.fd = some ⟨A, O_RDONLY, 0⟩ := by
    rw [hDh, hOh, hsrc, hOn]
    simp
  have h1d : w1.handles dst.fd
      = some ⟨B, Int.lor (Int.lor O_WRONLY O_TRUNC) O_CREATE, ([] : List Byte).length⟩ := by
    rw [hDh, hdst]
    simp
  have h1a : w1.files A = some ⟨ca, pa⟩ := by
    rw [hDf, Function.update_noteq hAB, hOf, hSf]
    exact hfa
  have h1b : w1.files B = some ⟨[], destMode wO B fi.Perm⟩ := by
    rw [hDf]
    simp
  obtain ⟨hn, hfiles⟩ := Copy_posix_file_success src dst A B O_RDONLY _ ca pa _ hfd hAB
    readable_rdonly writable_create fuel 0 0 [] w1 w2 m r2 h1s h1d h1a h1b hC
  refine ⟨ca, pa, hfa, by simpa using hn, hperm, ?_⟩
  have hC : posix.Close = posixClose := rfl
  rw [hw3, hC, posixClose_files, hfiles, hDf, Function.update_idem, hOf, hSf, hperm,
    destMode_congr w wO B _ (hOf.trans hSf) (hOu.trans hSu)]
  simp

theorem writeFile_traced (fs : FileSystem σ) (fuel : Nat) (filePath : String)
    (P : Call → Prop) (rd' : Reader ρ (σ × List Call)) (rd : Reader ρ σ)
    (hrd : Records P rd' rd) (r : ρ) (perm : Nat) (s : σ) (log : List Call) :
    ∃ tr, writeFile (traced fs) fuel filePath rd' r perm (s, log)
      = (writeFile fs fuel filePath rd r perm s).map (fun x => (x.1, x.2, log ++ tr)) := by
  rcases ho : openFile fs filePath (Int.lor (Int.lor O_WRONLY O_TRUNC) O_CREATE) perm s
    with ⟨e | dst, s1⟩
  · refine ⟨openCalls fs filePath (Int.lor (Int.lor O_WRONLY O_TRUNC) O_CREATE) perm s, ?_⟩
    unfold writeFile
    rw [openFile_traced, ho]
    simp
  · obtain ⟨tr, -, h⟩ := writeFile_traced_of_open fs fuel filePath P rd' rd hrd r perm s s1 log
      dst ho
    rw [h, writeFile_of_open fs fuel filePath rd r perm s s1 dst ho]
    rcases hc : Copy fs dst rd fuel 0 r s1 with _ | ⟨⟨m, _ | e⟩, r2, s2⟩
    · exact ⟨[], rfl⟩
    · exact ⟨_, rfl⟩
    · exact ⟨_, rfl⟩

theorem copyFile_traced (fs : FileSystem σ) (fuel : Nat) (fromFilePath toFilePath : String)
    (s : σ) (log : List Call) :
    ∃ tr, copyFile (traced fs) fuel fromFilePath toFilePath (s, log)
      = (copyFile fs fuel fromFilePath toFilePath s).map (fun x => (x.1, x.2, log ++ tr)) := by
  unfold copyFile
  simp only [traced_Stat]
  rcases hS : fs.Stat fromFilePath s with ⟨e | fi, s1⟩
  · exact ⟨[Call.Stat fromFilePath], rfl⟩
  · simp only [openFile_traced]
    rcases hO : openFile fs fromFilePath O_RDONLY 0o660 s1 with ⟨e | src, s2⟩
    · exact ⟨Call.Stat fromFilePath :: openCalls fs fromFilePath O_RDONLY 0o660 s1, by simp⟩
    · simp only []
      obtain ⟨tr, hW⟩ := writeFile_traced fs fuel toFilePath _ _ _ (Records_fileReader fs src)
        () fi.Perm s2
        (log ++ [Call.Stat fromFilePath] ++ openCalls fs fromFilePath O_RDONLY 0o660 s1)
      rw [hW]
      rcases hw : writeFile fs fuel toFilePath (fileReader fs src) () fi.Perm s2
        with _ | ⟨⟨m, _ | e⟩, s3⟩
      · exact ⟨[], rfl⟩
      · exact ⟨Call.Stat fromFilePath :: (openCalls fs fromFilePath O_RDONLY 0o660 s1 ++ tr
          ++ [Call.Close src]), by simp⟩
      · exact ⟨Call.Stat fromFilePath :: (openCalls fs fromFilePath O_RDONLY 0o660 s1 ++ tr
          ++ [Call.Close src]), by simp⟩

theorem moveFile_traced (fs : FileSystem σ) (fuel : Nat) (fromFilePath toFilePath : String)
    (s : σ) (log : List Call) :
    ∃ tr, moveFile (traced fs) fuel fromFilePath toFilePath (s, log)
      = (moveFile fs fuel fromFilePath toFilePath s).map (fun x => (x.1, x.2, log ++ tr)) := by
  unfold moveFile
  simp only [traced_Stat]
  rcases hS : fs.Stat fromFilePath s with ⟨e | fi, s1⟩
  · exact ⟨[Call.Stat fromFilePath], rfl⟩
  · simp only [openFile_traced]
    rcases hO : openFile fs fromFilePath O_RDONLY 0o660 s1 with ⟨e | src, s2⟩
    · exact ⟨Call.Stat fromFilePath :: openCalls fs fromFilePath O_RDONLY 0o660 s1, by simp⟩
    · simp only []
      obtain ⟨tr, hW⟩ := writeFile_traced fs fuel toFilePath _ _ _ (Records_fileReader fs src)
        () fi.Perm s2
        (log ++ [Call.Stat fromFilePath] ++ openCalls fs fromFilePath O_RDONLY 0o660 s1)
      rw [hW]
      rcases hw : writeFile fs fuel toFilePath (fileReader fs src) () fi.Perm s2
        with _ | ⟨⟨m, _ | e⟩, s3⟩
      · exact ⟨[], rfl⟩
      · simp only [Option.map_some', traced_Remove]
        rcases hR : fs.Remove fromFilePath s3 with ⟨_ | e, s4⟩
        · exact ⟨Call.Stat fromFilePath :: (openCalls fs fromFilePath O_RDONLY 0o660 s1 ++ tr
            ++ [Call.Remove fromFilePath, Call.Close src]), by simp⟩
        · exact ⟨Call.Stat fromFilePath :: (openCalls fs fromFilePath O_RDONLY 0o660 s1 ++ tr
            ++ [Call.Remove fromFilePath, Call.Close src]), by simp⟩
      · exact ⟨Call.Stat fromFilePath :: (openCalls fs fromFilePath O_RDONLY 0o660 s1 ++ tr
          ++ [Call.Close src]), by simp⟩

theorem writeFile_traced_success_shape (fs : FileSystem σ) (fuel : Nat) (filePath : String)
    (src : File) (perm : Nat) (s : σ) (log : List Call) (n : Int) (s' : σ × List Call)
    (h : writeFile (traced fs) fuel filePath (fileReader (traced fs) src) () perm (s, log)
      = some ((n, none), s')) :
    ∃ dst transfer, (∀ c ∈ transfer, c = Call.Read src ∨ ∃ p, c = Call.Write dst p)
      ∧ s'.2 = log ++ ([Call.OpenFile filePath (Int.lor (Int.lor O_WRONLY O_TRUNC) O_CREATE) perm,
          Call.FcntlFlock dst.fd F_SETLK wrLock] ++ transfer ++ [Call.Close dst]) := by
  rcases ho : openFile fs filePath (Int.lor (Int.lor O_WRONLY O_TRUNC) O_CREATE) perm s
    with ⟨e | dst, s1⟩
  · unfold writeFile at h
    rw [openFile_traced, ho] at h
    simp at h
  · obtain ⟨tr, htr, hw⟩ := writeFile_traced_of_open fs fuel filePath _ _ _
      (Records_fileReader fs src) () perm s s1 log dst ho
    rw [hw] at h
    rcases hc : Copy fs dst (fileReader fs src) fuel 0 () s1 with _ | ⟨⟨m, _ | e⟩, r2, s2⟩
    · rw [hc] at h; simp at h
    · rw [hc] at h
      simp only [Option.map_some', Option.isNone_none, if_true, Option.some.injEq,
        Prod.mk.injEq] at h
      refine ⟨dst, tr, htr, ?_⟩
      rw [← h.2]
    · rw [hc] at h
      simp [writeFileDeferred_rollback] at h

theorem copyFile_success_calls (fs : FileSystem σ) (fuel : Nat)
    (fromFilePath toFilePath : String) (s : σ) (n : Int) (s' : σ) (log : List Call)
    (h : copyFile (traced fs) fuel fromFilePath toFilePath (s, []) = some ((n, none), s', log)) :
    ∃ fileInfo s1 src dst transfer, fs.Stat fromFilePath s = (.ok fileInfo, s1)
      ∧ (∀ c ∈ transfer, c = Call.Read src ∨ ∃ p, c = Call.Write dst p)
      ∧ log = [Call.Stat fromFilePath, Call.OpenFile fromFilePath O_RDONLY 0o660,
            Call.FcntlFlock src.fd F_SETLK rdLock,
            Call.OpenFile toFilePath (Int.lor (Int.lor O_WRONLY O_TRUNC) O_CREATE)
              fileInfo.Perm,
            Call.FcntlFlock dst.fd F_SETLK wrLock]
          ++ transfer ++ [Call.Close dst, Call.Close src] := by
  unfold copyFile at h
  simp only [traced_Stat] at h
  rcases hS : fs.Stat fromFilePath s with ⟨e | fi, s1⟩
  · rw [hS] at h; simp at h
  · rw [hS] at h
    simp only [openFile_traced] at h
    rcases hO : openFile fs fromFilePath O_RDONLY 0o660 s1 with ⟨e | src, s2⟩
    · rw [hO] at h; simp at h
    · rw [hO, openCalls_ok fs _ _ _ _ _ _ hO, lockCalls_rdonly] at h
      simp only [] at h
      rcases hW : writeFile (traced fs) fuel toFilePath (fileReader (traced fs) src) ()
          fi.Perm (s2, [] ++ [Call.Stat fromFilePath]
            ++ [Call.OpenFile fromFilePath O_RDONLY 0o660,
              Call.FcntlFlock src.fd F_SETLK rdLock]) with _ | ⟨⟨m, _ | e⟩, s3⟩
      · rw [hW] at h; simp at h
      · rw [hW] at h
        obtain ⟨dst, tr, htr, hlog⟩ := writeFile_traced_success_shape fs fuel toFilePath src
          fi.Perm s2 _ m s3 hW
        simp only [traced_Close, Option.some.injEq, Prod.mk.injEq] at h
        refine ⟨fi, s1, src, dst, tr, rfl, htr, ?_⟩
        rw [← h.2.2, hlog]
        simp
      · rw [hW] at h; simp at h

theorem moveFile_success_calls (fs : FileSystem σ) (fuel : Nat)
    (fromFilePath toFilePath : String) (s : σ) (n : Int) (s' : σ) (log : List Call)
    (h : moveFile (traced fs) fuel fromFilePath toFilePath (s, []) = some ((n, none), s', log)) :
    ∃ fileInfo s1 src dst transfer, fs.Stat fromFilePath s = (.ok fileInfo, s1)
      ∧ (∀ c ∈ transfer, c = Call.Read src ∨ ∃ p, c = Call.Write dst p)
      ∧ log = [Call.Stat fromFilePath, Call.OpenFile fromFilePath O_RDONLY 0o660,
            Call.FcntlFlock src.fd F_SETLK rdLock,
            Call.OpenFile toFilePath (Int.lor (Int.lor O_WRONLY O_TRUNC) O_CREATE)
              fileInfo.Perm,
            Call.FcntlFlock dst.fd F_SETLK wrLock]
          ++ transfer
          ++ [Call.Close dst, Call.Remove fromFilePath, Call.Close src] := by
  unfold moveFile at h
  simp only [traced_Stat] at h
  rcases hS : fs.Stat fromFilePath s with ⟨e | fi, s1⟩
  · rw [hS] at h; simp at h
  · rw [hS] at h
    simp only [openFile_traced] at h
    rcases hO : openFile fs fromFilePath O_RDONLY 0o660 s1 with ⟨e | src, s2⟩
    · rw [hO] at h; simp at h
    · rw [hO, openCalls_ok fs _ _ _ _ _ _ hO, lockCalls_rdonly] at h
      simp only [] at h
      rcases hW : writeFile (traced fs) fuel toFilePath (fileReader (traced fs) src) ()
          fi.Perm (s2, [] ++ [Call.Stat fromFilePath]
            ++ [Call.OpenFile fromFilePath O_RDONLY 0o660,
              Call.FcntlFlock src.fd F_SETLK rdLock]) with _ | ⟨⟨m, _ | e⟩, s3⟩
      · rw [hW] at h; simp at h
      · rw [hW] at h
        obtain ⟨dst, tr, htr, hlog⟩ := writeFile_traced_success_shape fs fuel toFilePath src
          fi.Perm s2 _ m s3 hW
        simp only [traced_Remove] at h
        rcases hR : fs.Remove fromFilePath s3.1 with ⟨_ | e, s4⟩
        · rw [hR] at h
          simp only [traced_Close, Option.some.injEq, Prod.mk.injEq] at h
          refine ⟨fi, s1, src, dst, tr, rfl, htr, ?_⟩
          rw [← h.2.2, hlog]
          simp
        · rw [hR] at h; simp at h
      · rw [hW] at h; simp at h

theorem createMode_keeps_bits (umask pa : Nat) (h : umask &&& (pa &&& 0o777) = 0) :
    createMode umask (pa &&& 0o777) &&& 0o777 = pa &&& 0o777 := by
  unfold createMode
  apply Nat.eq_of_testBit_eq
  intro i
  have hi := congrArg (fun x => Nat.testBit x i) h
  simp only [Nat.testBit_and, Nat.zero_testBit] at hi
  simp only [Nat.testBit_and, Nat.testBit_xor]
  cases h1 : Nat.testBit pa i <;> cases h2 : Nat.testBit 0o777 i <;>
    cases h3 : Nat.testBit umask i <;> simp_all

theorem copyFile_posix_success (A B : String) (hAB : A ≠ B) (fuel : Nat) (w w' : World)
    (n : Int) (h : copyFile posix fuel A B w = some ((n, none), w')) :
    ∃ ca pa, w.files A = some ⟨ca, pa⟩ ∧ n = ca.length
      ∧ w'.files = Function.update w.files B (some ⟨ca, destMode w B (pa &&& 0o777)⟩) := by
  have hSt : posix.Stat = posixStat := rfl
  have hCl : posix.Close = posixClose := rfl
  unfold copyFile at h
  rw [hSt] at h
  rcases hS : posixStat A w with ⟨e | fi, wS⟩
  · rw [hS] at h; simp at h
  · rw [hS] at h
    simp only [] at h
    rcases hO : openFile posix A O_RDONLY 0o660 wS with ⟨e | src, wO⟩
    · rw [hO] at h; simp at h
    · rw [hO] at h
      simp only [] at h
      rcases hW : writeFile posix fuel B (fileReader posix src) () fi.Perm wO
        with _ | ⟨⟨m, _ | e⟩, w3⟩
      · rw [hW] at h; simp at h
      · rw [hW] at h
        simp only [Option.some.injEq, Prod.mk.injEq, and_true] at h
        obtain ⟨ca, pa, hfa, hm, -, hfiles⟩ := copy_steps_posix A B hAB fuel w wS wO w3 fi src m
          hS hO hW
        refine ⟨ca, pa, hfa, by rw [← h.1, hm], ?_⟩
        rw [← h.2, hCl, posixClose_files, hfiles]
      · rw [hW] at h; simp at h

/-- C8, refuted as stated. With source and destination the same path, `copyFile` returns
`(0, nil)` and leaves `foo` empty, where it held 11 bytes. With distinct paths: a
destination that existed with mode 0600 keeps that mode though the source has 0644, and
under umask 022 a source with mode 0666 yields a new destination with mode 0644. -/
theorem copyFile_same_path_or_other_mode :
    ((copyFile posix 12 "foo" "foo" fooWorld).map (fun x => (x.1, x.2.files "foo"))
        = some ((0, none), some ⟨[], 0o644⟩)
      ∧ fooWorld.files "foo" = some ⟨helloWorld, 0o644⟩)
    ∧ ((copyFile posix 12 "foo" "bar" fooBarWorld).map
          (fun x => (x.1, x.2.files "foo", x.2.files "bar"))
        = some ((11, none), some ⟨helloWorld, 0o644⟩, some ⟨helloWorld, 0o600⟩))
    ∧ ((copyFile posix 12 "foo" "bar" fooWideWorld).map
          (fun x => (x.1, x.2.files "foo", x.2.files "bar"))
        = some ((11, none), some ⟨helloWorld, 0o666⟩, some ⟨helloWorld, 0o644⟩)) := by
  refine ⟨⟨by decide, by decide⟩, by decide, by decide⟩

/-- C8, amended: for distinct paths `A` and `B`, when `copyFile(A, B)` returns without
error on the reference filesystem, `A` existed, `B` afterwards holds exactly the bytes `A`
held before, the count returned is their number, `A` keeps its content and mode, and the
destination was opened with the `Perm()` bits of `Stat(A)`. The mode of `B` is the one it
had if it existed before, and otherwise those bits less the umask, hence `A`'s permission
bits when the umask clears none of them. -/
theorem copyFile_distinct_paths_postcondition (A B : String) (hAB : A ≠ B) (fuel : Nat)
    (w w' : World) (n : Int) (h : copyFile posix fuel A B w = some ((n, none), w')) :
    ∃ ca pa, w.files A = some ⟨ca, pa⟩
      ∧ (w'.files B).map FileData.content = some ca
      ∧ n = ca.length
      ∧ w'.files A = some ⟨ca, pa⟩
      ∧ (∃ log, (copyFile (traced posix) fuel A B (w, [])).map (fun x => x.2.2) = some log
          ∧ Call.OpenFile B (Int.lor (Int.lor O_WRONLY O_TRUNC) O_CREATE) (pa &&& 0o777) ∈ log)
      ∧ (∀ fb, w.files B = some fb → (w'.files B).map FileData.perm = some fb.perm)
      ∧ (w.files B = none →
          (w'.files B).map FileData.perm = some (createMode w.umask (pa &&& 0o777)))
      ∧ (w.files B = none → w.umask &&& (pa &&& 0o777) = 0 →
          (w'.files B).map (fun f => f.perm &&& 0o777) = some (pa &&& 0o777)) := by
  obtain ⟨ca, pa, hfa, hn, hfiles⟩ := copyFile_posix_success A B hAB fuel w w' n h
  have hB : w'.files B = some ⟨ca, destMode w B (pa &&& 0o777)⟩ := by
    rw [hfiles]; simp
  have hA : w'.files A = some ⟨ca, pa⟩ := by
    rw [hfiles, Function.update_noteq hAB]; exact hfa
  refine ⟨ca, pa, hfa, by rw [hB]; rfl, hn, hA, ?_, ?_, ?_, ?_⟩
  · obtain ⟨tr, htr⟩ := copyFile_traced posix fuel A B w []
    rw [h] at htr
    simp only [Option.map_some', List.nil_append] at htr
    obtain ⟨fi, s1, src, dst, transfer, hS, -, hlog⟩ :=
      copyFile_success_calls posix fuel A B w n w' tr htr
    obtain ⟨file, hfile, hmode, -⟩ := posixStat_ok_inv A w s1 fi hS
    have hperm : fi.Perm = pa &&& 0o777 := by
      unfold FileInfo.Perm
      rw [hmode]
      rw [hfa] at hfile
      cases hfile
      rfl
    refine ⟨tr, by rw [htr]; rfl, ?_⟩
    rw [hlog, hperm]
    simp
  · intro fb hfb
    rw [hB]
    simp [destMode, hfb]
  · intro hnone
    rw [hB]
    simp [destMode, hnone]
  · intro hnone hmask
    rw [hB]
    simp only [Option.map_some', destMode, hnone, Option.some.injEq]
    exact createMode_keeps_bits w.umask pa hmask

theorem copyFile_distinct_paths_postcondition_witness :
    ∃ w' ca pa, copyFile posix 12 "foo" "bar" fooWorld = some ((11, none), w')
      ∧ fooWorld.files "foo" = some ⟨ca, pa⟩
      ∧ (w'.files "bar").map FileData.content = some ca
      ∧ (11 : Int) = ca.length
      ∧ w'.files "foo" = some ⟨ca, pa⟩ := by
  obtain ⟨ca, pa, h1, h2, h3, h4, -⟩ :=
    copyFile_distinct_paths_postcondition "foo" "bar" (by decide) 12 fooWorld _ 11 rfl
  exact ⟨_, ca, pa, rfl, h1, h2, h3, h4⟩

theorem posixRemove_err_files (name : String) (w w' : World) (e : Error)
    (h : posixRemove name w = (some e, w')) : w'.files = w.files := by
  unfold posixRemove at h
  rcases hp : w.popFault with ⟨_ | e1, w1⟩
  · rw [hp] at h
    have hw1 : w1 = w.popFault.2 := by rw [hp]
    subst hw1
    simp only [] at h
    cases hf : w.popFault.2.files name with
    | none =>
      rw [hf] at h
      simp only [Prod.mk.injEq] at h
      rw [← h.2]
      rfl
    | some file => rw [hf] at h; simp at h
  · rw [hp] at h
    have hw1 : w1 = w.popFault.2 := by rw [hp]
    subst hw1
    simp only [Prod.mk.injEq] at h
    rw [← h.2]
    rfl

theorem moveFile_posix_success (A B : String) (hAB : A ≠ B) (fuel : Nat) (w w' : World)
    (n : Int) (h : moveFile posix fuel A B w = some ((n, none), w')) :
    ∃ ca pa, w.files A = some ⟨ca, pa⟩ ∧ n = ca.length
      ∧ w'.files = Function.update
          (Function.update w.files B (some ⟨ca, destMode w B (pa &&& 0o777)⟩)) A none := by
  have hSt : posix.Stat = posixStat := rfl
  have hCl : posix.Close = posixClose := rfl
  have hRm : posix.Remove = posixRemove := rfl
  unfold moveFile at h
  rw [hSt] at h
  rcases hS : posixStat A w with ⟨e | fi, wS⟩
  · rw [hS] at h; simp at h
  · rw [hS] at h
    simp only [] at h
    rcases hO : openFile posix A O_RDONLY 0o660 wS with ⟨e | src, wO⟩
    · rw [hO] at h; simp at h
    · rw [hO] at h
      simp only [] at h
      rcases hW : writeFile posix fuel B (fileReader posix src) () fi.Perm wO
        with _ | ⟨⟨m, _ | e⟩, w3⟩
      · rw [hW] at h; simp at h
      · rw [hW, hRm] at h
        simp only [] at h
        rcases hR : posixRemove A w3 with ⟨_ | e, w4⟩
        · rw [hR] at h
          simp only [Option.some.injEq, Prod.mk.injEq, and_true] at h
          obtain ⟨ca, pa, hfa, hm, -, hfiles⟩ := copy_steps_posix A B hAB fuel w wS wO w3 fi
            src m hS hO hW
          refine ⟨ca, pa, hfa, by rw [← h.1, hm], ?_⟩
          rw [← h.2, hCl, posixClose_files, posixRemove_ok_inv A w3 w4 hR, hfiles]
        · rw [hR] at h; simp at h
      · rw [hW] at h; simp at h

theorem moveFile_remove_failure_calls (fs : FileSystem σ) (fuel : Nat) (A B : String)
    (s s1 s2 s3 s4 : σ) (fi : FileInfo) (src : File) (m : Int) (r : Error)
    (hS : fs.Stat A s = (.ok fi, s1))
    (hO : openFile fs A O_RDONLY 0o660 s1 = (.ok src, s2))
    (hW : writeFile fs fuel B (fileReader fs src) () fi.Perm s2 = some ((m, none), s3))
    (hR : fs.Remove A s3 = (some r, s4)) :
    ∃ dst transfer, (∀ c ∈ transfer, c = Call.Read src ∨ ∃ p, c = Call.Write dst p)
      ∧ moveFile (traced fs) fuel A B (s, [])
        = some ((m, some (Error.wrapError ("move '" ++ A ++ "' to '" ++ B
              ++ "': Remove source: " ++ r.message) r)),
            (fs.Close src s4).2,
            [Call.Stat A, Call.OpenFile A O_RDONLY 0o660,
              Call.FcntlFlock src.fd F_SETLK rdLock,
              Call.OpenFile B (Int.lor (Int.lor O_WRONLY O_TRUNC) O_CREATE) fi.Perm,
              Call.FcntlFlock dst.fd F_SETLK wrLock]
            ++ transfer ++ [Call.Close dst, Call.Remove A, Call.Close src]) := by
  obtain ⟨dst, sa, r2, sb, hD, hC, hs3⟩ := writeFile_ok_inv fs fuel B _ () fi.Perm s2 s3 m hW
  obtain ⟨tr, htr, hw⟩ := writeFile_traced_of_open fs fuel B _ _ _
    (Records_fileReader fs src) () fi.Perm s2 sa
    ([] ++ [Call.Stat A] ++ [Call.OpenFile A O_RDONLY 0o660,
      Call.FcntlFlock src.fd F_SETLK rdLock]) dst hD
  rw [hC] at hw
  simp only [Option.map_some', Option.isNone_none, if_true] at hw
  have hdef : writeFileDeferred fs B dst true none none sb = (none, s3) := by
    rw [hs3]
    simp [writeFileDeferred]
  rw [hdef] at hw
  refine ⟨dst, tr, htr, ?_⟩
  unfold moveFile
  simp only [traced_Stat, hS, openFile_traced, hO, openCalls_ok fs _ _ _ _ _ _ hO,
    lockCalls_rdonly, hw, traced_Remove, hR, traced_Close]
  simp

/-- C9, refuted as stated: with source and destination the same path, `moveFile` returns
`(0, nil)` and `foo`, which held 11 bytes, does not exist afterwards, so the destination
holds no copy. -/
theorem moveFile_same_path_loses_file :
    (moveFile posix 12 "foo" "foo" fooWorld).map (fun x => (x.1, x.2.files "foo"))
        = some ((0, none), none)
      ∧ fooWorld.files "foo" = some ⟨helloWorld, 0o644⟩ := by
  refine ⟨by decide, by decide⟩

/-- C9, amended: for distinct paths `A` and `B` on the reference filesystem. If
`moveFile(A, B)` returns without error, `A` existed, `B` afterwards holds exactly the bytes
`A` held, with the mode `copyFile` gives it, the count is their number and `A` does not
exist. If the copy phase succeeded and the final `Remove(A)` fails with `r`, `moveFile`
returns the full count with an error that unwraps to `r`, `B` holds the full copy, `A` is
still there with its content and mode, and the calls made contain no `Remove` of `B`. -/
theorem moveFile_distinct_paths_postcondition (A B : String) (hAB : A ≠ B) (fuel : Nat)
    (w : World) :
    (∀ n w', moveFile posix fuel A B w = some ((n, none), w') →
      ∃ ca pa, w.files A = some ⟨ca, pa⟩
        ∧ w'.files B = some ⟨ca, destMode w B (pa &&& 0o777)⟩
        ∧ n = ca.length
        ∧ w'.files A = none)
      ∧ (∀ fi wS src wO m w3 r w4,
          posix.Stat A w = (.ok fi, wS) →
          openFile posix A O_RDONLY 0o660 wS = (.ok src, wO) →
          writeFile posix fuel B (fileReader posix src) () fi.Perm wO = some ((m, none), w3) →
          posix.Remove A w3 = (some r, w4) →
          ∃ err w' ca pa log,
            moveFile posix fuel A B w = some ((m, some err), w')
              ∧ err.Unwrap = some r
              ∧ w.files A = some ⟨ca, pa⟩
              ∧ m = ca.length
              ∧ w'.files B = some ⟨ca, destMode w B (pa &&& 0o777)⟩
              ∧ w'.files A = some ⟨ca, pa⟩
              ∧ (moveFile (traced posix) fuel A B (w, [])).map (fun x => x.2.2) = some log
              ∧ Call.Remove B ∉ log) := by
  constructor
  · intro n w' h
    obtain ⟨ca, pa, hfa, hn, hfiles⟩ := moveFile_posix_success A B hAB fuel w w' n h
    refine ⟨ca, pa, hfa, ?_, hn, ?_⟩
    · rw [hfiles, Function.update_noteq (Ne.symm hAB)]
      simp
    · rw [hfiles]
      simp
  · intro fi wS src wO m w3 r w4 hS hO hW hR
    obtain ⟨ca, pa, hfa, hm, -, hfiles⟩ := copy_steps_posix A B hAB fuel w wS wO w3 fi src m
      hS hO hW
    obtain ⟨dst, transfer, htr, hrun⟩ := moveFile_remove_failure_calls posix fuel A B w wS wO
      w3 w4 fi src m r hS hO hW hR
    obtain ⟨tr, herase⟩ := moveFile_traced posix fuel A B w []
    rw [hrun] at herase
    have hCl : posix.Close = posixClose := rfl
    have hRm : posix.Remove = posixRemove := rfl
    rw [hRm] at hR
    have hfin : (posix.Close src w4).2.files
        = Function.update w.files B (some ⟨ca, destMode w B (pa &&& 0o777)⟩) := by
      rw [hCl, posixClose_files, posixRemove_err_files A w3 w4 r hR, hfiles]
    rcases hmv : moveFile posix fuel A B w with _ | ⟨⟨m', err'⟩, w'⟩
    · rw [hmv] at herase; simp at herase
    · rw [hmv] at herase
      simp only [Option.map_some', Option.some.injEq, Prod.mk.injEq, List.nil_append] at herase
      obtain ⟨⟨hm', herr'⟩, hw', -⟩ := herase
      refine ⟨Error.wrapError ("move '" ++ A ++ "' to '" ++ B ++ "': Remove source: "
          ++ r.message) r, w', ca, pa,
        [Call.Stat A, Call.OpenFile A O_RDONLY 0o660, Call.FcntlFlock src.fd F_SETLK rdLock,
          Call.OpenFile B (Int.lor (Int.lor O_WRONLY O_TRUNC) O_CREATE) fi.Perm,
          Call.FcntlFlock dst.fd F_SETLK wrLock] ++ transfer
          ++ [Call.Close dst, Call.Remove A, Call.Close src],
        by rw [← hm', ← herr'], rfl, hfa, hm, ?_, ?_, ?_, ?_⟩
      · rw [← hw', hfin]; simp
      · rw [← hw', hfin, Function.update_noteq hAB]; exact hfa
      · rw [hrun]; rfl
      · intro hmem
        simp only [List.mem_append, List.mem_cons, List.mem_singleton, List.not_mem_nil,
          or_false, Call.Remove.injEq, false_or] at hmem
        rcases hmem with (hmem | hmem) | hmem
        · simp at hmem
        · rcases htr _ hmem with h1 | ⟨p, h1⟩ <;> cases h1
        · rcases hmem with h1 | h1 | h1
          · cases h1
          · exact hAB h1.symm
          · cases h1

theorem moveFile_distinct_paths_postcondition_witness :
    (∃ w' ca pa, moveFile posix 12 "foo" "bar" fooWorld = some ((11, none), w')
        ∧ fooWorld.files "foo" = some ⟨ca, pa⟩
        ∧ w'.files "bar" = some ⟨ca, destMode fooWorld "bar" (pa &&& 0o777)⟩
        ∧ (11 : Int) = ca.length
        ∧ w'.files "foo" = none)
      ∧ (∃ err w' ca pa,
          moveFile posix 12 "foo" "bar"
              { fooWorld with faults := [none, none, none, none, none, none, none, none, none,
                  some "permission denied"] }
            = some ((11, some err), w')
            ∧ w'.files "bar" = some ⟨ca, destMode fooWorld "bar" (pa &&& 0o777)⟩
            ∧ w'.files "foo" = some ⟨ca, pa⟩) := by
  constructor
  · obtain ⟨ca, pa, h1, h2, h3, h4⟩ :=
      (moveFile_distinct_paths_postcondition "foo" "bar" (by decide) 12 fooWorld).1 11 _ rfl
    exact ⟨_, ca, pa, rfl, h1, h2, h3, h4⟩
  · obtain ⟨err, w', ca, pa, log, h1, -, -, -, h5, h6, -, -⟩ :=
      (moveFile_distinct_paths_postcondition "foo" "bar" (by decide) 12
        { fooWorld with faults := [none, none, none, none, none, none, none, none, none,
            some "permission denied"] }).2 _ _ ⟨3, "foo"⟩ _ 11 _
        (Error.sys "permission denied" false) _ rfl rfl rfl rfl
    exact ⟨err, w', ca, pa, h1, h5, h6⟩

theorem update_offset_path (handles : Nat → Option Handle) (fd0 : Nat) (h : Handle) (k : Nat)
    (hh : handles fd0 = some h) (fd : Nat) :
    ((Function.update handles fd0 (some { h with offset := k })) fd).map Handle.path
      = (handles fd).map Handle.path := by
  by_cases hfd : fd = fd0
  · subst hfd
    simp [hh]
  · simp [Function.update_noteq hfd]

theorem posixRead_frame (f : File) (n : Nat) (w : World) :
    (posixRead f n w).2.locks = w.locks
      ∧ ∀ fd, ((posixRead f n w).2.handles fd).map Handle.path
          = (w.handles fd).map Handle.path := by
  unfold posixRead
  rcases hp : w.popFault with ⟨_ | e, w1⟩
  · have hw1 : w1 = w.popFault.2 := by rw [hp]
    subst hw1
    simp only []
    cases hh : w.popFault.2.handles f.fd with
    | none => exact ⟨rfl, fun _ => rfl⟩
    | some h =>
      have hh' : w.handles f.fd = some h := hh
      simp only []
      by_cases hr : readable h.flag = true
      · simp only [hr, if_true]
        cases hfile : w.popFault.2.files h.path with
        | none => exact ⟨rfl, fun _ => rfl⟩
        | some file =>
          simp only []
          by_cases hn : n = 0
          · simp only [hn, if_true]
            exact ⟨rfl, fun _ => rfl⟩
          · simp only [if_neg hn]
            by_cases hc : List.take n (List.drop h.offset file.content) = []
            · simp only [hc, if_true]
              exact ⟨rfl, fun _ => rfl⟩
            · simp only [if_neg hc]
              exact ⟨rfl, fun fd => update_offset_path w.handles f.fd h _ hh' fd⟩
      · simp only [hr]
        exact ⟨rfl, fun _ => rfl⟩
  · have hw1 : w1 = w.popFault.2 := by rw [hp]
    subst hw1
    exact ⟨rfl, fun _ => rfl⟩

theorem posixWrite_frame (f : File) (p : List Byte) (w : World) :
    (posixWrite f p w).2.locks = w.locks
      ∧ ∀ fd, ((posixWrite f p w).2.handles fd).map Handle.path
          = (w.handles fd).map Handle.path := by
  unfold posixWrite
  rcases hp : w.popFault with ⟨_ | e, w1⟩
  · have hw1 : w1 = w.popFault.2 := by rw [hp]
    subst hw1
    simp only []
    cases hh : w.popFault.2.handles f.fd with
    | none => exact ⟨rfl, fun _ => rfl⟩
    | some h =>
      have hh' : w.handles f.fd = some h := hh
      simp only []
      by_cases hr : writable h.flag = true
      · simp only [hr, if_true]
        cases hfile : w.popFault.2.files h.path with
        | none => exact ⟨rfl, fun _ => rfl⟩
        | some file =>
          exact ⟨rfl, fun fd => update_offset_path w.handles f.fd h _ hh' fd⟩
      · simp only [hr]
        exact ⟨rfl, fun _ => rfl⟩
  · have hw1 : w1 = w.popFault.2 := by rw [hp]
    subst hw1
    exact ⟨rfl, fun _ => rfl⟩

theorem Copy_posix_frame (src dst : File) :
    ∀ (fuel : Nat) (written : Int) (w w' : World) (res : Int × Option Error) (u : Unit),
      Copy posix dst (fileReader posix src) fuel written () w = some (res, u, w') →
      w'.locks = w.locks
        ∧ ∀ fd, (w'.handles fd).map Handle.path = (w.handles fd).map Handle.path := by
  intro fuel
  induction fuel with
  | zero => intro written w w' res u h; simp [Copy] at h
  | succ fuel ih =>
    intro written w w' res u h
    have hR : posix.Read src copyBufSize w = posixRead src copyBufSize w := rfl
    obtain ⟨hrl, hrh⟩ := posixRead_frame src copyBufSize w
    rw [Copy] at h
    simp only [fileReader, hR] at h
    rcases hrd : posixRead src copyBufSize w with ⟨⟨buf, er⟩, w1⟩
    rw [hrd] at h hrl hrh
    simp only [] at h hrl hrh
    have hW : ∀ wr, writeChunk posix dst buf wr w1
        = (chunkResult buf.length wr (posixWrite dst buf w1).1.1 (posixWrite dst buf w1).1.2,
            (posixWrite dst buf w1).2) := fun _ => rfl
    obtain ⟨hwl, hwh⟩ := posixWrite_frame dst buf w1
    by_cases hbuf : 0 < buf.length
    · simp only [if_pos hbuf, hW] at h
      rcases hcr : chunkResult buf.length written (posixWrite dst buf w1).1.1
          (posixWrite dst buf w1).1.2 with ⟨written1, _ | e⟩
      · rw [hcr] at h
        simp only [] at h
        cases er with
        | some e =>
          simp only [Option.some.injEq, Prod.mk.injEq] at h
          rw [← h.2.2]
          exact ⟨hwl.trans hrl, fun fd => (hwh fd).trans (hrh fd)⟩
        | none =>
          simp only [] at h
          obtain ⟨h1, h2⟩ := ih _ _ _ _ _ h
          exact ⟨h1.trans (hwl.trans hrl), fun fd => (h2 fd).trans ((hwh fd).trans (hrh fd))⟩
      · rw [hcr] at h
        simp only [Option.some.injEq, Prod.mk.injEq] at h
        rw [← h.2.2]
        exact ⟨hwl.trans hrl, fun fd => (hwh fd).trans (hrh fd)⟩
    · simp only [if_neg hbuf] at h
      cases er with
      | some e =>
        simp only [Option.some.injEq, Prod.mk.injEq] at h
        rw [← h.2.2]
        exact ⟨hrl, hrh⟩
      | none =>
        simp only [] at h
        obtain ⟨h1, h2⟩ := ih _ _ _ _ _ h
        exact ⟨h1.trans hrl, fun fd => (h2 fd).trans (hrh fd)⟩

theorem posixOpenFile_locks (name : String) (flag : Int) (perm : Nat) (w : World) :
    (posixOpenFile name flag perm w).2.locks = w.locks := by
  unfold posixOpenFile
  rcases hp : w.popFault with ⟨_ | e, w1⟩
  · have hw1 : w1 = w.popFault.2 := by rw [hp]
    subst hw1
    simp only []
    cases hf : w.popFault.2.files name with
    | none =>
      simp only []
      split_ifs <;> rfl
    | some file =>
      simp only []
      split_ifs <;> rfl
  · have hw1 : w1 = w.popFault.2 := by rw [hp]
    subst hw1
    rfl

theorem posixFcntlFlock_ok_inv (fd : Nat) (typ : Int) (w w' : World)
    (htyp : typ = F_RDLCK ∨ typ = F_WRLCK)
    (h : posixFcntlFlock fd F_SETLK (lockWithType typ) w = (none, w')) :
    ∃ hd, w.handles fd = some hd
      ∧ w'.locks = Function.update w.locks hd.path (some typ)
      ∧ w'.handles = w.handles := by
  unfold posixFcntlFlock at h
  rcases hp : w.popFault with ⟨_ | e, w1⟩
  · rw [hp] at h
    have hw1 : w1 = w.popFault.2 := by rw [hp]
    subst hw1
    simp only [] at h
    cases hh : w.popFault.2.handles fd with
    | none => rw [hh] at h; simp at h
    | some hd =>
      rw [hh] at h
      have hh' : w.handles fd = some hd := hh
      refine ⟨hd, hh', ?_⟩
      rcases htyp with ht | ht
      · subst ht
        simp only [lockWithType, ne_eq, not_true_eq_false, if_false, if_true] at h
        by_cases hr : readable hd.flag = true
        · simp only [hr, if_true, Prod.mk.injEq, true_and] at h
          rw [← h]
          exact ⟨rfl, rfl⟩
        · simp [hr] at h
      · subst ht
        have h01 : ¬ (F_WRLCK = F_RDLCK) := by decide
        simp only [lockWithType, ne_eq, not_true_eq_false, if_false, if_true, if_neg h01] at h
        by_cases hr : writable hd.flag = true
        · simp only [hr, if_true, Prod.mk.injEq, true_and] at h
          rw [← h]
          exact ⟨rfl, rfl⟩
        · simp [hr] at h
  · rw [hp] at h; simp at h

theorem lockForFlag_posix_ok_inv (fd : Nat) (flag : Int) (typ : Int) (w w' : World)
    (hcalls : lockCalls fd flag = [Call.FcntlFlock fd F_SETLK (lockWithType typ)])
    (htyp : typ = F_RDLCK ∨ typ = F_WRLCK)
    (h : lockForFlag posix fd flag w = (none, w')) :
    ∃ hd, w.handles fd = some hd
      ∧ w'.locks = Function.update w.locks hd.path (some typ)
      ∧ w'.handles = w.handles := by
  have hF : posix.FcntlFlock = posixFcntlFlock := rfl
  unfold lockForFlag at h
  unfold lockCalls at hcalls
  rw [hF] at h
  simp only [] at h
  by_cases h1 : Int.land flag mask = O_RDWR ∨ Int.land flag mask = O_WRONLY
  · rw [if_pos h1] at h hcalls
    simp only [List.cons.injEq, Call.FcntlFlock.injEq, true_and, and_true] at hcalls
    rw [hcalls] at h
    rcases hx : posixFcntlFlock fd F_SETLK (lockWithType typ) w with ⟨_ | e, wx⟩
    · rw [hx] at h
      simp only [Prod.mk.injEq, true_and] at h
      subst h
      exact posixFcntlFlock_ok_inv fd typ w wx htyp hx
    · rw [hx] at h; simp at h
  · rw [if_neg h1] at h hcalls
    by_cases h2 : Int.land flag mask = O_RDONLY
    · rw [if_pos h2] at h hcalls
      simp only [List.cons.injEq, Call.FcntlFlock.injEq, true_and, and_true] at hcalls
      rw [hcalls] at h
      rcases hx : posixFcntlFlock fd F_SETLK (lockWithType typ) w with ⟨_ | e, wx⟩
      · rw [hx] at h
        simp only [Prod.mk.injEq, true_and] at h
        subst h
        exact posixFcntlFlock_ok_inv fd typ w wx htyp hx
      · rw [hx] at h; simp at h
    · rw [if_neg h2] at hcalls
      simp at hcalls

theorem posixClose_open_frame (f : File) (hd : Handle) (w : World)
    (hh : w.handles f.fd = some hd) :
    (posixClose f w).2.locks = Function.update w.locks hd.path none
      ∧ (posixClose f w).2.handles = Function.update w.handles f.fd none := by
  unfold posixClose
  rcases hp : w.popFault with ⟨fault, w1⟩
  have hw1 : w1 = w.popFault.2 := by rw [hp]
  subst hw1
  have hh' : w.popFault.2.handles f.fd = some hd := hh
  simp only [hh']
  exact ⟨rfl, rfl⟩

theorem copy_lock_checkpoints (A B : String) (hAB : A ≠ B) (fuel : Nat)
    (wS wO w1 w2 : World) (perm : Nat) (src dst : File) (res : Int × Option Error)
    (r2 : Unit)
    (hO : openFile posix A O_RDONLY 0o660 wS = (.ok src, wO))
    (hD : openFile posix B (Int.lor (Int.lor O_WRONLY O_TRUNC) O_CREATE) perm wO
      = (.ok dst, w1))
    (hC : Copy posix dst (fileReader posix src) fuel 0 () w1 = some (res, r2, w2)) :
    wO.locks A = some F_RDLCK ∧ w1.locks A = some F_RDLCK ∧ w2.locks A = some F_RDLCK
      ∧ (posix.Close dst w2).2.locks A = some F_RDLCK
      ∧ ∃ hd, (posix.Close dst w2).2.handles src.fd = some hd ∧ hd.path = A := by
  have hOp : posix.OpenFile = posixOpenFile := rfl
  have hCl : posix.Close = posixClose := rfl
  -- the source
  obtain ⟨wa, hoa, hla⟩ := openFile_ok_inv posix A O_RDONLY 0o660 wS wO src hO
  rw [hOp] at hoa
  obtain ⟨hsrc, -, hah, han, -⟩ := posixOpenFile_rdonly_inv A 0o660 wS wa src hoa
  obtain ⟨hd, hhd, hOl, hOh⟩ := lockForFlag_posix_ok_inv src.fd O_RDONLY F_RDLCK wa wO
    (lockCalls_rdonly src.fd) (Or.inl rfl) hla
  have hOn : wO.nextFd = wa.nextFd := by
    have := (lockForFlag_posix_frame src.fd O_RDONLY wa).2.2.1
    rw [hla] at this
    exact this
  have hsfd : src.fd = wS.nextFd := by rw [hsrc]
  have hhd' : hd = ⟨A, O_RDONLY, 0⟩ := by
    rw [hah, hsfd, Function.update_same] at hhd
    exact (Option.some.inj hhd).symm
  have hOA : wO.locks A = some F_RDLCK := by
    rw [hOl, hhd']
    simp
  have hOs : wO.handles src.fd = some ⟨A, O_RDONLY, 0⟩ := by
    rw [hOh, hhd, hhd']
  -- the destination
  obtain ⟨wb, hob, hlb⟩ := openFile_ok_inv posix B _ perm wO w1 dst hD
  rw [hOp] at hob
  obtain ⟨hdst, -, hbh, -, -⟩ := posixOpenFile_create_inv B perm wO wb dst hob
  have hbl : wb.locks = wO.locks := by
    have := posixOpenFile_locks B (Int.lor (Int.lor O_WRONLY O_TRUNC) O_CREATE) perm wO
    rw [hob] at this
    exact this
  obtain ⟨hd1, hhd1, h1l, h1h⟩ := lockForFlag_posix_ok_inv dst.fd _ F_WRLCK wb w1
    (lockCalls_create dst.fd) (Or.inr rfl) hlb
  have hdfd : dst.fd = wO.nextFd := by rw [hdst]
  have hne : src.fd ≠ dst.fd := by
    rw [hsfd, hdfd, hOn, han]
    exact Nat.ne_of_lt (Nat.lt_succ_self _)
  have hhd1' : hd1 = ⟨B, Int.lor (Int.lor O_WRONLY O_TRUNC) O_CREATE, 0⟩ := by
    rw [hbh, hdfd, Function.update_same] at hhd1
    exact (Option.some.inj hhd1).symm
  have h1A : w1.locks A = some F_RDLCK := by
    rw [h1l, hhd1', Function.update_noteq hAB, hbl]
    exact hOA
  have h1s : w1.handles src.fd = some ⟨A, O_RDONLY, 0⟩ := by
    rw [h1h, hbh, ← hdfd, Function.update_noteq hne]
    exact hOs
  have h1d : w1.handles dst.fd = some ⟨B, Int.lor (Int.lor O_WRONLY O_TRUNC) O_CREATE, 0⟩ := by
    rw [h1h, hhd1, hhd1']
  -- the transfer
  obtain ⟨h2l, h2h⟩ := Copy_posix_frame src dst fuel 0 w1 w2 res r2 hC
  have h2A : w2.locks A = some F_RDLCK := by rw [h2l]; exact h1A
  have h2s := h2h src.fd
  have h2d := h2h dst.fd
  rw [h1s] at h2s
  rw [h1d] at h2d
  simp only [Option.map_some'] at h2s h2d
  cases hs2 : w2.handles src.fd with
  | none => rw [hs2] at h2s; simp at h2s
  | some hs =>
    cases hd2 : w2.handles dst.fd with
    | none => rw [hd2] at h2d; simp at h2d
    | some hdd =>
      rw [hs2] at h2s
      rw [hd2] at h2d
      simp only [Option.map_some', Option.some.injEq] at h2s h2d
      obtain ⟨hcl, hch⟩ := posixClose_open_frame dst hdd w2 hd2
      refine ⟨hOA, h1A, h2A, ?_, hs, ?_, h2s⟩
      · rw [hCl, hcl, h2d, Function.update_noteq hAB]
        exact h2A
      · rw [hCl, hch, Function.update_noteq hne]
        exact hs2

/-- C10, the second sentence refuted as stated: `copyFile("foo", "foo")` returns without
error; the read lock on `foo` is held before the destination is opened, the write-lock
request on the second descriptor of the same file replaces it, and when the destination
has been closed the process holds no lock on `foo` although the source descriptor 3 is
still open (closing any descriptor of a file releases the process's locks on it). -/
theorem copyFile_same_path_drops_source_lock :
    (copyFile posix 12 "foo" "foo" fooWorld).map (fun x => x.1) = some (0, none)
      ∧ (openFile posix "foo" O_RDONLY 0o660 (posix.Stat "foo" fooWorld).2).1 = .ok ⟨3, "foo"⟩
      ∧ (openFile posix "foo" O_RDONLY 0o660 (posix.Stat "foo" fooWorld).2).2.locks "foo"
          = some F_RDLCK
      ∧ (openFile posix "foo" (Int.lor (Int.lor O_WRONLY O_TRUNC) O_CREATE) 0o644
            (openFile posix "foo" O_RDONLY 0o660 (posix.Stat "foo" fooWorld).2).2).2.locks "foo"
          = some F_WRLCK
      ∧ (writeFile posix 12 "foo" (fileReader posix ⟨3, "foo"⟩) () 0o644
            (openFile posix "foo" O_RDONLY 0o660 (posix.Stat "foo" fooWorld).2).2).map
          (fun x => (x.1, x.2.locks "foo", x.2.handles 3))
          = some ((0, none), none, some ⟨"foo", O_RDONLY, 0⟩) := by
  refine ⟨by decide, by decide, by decide, by decide, by decide⟩

/-- C10, amended: in every run of `copyFile` and of `moveFile` that returns without error,
on any filesystem, the recorded calls are, in this order and each once: `Stat` of the
source; the open of the source with `O_RDONLY` and permission 0660; the `F_SETLK` read-lock
request on the source descriptor; the open of the destination with
`O_WRONLY|O_TRUNC|O_CREATE` and the permission bits `Stat` reported; the `F_SETLK`
write-lock request on the destination descriptor; the transfer, made of reads of the source
and writes to the destination only; `Close` of the destination; for `moveFile`, `Remove` of
the source; `Close` of the source. On the reference filesystem, for distinct paths, the
read lock on the source is held after the locked open of the source, after the locked open
of the destination, at the end of the transfer and after the `Close` of the destination,
which is the state in which `moveFile` removes the source, and the source descriptor is
still open then. -/
theorem copyFile_moveFile_call_order (fs : FileSystem σ) (fuel : Nat)
    (fromFilePath toFilePath : String) (s : σ) :
    (∀ n s' log, copyFile (traced fs) fuel fromFilePath toFilePath (s, []) = some ((n, none), s', log) →
      ∃ fileInfo s1 src dst transfer, fs.Stat fromFilePath s = (.ok fileInfo, s1)
        ∧ (∀ c ∈ transfer, c = Call.Read src ∨ ∃ p, c = Call.Write dst p)
        ∧ log = [Call.Stat fromFilePath, Call.OpenFile fromFilePath O_RDONLY 0o660,
              Call.FcntlFlock src.fd F_SETLK rdLock,
              Call.OpenFile toFilePath (Int.lor (Int.lor O_WRONLY O_TRUNC) O_CREATE)
                fileInfo.Perm,
              Call.FcntlFlock dst.fd F_SETLK wrLock]
            ++ transfer ++ [Call.Close dst, Call.Close src])
      ∧ (∀ n s' log, moveFile (traced fs) fuel fromFilePath toFilePath (s, []) = some ((n, none), s', log) →
        ∃ fileInfo s1 src dst transfer, fs.Stat fromFilePath s = (.ok fileInfo, s1)
          ∧ (∀ c ∈ transfer, c = Call.Read src ∨ ∃ p, c = Call.Write dst p)
          ∧ log = [Call.Stat fromFilePath, Call.OpenFile fromFilePath O_RDONLY 0o660,
                Call.FcntlFlock src.fd F_SETLK rdLock,
                Call.OpenFile toFilePath (Int.lor (Int.lor O_WRONLY O_TRUNC) O_CREATE)
                  fileInfo.Perm,
                Call.FcntlFlock dst.fd F_SETLK wrLock]
              ++ transfer
              ++ [Call.Close dst, Call.Remove fromFilePath, Call.Close src])
      ∧ (fromFilePath ≠ toFilePath →
        ∀ (wS wO w1 w2 : World) (perm : Nat) (src dst : File) (res : Int × Option Error),
          openFile posix fromFilePath O_RDONLY 0o660 wS = (.ok src, wO) →
          openFile posix toFilePath (Int.lor (Int.lor O_WRONLY O_TRUNC) O_CREATE) perm wO
            = (.ok dst, w1) →
          Copy posix dst (fileReader posix src) fuel 0 () w1 = some (res, (), w2) →
          wO.locks fromFilePath = some F_RDLCK ∧ w1.locks fromFilePath = some F_RDLCK
            ∧ w2.locks fromFilePath = some F_RDLCK
            ∧ (posix.Close dst w2).2.locks fromFilePath = some F_RDLCK
            ∧ ∃ hd, (posix.Close dst w2).2.handles src.fd = some hd
                ∧ hd.path = fromFilePath) :=
  ⟨fun n s' log h => copyFile_success_calls fs fuel fromFilePath toFilePath s n s' log h,
    fun n s' log h => moveFile_success_calls fs fuel fromFilePath toFilePath s n s' log h,
    fun hne wS wO w1 w2 perm src dst res hO hD hC =>
      copy_lock_checkpoints fromFilePath toFilePath hne fuel wS wO w1 w2 perm src dst res ()
        hO hD hC⟩

theorem copyFile_moveFile_call_order_witness :
    (∃ s' log, moveFile (traced posix) 12 "foo" "bar" (fooWorld, []) = some ((11, none), s', log)
      ∧ ∃ fileInfo s1 src dst transfer, posix.Stat "foo" fooWorld = (.ok fileInfo, s1)
        ∧ (∀ c ∈ transfer, c = Call.Read src ∨ ∃ p, c = Call.Write dst p)
        ∧ log = [Call.Stat "foo", Call.OpenFile "foo" O_RDONLY 0o660,
              Call.FcntlFlock src.fd F_SETLK rdLock,
              Call.OpenFile "bar" (Int.lor (Int.lor O_WRONLY O_TRUNC) O_CREATE) fileInfo.Perm,
              Call.FcntlFlock dst.fd F_SETLK wrLock]
            ++ transfer ++ [Call.Close dst, Call.Remove "foo", Call.Close src])
      ∧ (∃ wO w1 w2 : World,
          openFile posix "foo" O_RDONLY 0o660 (posix.Stat "foo" fooWorld).2 = (.ok ⟨3, "foo"⟩, wO)
            ∧ openFile posix "bar" (Int.lor (Int.lor O_WRONLY O_TRUNC) O_CREATE) 0o644 wO
                = (.ok ⟨4, "bar"⟩, w1)
            ∧ Copy posix ⟨4, "bar"⟩ (fileReader posix ⟨3, "foo"⟩) 12 0 () w1
                = some ((11, none), (), w2)
            ∧ wO.locks "foo" = some F_RDLCK
            ∧ (posix.Close ⟨4, "bar"⟩ w2).2.locks "foo" = some F_RDLCK) := by
  constructor
  · exact ⟨_, _, rfl, (copyFile_moveFile_call_order posix 12 "foo" "bar" fooWorld).2.1 11 _ _ rfl⟩
  · obtain ⟨h1, -, -, h4, -⟩ :=
      (copyFile_moveFile_call_order posix 12 "foo" "bar" fooWorld).2.2 (by decide)
        (posix.Stat "foo" fooWorld).2 _ _ _ 0o644 ⟨3, "foo"⟩ ⟨4, "bar"⟩ (11, none) rfl rfl rfl
    exact ⟨_, _, _, rfl, rfl, rfl, h1, h4⟩

theorem ReadAll_traced (fs : FileSystem σ) (f : File) :
    ∀ (fuel : Nat) (b : List Byte) (s : σ) (log : List Call),
      ∃ k, (∀ res, ReadAll (fileReader fs f) fuel b () s = some res → 0 < k)
        ∧ ReadAll (fileReader (traced fs) f) fuel b () (s, log)
          = (ReadAll (fileReader fs f) fuel b () s).map
              (fun x => (x.1, x.2.1, x.2.2, log ++ List.replicate k (Call.Read f))) := by
  intro fuel
  induction fuel with
  | zero => intro b s log; exact ⟨0, by simp [ReadAll], by simp [ReadAll]⟩
  | succ fuel ih =>
    intro b s log
    rcases hr : fs.Read f readAllChunk s with ⟨⟨p, err⟩, s1⟩
    cases err with
    | some e =>
      refine ⟨1, fun _ _ => Nat.one_pos, ?_⟩
      rw [ReadAll, ReadAll]
      simp [fileReader, hr]
    | none =>
      obtain ⟨k, -, hk⟩ := ih (b ++ p) s1 (log ++ [Call.Read f])
      refine ⟨k + 1, fun _ _ => Nat.succ_pos k, ?_⟩
      rw [ReadAll, ReadAll]
      simp only [fileReader, traced_Read, hr]
      have hk' : ReadAll (fileReader (traced fs) f) fuel (b ++ p) () (s1, log ++ [Call.Read f])
          = _ := hk
      simp only [fileReader] at hk'
      rw [hk']
      simp [List.replicate_succ]

theorem ReadAll_yieldedBytes (fs : FileSystem σ) (f : File) :
    ∀ (fuel : Nat) (b : List Byte) (s s' : σ) (data : List Byte) (err : Option Error)
      (u : Unit),
      ReadAll (fileReader fs f) fuel b () s = some ((data, err), u, s') →
      data = b ++ yieldedBytes fs f fuel s := by
  intro fuel
  induction fuel with
  | zero => intro b s s' data err u h; simp [ReadAll] at h
  | succ fuel ih =>
    intro b s s' data err u h
    rw [ReadAll] at h
    simp only [fileReader] at h
    rw [yieldedBytes]
    rcases hr : fs.Read f readAllChunk s with ⟨⟨p, e⟩, s1⟩
    rw [hr] at h
    cases e with
    | some e =>
      simp only [Option.some.injEq, Prod.mk.injEq] at h
      exact h.1.1.symm
    | none =>
      simp only [] at h
      have := ih (b ++ p) s1 s' data err u h
      rw [this, List.append_assoc]

theorem ReadAll_ends_at_EOF (fs : FileSystem σ) (f : File) :
    ∀ (fuel : Nat) (b : List Byte) (s s' : σ) (data : List Byte) (u : Unit),
      ReadAll (fileReader fs f) fuel b () s = some ((data, none), u, s') →
      ∃ sLast p, fs.Read f readAllChunk sLast = ((p, some Error.EOF), s') := by
  intro fuel
  induction fuel with
  | zero => intro b s s' data u h; simp [ReadAll] at h
  | succ fuel ih =>
    intro b s s' data u h
    rw [ReadAll] at h
    simp only [fileReader] at h
    rcases hr : fs.Read f readAllChunk s with ⟨⟨p, e⟩, s1⟩
    rw [hr] at h
    cases e with
    | some e =>
      simp only [Option.some.injEq, Prod.mk.injEq] at h
      obtain ⟨⟨-, he⟩, -, hs⟩ := h
      by_cases heof : e = Error.EOF
      · subst heof
        exact ⟨s, p, by rw [hr, hs]⟩
      · simp [heof] at he
    | none =>
      simp only [] at h
      exact ih (b ++ p) s1 s' data u h

theorem posixRead_none_inv (f : File) (n : Nat) (w w' : World) (p : List Byte) (hn : n ≠ 0)
    (h : posixRead f n w = ((p, none), w')) :
    ∃ hd file, w.handles f.fd = some hd ∧ w.files hd.path = some file
      ∧ p = (file.content.drop hd.offset).take n ∧ p ≠ []
      ∧ w'.files = w.files
      ∧ w'.handles = Function.update w.handles f.fd
          (some { hd with offset := hd.offset + p.length }) := by
  unfold posixRead at h
  rcases hp : w.popFault with ⟨_ | e, w1⟩
  · rw [hp] at h
    have hw1 : w1 = w.popFault.2 := by rw [hp]
    subst hw1
    simp only [] at h
    cases hh : w.popFault.2.handles f.fd with
    | none => rw [hh] at h; simp at h
    | some hd =>
      rw [hh] at h
      simp only [] at h
      by_cases hr : readable hd.flag = true
      · simp only [hr, if_true] at h
        cases hfile : w.popFault.2.files hd.path with
        | none => rw [hfile] at h; simp at h
        | some file =>
          rw [hfile] at h
          simp only [if_neg hn] at h
          by_cases hc : List.take n (List.drop hd.offset file.content) = []
          · simp [hc] at h
          · simp only [if_neg hc, Prod.mk.injEq, and_true] at h
            obtain ⟨hp1, hw'⟩ := h
            subst hp1
            subst hw'
            exact ⟨hd, file, hh, hfile, rfl, hc, rfl, rfl⟩
      · simp [hr] at h
  · rw [hp] at h; simp at h

theorem ReadAll_posix_returns (f : File) :
    ∀ (fuel : Nat) (b : List Byte) (w : World),
      unreadLength w f.fd < fuel →
      ∃ res, ReadAll (fileReader posix f) fuel b () w = some res := by
  intro fuel
  induction fuel with
  | zero => intro b w h; exact absurd h (Nat.not_lt_zero _)
  | succ fuel ih =>
    intro b w hlt
    have hR : posix.Read f readAllChunk w = posixRead f readAllChunk w := rfl
    rw [ReadAll]
    simp only [fileReader, hR]
    rcases hr : posixRead f readAllChunk w with ⟨⟨p, e⟩, w1⟩
    cases e with
    | some e => exact ⟨_, rfl⟩
    | none =>
      simp only []
      obtain ⟨hd, file, hh, hfile, hp, hne, hf1, hh1⟩ :=
        posixRead_none_inv f readAllChunk w w1 p (by decide) hr
      apply ih
      have hlen : p.length ≤ file.content.length - hd.offset := by
        rw [hp, List.length_take, List.length_drop]
        exact Nat.min_le_right _ _
      have hpos : 0 < p.length := List.length_pos.2 hne
      have h0 : unreadLength w f.fd = file.content.length - hd.offset := by
        simp [unreadLength, hh, hfile]
      have h1 : unreadLength w1 f.fd = file.content.length - (hd.offset + p.length) := by
        simp [unreadLength, hh1, hf1, hfile]
      rw [h1]
      rw [h0] at hlt
      omega

theorem posixOpenFile_rdonly_exists (name : String) (perm : Nat) (w w' : World) (f : File)
    (h : posixOpenFile name O_RDONLY perm w = (.ok f, w')) :
    ∃ file, w.files name = some file := by
  unfold posixOpenFile at h
  have h3 : ¬ Int.land O_RDONLY O_CREATE ≠ 0 := by decide
  rcases hp : w.popFault with ⟨_ | e, w1⟩
  · rw [hp] at h
    have hw1 : w1 = w.popFault.2 := by rw [hp]
    subst hw1
    simp only [] at h
    cases hf : w.popFault.2.files name with
    | none => rw [hf] at h; simp [h3] at h
    | some file => exact ⟨file, hf⟩
  · rw [hp] at h; simp at h

theorem readFile_posix_returns (fuel : Nat) (filePath : String) (w : World)
    (hfuel : ∀ file, w.files filePath = some file → file.content.length < fuel) :
    ∃ res, readFile posix fuel filePath w = some res := by
  have hOp : posix.OpenFile = posixOpenFile := rfl
  unfold readFile
  rw [hOp]
  rcases ho : posixOpenFile filePath O_RDONLY 0o660 w with ⟨e | file, w1⟩
  · exact ⟨_, rfl⟩
  · simp only []
    rcases hl : lockForFlag posix file.fd O_RDONLY w1 with ⟨_ | le, w2⟩
    · simp only []
      obtain ⟨hfile, hf1, hh1, -, -⟩ := posixOpenFile_rdonly_inv filePath 0o660 w w1 file ho
      obtain ⟨fd0, hfd0⟩ := posixOpenFile_rdonly_exists filePath 0o660 w w1 file ho
      obtain ⟨g1, g2, -, -⟩ := lockForFlag_posix_frame file.fd O_RDONLY w1
      rw [hl] at g1 g2
      have hunread : unreadLength w2 file.fd = fd0.content.length := by
        have hfd : file.fd = w.nextFd := by rw [hfile]
        have g1' : w2.files = w1.files := g1
        have g2' : w2.handles = w1.handles := g2
        simp [unreadLength, g1', g2', hf1, hh1, hfd, hfd0]
      obtain ⟨res, hres⟩ := ReadAll_posix_returns file fuel [] w2
        (by rw [hunread]; exact hfuel fd0 hfd0)
      rw [hres]
      rcases res with ⟨⟨data, _ | e⟩, u, w3⟩
      · exact ⟨_, rfl⟩
      · exact ⟨_, rfl⟩
    · exact ⟨_, rfl⟩

theorem readFile_open_error (fs : FileSystem σ) (fuel : Nat) (filePath : String) (s s1 : σ)
    (e : Error) (ho : fs.OpenFile filePath O_RDONLY 0o660 s = (.error e, s1)) :
    readFile (traced fs) fuel filePath (s, [])
      = some (.error e, s1, [Call.OpenFile filePath O_RDONLY 0o660]) := by
  unfold readFile
  simp [traced_OpenFile, ho]

theorem readFile_lock_error (fs : FileSystem σ) (fuel : Nat) (filePath : String) (s s1 s2 : σ)
    (file : File) (le : Error)
    (ho : fs.OpenFile filePath O_RDONLY 0o660 s = (.ok file, s1))
    (hl : lockForFlag fs file.fd O_RDONLY s1 = (some le, s2)) :
    readFile (traced fs) fuel filePath (s, [])
      = some (.error (Error.wrapError ("open '" ++ filePath ++ "': " ++ le.message) le),
          (fs.Close file s2).2,
          [Call.OpenFile filePath O_RDONLY 0o660, Call.FcntlFlock file.fd F_SETLK rdLock,
            Call.Close file]) := by
  unfold readFile
  simp [traced_OpenFile, ho, lockForFlag_traced, hl, lockCalls_rdonly]

theorem readFile_after_lock (fs : FileSystem σ) (fuel : Nat) (filePath : String)
    (s s1 s2 s3 : σ) (file : File) (data : List Byte) (err : Option Error)
    (ho : fs.OpenFile filePath O_RDONLY 0o660 s = (.ok file, s1))
    (hl : lockForFlag fs file.fd O_RDONLY s1 = (none, s2))
    (hr : ReadAll (fileReader fs file) fuel [] () s2 = some ((data, err), (), s3)) :
    ∃ k, 0 < k
      ∧ readFile (traced fs) fuel filePath (s, [])
        = some (err.elim (Except.ok data) Except.error, (fs.Close file s3).2,
            [Call.OpenFile filePath O_RDONLY 0o660, Call.FcntlFlock file.fd F_SETLK rdLock]
              ++ List.replicate k (Call.Read file) ++ [Call.Close file]) := by
  obtain ⟨k, hk, hread⟩ := ReadAll_traced fs file fuel [] s2
    ([Call.OpenFile filePath O_RDONLY 0o660, Call.FcntlFlock file.fd F_SETLK rdLock])
  refine ⟨k, hk _ hr, ?_⟩
  rw [hr] at hread
  unfold readFile
  simp only [traced_OpenFile, ho, lockForFlag_traced, hl, lockCalls_rdonly, List.nil_append,
    List.singleton_append, hread, Option.map_some', traced_Close]
  cases err <;> simp

theorem count_Close_readFile_calls (filePath : String) (file : File) (k : Nat) :
    ([Call.OpenFile filePath O_RDONLY 0o660, Call.FcntlFlock file.fd F_SETLK rdLock]
        ++ List.replicate k (Call.Read file) ++ [Call.Close file]).count (Call.Close file)
      = 1 := by
  rw [List.count_append, List.count_append]
  have h0 : (List.replicate k (Call.Read file)).count (Call.Close file) = 0 := by
    rw [List.count_eq_zero]
    intro hmem
    have := List.eq_of_mem_replicate hmem
    cases this
  rw [h0]
  simp [List.count_cons]

/-- C11: `readFile` on any filesystem. Its first call opens the path with `O_RDONLY` and
permission 0660. If the open fails, that is the only call: no lock request, no read, no
`Close`. If the lock fails, the calls are the open, the `F_SETLK` read-lock request and one
`Close` of the handle. Otherwise the calls are the open, the read-lock request, one or
more reads of the handle and then one `Close` of it, the last call, whether the reading
ended with an error (which is raised) or with end-of-stream; in that last case the final
read reported `io.EOF` and the result is exactly the bytes the handle yielded. On the
reference filesystem `readFile` returns as soon as the fuel exceeds the size of the
file. -/
theorem readFile_open_lock_read_close (fs : FileSystem σ) (fuel : Nat) (filePath : String)
    (s : σ) :
    (∀ e s1, fs.OpenFile filePath O_RDONLY 0o660 s = (.error e, s1) →
        readFile (traced fs) fuel filePath (s, [])
          = some (.error e, s1, [Call.OpenFile filePath O_RDONLY 0o660]))
      ∧ (∀ file s1 le s2, fs.OpenFile filePath O_RDONLY 0o660 s = (.ok file, s1) →
          lockForFlag fs file.fd O_RDONLY s1 = (some le, s2) →
          ∃ err, readFile (traced fs) fuel filePath (s, [])
              = some (.error err, (fs.Close file s2).2,
                  [Call.OpenFile filePath O_RDONLY 0o660,
                    Call.FcntlFlock file.fd F_SETLK rdLock, Call.Close file])
            ∧ err.Unwrap = some le)
      ∧ (∀ file s1 s2 data err s3, fs.OpenFile filePath O_RDONLY 0o660 s = (.ok file, s1) →
          lockForFlag fs file.fd O_RDONLY s1 = (none, s2) →
          ReadAll (fileReader fs file) fuel [] () s2 = some ((data, err), (), s3) →
          ∃ k, 0 < k
            ∧ readFile (traced fs) fuel filePath (s, [])
              = some (err.elim (Except.ok data) Except.error, (fs.Close file s3).2,
                  [Call.OpenFile filePath O_RDONLY 0o660,
                    Call.FcntlFlock file.fd F_SETLK rdLock]
                    ++ List.replicate k (Call.Read file) ++ [Call.Close file])
            ∧ ([Call.OpenFile filePath O_RDONLY 0o660,
                    Call.FcntlFlock file.fd F_SETLK rdLock]
                  ++ List.replicate k (Call.Read file) ++ [Call.Close file]).count
                (Call.Close file) = 1
            ∧ data = yieldedBytes fs file fuel s2
            ∧ (err = none →
                ∃ sLast p, fs.Read file readAllChunk sLast = ((p, some Error.EOF), s3)))
      ∧ (∀ w : World, (∀ file, w.files filePath = some file → file.content.length < fuel) →
          ∃ res, readFile posix fuel filePath w = some res) := by
  refine ⟨?_, ?_, ?_, ?_⟩
  · intro e s1 ho
    exact readFile_open_error fs fuel filePath s s1 e ho
  · intro file s1 le s2 ho hl
    exact ⟨_, readFile_lock_error fs fuel filePath s s1 s2 file le ho hl, rfl⟩
  · intro file s1 s2 data err s3 ho hl hr
    obtain ⟨k, hk, hrun⟩ := readFile_after_lock fs fuel filePath s s1 s2 s3 file data err ho hl hr
    refine ⟨k, hk, hrun, count_Close_readFile_calls filePath file k, ?_, ?_⟩
    · have := ReadAll_yieldedBytes fs file fuel [] s2 s3 data err () hr
      simpa using this
    · intro herr
      subst herr
      exact ReadAll_ends_at_EOF fs file fuel [] s2 s3 data () hr
  · intro w hfuel
    exact readFile_posix_returns fuel filePath w hfuel

theorem readFile_open_lock_read_close_witness :
    (∃ k, 0 < k
        ∧ (readFile (traced posix) 12 "foo" (fooWorld, [])).map (fun x => (x.1, x.2.2))
          = some (.ok helloWorld,
              [Call.OpenFile "foo" O_RDONLY 0o660, Call.FcntlFlock 3 F_SETLK rdLock]
                ++ List.replicate k (Call.Read ⟨3, "foo"⟩) ++ [Call.Close ⟨3, "foo"⟩])
        ∧ helloWorld = yieldedBytes posix ⟨3, "foo"⟩ 12
            (lockForFlag posix 3 O_RDONLY (posix.OpenFile "foo" O_RDONLY 0o660 fooWorld).2).2)
      ∧ (readFile (traced posix) 12 "bar" (fooWorld, [])).map (fun x => (x.1, x.2.2))
          = some (.error ENOENT, [Call.OpenFile "bar" O_RDONLY 0o660])
      ∧ (∃ res, readFile posix 12 "foo" fooWorld = some res) := by
  refine ⟨?_, ?_, ?_⟩
  · obtain ⟨k, hk, hrun, -, hdata, -⟩ :=
      (readFile_open_lock_read_close posix 12 "foo" fooWorld).2.2.1 ⟨3, "foo"⟩ _ _ helloWorld
        none _ rfl rfl rfl
    exact ⟨k, hk, by rw [hrun]; rfl, hdata⟩
  · have h := (readFile_open_lock_read_close posix 12 "bar" fooWorld).1 ENOENT _ rfl
    rw [h]
    rfl
  · exact (readFile_open_lock_read_close posix 12 "foo" fooWorld).2.2.2 fooWorld
      (by
        intro file hfile
        have : file = ⟨helloWorld, 0o644⟩ := by
          have h2 : fooWorld.files "foo" = some ⟨helloWorld, 0o644⟩ := by decide
          rw [h2] at hfile
          exact (Option.some.inj hfile).symm
        rw [this]
        decide)

/-- The label `copyFile` puts on an error of `writeFile`, whatever step of `writeFile`
raised it. -/
theorem copyFile_writeFile_error_label (fs : FileSystem σ) (fuel : Nat)
    (fromFilePath toFilePath : String) (s s1 s2 s3 : σ) (fileInfo : FileInfo) (src : File)
    (n : Int) (err : Error)
    (hS : fs.Stat fromFilePath s = (.ok fileInfo, s1))
    (hO : openFile fs fromFilePath O_RDONLY 0o660 s1 = (.ok src, s2))
    (hW : writeFile fs fuel toFilePath (fileReader fs src) () fileInfo.Perm s2
      = some ((n, some err), s3)) :
    (copyFile fs fuel fromFilePath toFilePath s).map (fun x => x.1.2.map Error.message)
      = some (some ("copy '" ++ fromFilePath ++ "' to '" ++ toFilePath
          ++ "': open destination: " ++ err.message)) := by
  unfold copyFile
  simp [hS, hO, hW, Error.message]

/-- C12 (the code at the failing input): `copyFile("foo", "bar")` and
`moveFile("foo", "bar")` when the first read of `foo` fails during the transfer, after both
files were opened and locked. The calls show the failure in the transfer (a read, then the
rollback), and the error text labels it "open destination", the label an error of the open
of `bar` gets. -/
theorem copyFile_transfer_failure_labelled_open_destination :
    ((copyFile (traced posix) 12 "foo" "bar"
          ({ fooWorld with faults := [none, none, none, none, none,
              some "input/output error"] }, [])).map
        (fun x => (x.1.2.map Error.message, x.2.2))
      = some (some "copy 'foo' to 'bar': open destination: input/output error",
          [Call.Stat "foo", Call.OpenFile "foo" O_RDONLY 0o660,
            Call.FcntlFlock 3 F_SETLK rdLock,
            Call.OpenFile "bar" (Int.lor (Int.lor O_WRONLY O_TRUNC) O_CREATE) 0o644,
            Call.FcntlFlock 4 F_SETLK wrLock, Call.Read ⟨3, "foo"⟩, Call.Close ⟨4, "bar"⟩,
            Call.Remove "bar", Call.Close ⟨3, "foo"⟩]))
      ∧ ((copyFile (traced posix) 12 "foo" "bar"
            ({ fooWorld with faults := [none, none, none, some "permission denied"] }, [])).map
          (fun x => (x.1.2.map Error.message, x.2.2))
        = some (some "copy 'foo' to 'bar': open destination: permission denied",
            [Call.Stat "foo", Call.OpenFile "foo" O_RDONLY 0o660,
              Call.FcntlFlock 3 F_SETLK rdLock,
              Call.OpenFile "bar" (Int.lor (Int.lor O_WRONLY O_TRUNC) O_CREATE) 0o644,
              Call.Close ⟨3, "foo"⟩]))
      ∧ ((moveFile (traced posix) 12 "foo" "bar"
            ({ fooWorld with faults := [none, none, none, none, none,
                some "input/output error"] }, [])).map
          (fun x => (x.1.2.map Error.message, x.2.2))
        = some (some "move 'foo' to 'bar': open destination: input/output error",
            [Call.Stat "foo", Call.OpenFile "foo" O_RDONLY 0o660,
              Call.FcntlFlock 3 F_SETLK rdLock,
              Call.OpenFile "bar" (Int.lor (Int.lor O_WRONLY O_TRUNC) O_CREATE) 0o644,
              Call.FcntlFlock 4 F_SETLK wrLock, Call.Read ⟨3, "foo"⟩, Call.Close ⟨4, "bar"⟩,
              Call.Remove "bar", Call.Close ⟨3, "foo"⟩])) := by
  refine ⟨by decide, by decide, by decide⟩

theorem openCalls_no_Remove (fs : FileSystem σ) (filePath : String) (flag : Int) (perm : Nat)
    (s : σ) (name : String) : Call.Remove name ∉ openCalls fs filePath flag perm s := by
  intro h
  have hl : Call.Remove name ∉ lockCalls ((fs.OpenFile filePath flag perm s).1.toOption.elim 0
      File.fd) flag := by
    intro h'
    obtain ⟨lk, hlk⟩ := lockCalls_shape _ _ _ h'
    cases hlk
  unfold openCalls at h
  rcases ho : fs.OpenFile filePath flag perm s with ⟨e | file, s1⟩
  · rw [ho] at h
    simp at h
  · rw [ho] at h hl
    simp only [Except.toOption, Option.elim] at hl
    simp only [] at h
    rcases hk : lockForFlag fs file.fd flag s1 with ⟨_ | le, s2⟩
    · rw [hk] at h
      simp only [List.mem_cons] at h
      rcases h with h | h
      · cases h
      · exact hl h
    · rw [hk] at h
      simp only [List.mem_cons, List.mem_append, List.mem_singleton, List.not_mem_nil,
        or_false] at h
      rcases h with h | h | h
      · cases h
      · exact hl h
      · cases h

/-- The calls of `writeFile` reading from the handle `src`: every removal among them is the
removal of the file `writeFile` writes. -/
theorem writeFile_traced_removes (fs : FileSystem σ) (fuel : Nat) (filePath : String)
    (src : File) (perm : Nat) (s : σ) (log : List Call) :
    ∃ tr, (∀ name, Call.Remove name ∈ tr → name = filePath)
      ∧ writeFile (traced fs) fuel filePath (fileReader (traced fs) src) () perm (s, log)
        = (writeFile fs fuel filePath (fileReader fs src) () perm s).map
            (fun x => (x.1, x.2, log ++ tr)) := by
  rcases ho : openFile fs filePath (Int.lor (Int.lor O_WRONLY O_TRUNC) O_CREATE) perm s
    with ⟨e | dst, s1⟩
  · refine ⟨openCalls fs filePath (Int.lor (Int.lor O_WRONLY O_TRUNC) O_CREATE) perm s, ?_, ?_⟩
    · intro name h
      exact absurd h (openCalls_no_Remove fs _ _ _ _ _)
    · unfold writeFile
      rw [openFile_traced, ho]
      simp
  · obtain ⟨tr, htr, h⟩ := writeFile_traced_of_open fs fuel filePath _ _ _
      (Records_fileReader fs src) () perm s s1 log dst ho
    rw [h, writeFile_of_open fs fuel filePath (fileReader fs src) () perm s s1 dst ho]
    have hmid : ∀ name, Call.Remove name ∉ tr := by
      intro name hm
      rcases htr _ hm with h1 | ⟨p, h1⟩ <;> cases h1
    rcases hc : Copy fs dst (fileReader fs src) fuel 0 () s1 with _ | ⟨⟨m, _ | e⟩, r2, s2⟩
    · exact ⟨[], by simp, rfl⟩
    · refine ⟨_, ?_, rfl⟩
      intro name hm
      have hm2 := hmid name
      simp [hm2] at hm
    · refine ⟨_, ?_, rfl⟩
      intro name hm
      have hm2 := hmid name
      simp [hm2] at hm
      exact hm

/-- The calls of `moveFile` when `writeFile` returned an error: no removal of the source. -/
theorem moveFile_traced_writeFile_error (fs : FileSystem σ) (fuel : Nat)
    (fromFilePath toFilePath : String) (hne : fromFilePath ≠ toFilePath) (s s1 s2 s3 : σ)
    (fileInfo : FileInfo) (src : File) (n : Int) (e : Error)
    (hS : fs.Stat fromFilePath s = (.ok fileInfo, s1))
    (hO : openFile fs fromFilePath O_RDONLY 0o660 s1 = (.ok src, s2))
    (hW : writeFile fs fuel toFilePath (fileReader fs src) () fileInfo.Perm s2
      = some ((n, some e), s3)) :
    ∃ err log, moveFile (traced fs) fuel fromFilePath toFilePath (s, [])
        = some ((n, some err), (fs.Close src s3).2, log)
      ∧ Call.Remove fromFilePath ∉ log := by
  obtain ⟨tr, htr, hT⟩ := writeFile_traced_removes fs fuel toFilePath src fileInfo.Perm s2
    ([] ++ [Call.Stat fromFilePath] ++ openCalls fs fromFilePath O_RDONLY 0o660 s1)
  rw [hW] at hT
  refine ⟨Error.wrapError ("move '" ++ fromFilePath ++ "' to '" ++ toFilePath
      ++ "': open destination: " ++ e.message) e,
    [] ++ [Call.Stat fromFilePath] ++ openCalls fs fromFilePath O_RDONLY 0o660 s1 ++ tr
      ++ [Call.Close src], ?_, ?_⟩
  · unfold moveFile
    simp only [traced_Stat, hS, openFile_traced, hO, hT, Option.map_some', traced_Close]
  · intro hm
    simp only [List.nil_append, List.singleton_append, List.cons_append, List.mem_append,
      List.mem_cons, List.mem_singleton, List.not_mem_nil, or_false] at hm
    rcases hm with hm | (hm | hm) | hm
    · cases hm
    · exact openCalls_no_Remove fs _ _ _ _ _ hm
    · exact hne (htr _ hm)
    · cases hm

theorem popFault_files (w : World) : w.popFault.2.files = w.files := rfl

theorem popFault_handles (w : World) : w.popFault.2.handles = w.handles := rfl

/-- An open changes no file other than the one it names. -/
theorem posixOpenFile_files_other (name : String) (flag : Int) (perm : Nat) (w : World)
    (A : String) (hA : A ≠ name) : (posixOpenFile name flag perm w).2.files A = w.files A := by
  unfold posixOpenFile
  rcases hp : w.popFault with ⟨_ | e, w1⟩
  · have hw1 : w1 = w.popFault.2 := by rw [hp]
    subst hw1
    simp only []
    cases hf : w.popFault.2.files name with
    | none =>
      simp only []
      split_ifs
      · simp [World.newHandle, Function.update_noteq hA, popFault_files]
      · rfl
    | some file =>
      simp only []
      split_ifs
      · simp [World.newHandle, Function.update_noteq hA, popFault_files]
      · rfl
  · have hw1 : w1 = w.popFault.2 := by rw [hp]
    subst hw1
    rfl

/-- A read-only open changes no file. -/
theorem posixOpenFile_rdonly_files (name : String) (perm : Nat) (w : World) :
    (posixOpenFile name O_RDONLY perm w).2.files = w.files := by
  unfold posixOpenFile
  have h2 : ¬ Int.land O_RDONLY O_TRUNC ≠ 0 := by decide
  have h3 : ¬ Int.land O_RDONLY O_CREATE ≠ 0 := by decide
  rcases hp : w.popFault with ⟨_ | e, w1⟩
  · have hw1 : w1 = w.popFault.2 := by rw [hp]
    subst hw1
    simp only [if_neg h2, if_neg h3]
    cases hf : w.popFault.2.files name <;> rfl
  · have hw1 : w1 = w.popFault.2 := by rw [hp]
    subst hw1
    rfl

/-- The files after `openFile` are the files after the open proper: neither the lock
request nor the close on a lock failure touches a file. -/
theorem openFile_posix_files (filePath : String) (flag : Int) (perm : Nat) (w : World) :
    (openFile posix filePath flag perm w).2.files
      = (posixOpenFile filePath flag perm w).2.files := by
  have hOp : posix.OpenFile = posixOpenFile := rfl
  have hCl : posix.Close = posixClose := rfl
  unfold openFile
  rw [hOp]
  rcases ho : posixOpenFile filePath flag perm w with ⟨e | file, w1⟩
  · rfl
  · simp only []
    have hfr := (lockForFlag_posix_frame file.fd flag w1).1
    rcases hk : lockForFlag posix file.fd flag w1 with ⟨_ | le, w2⟩
    · rw [hk] at hfr
      exact hfr
    · rw [hk] at hfr
      simp only [hCl, posixClose_files]
      exact hfr

/-- A removal changes no file other than the one it names. -/
theorem posixRemove_files_other (name : String) (w : World) (A : String) (hA : A ≠ name) :
    (posixRemove name w).2.files A = w.files A := by
  unfold posixRemove
  rcases hp : w.popFault with ⟨_ | e, w1⟩
  · have hw1 : w1 = w.popFault.2 := by rw [hp]
    subst hw1
    simp only []
    cases hf : w.popFault.2.files name with
    | none => rfl
    | some file => simp [Function.update_noteq hA, popFault_files]
  · have hw1 : w1 = w.popFault.2 := by rw [hp]
    subst hw1
    rfl

/-- A read changes no file. -/
theorem posixRead_files (f : File) (n : Nat) (w : World) :
    (posixRead f n w).2.files = w.files := by
  unfold posixRead
  rcases hp : w.popFault with ⟨_ | e, w1⟩
  · have hw1 : w1 = w.popFault.2 := by rw [hp]
    subst hw1
    simp only []
    cases hh : w.popFault.2.handles f.fd with
    | none => rfl
    | some h =>
      simp only []
      by_cases hr : readable h.flag = true
      · rw [if_pos hr]
        cases hf : w.popFault.2.files h.path with
        | none => rfl
        | some file =>
          simp only []
          by_cases hn : n = 0
          · rw [if_pos hn]; rfl
          · rw [if_neg hn]
            by_cases hc : (file.content.drop h.offset).take n = []
            · rw [if_pos hc]; rfl
            · rw [if_neg hc]; rfl
      · rw [if_neg hr]; rfl
  · have hw1 : w1 = w.popFault.2 := by rw [hp]
    subst hw1
    rfl

/-- A write through a descriptor of the file `B` changes no other file. -/
theorem posixWrite_files_other (f : File) (p : List Byte) (w : World) (A B : String)
    (hA : A ≠ B) (hB : (w.handles f.fd).map Handle.path = some B) :
    (posixWrite f p w).2.files A = w.files A := by
  unfold posixWrite
  rcases hp : w.popFault with ⟨_ | e, w1⟩
  · have hw1 : w1 = w.popFault.2 := by rw [hp]
    subst hw1
    simp only []
    rw [← popFault_handles] at hB
    cases hh : w.popFault.2.handles f.fd with
    | none => rfl
    | some h =>
      rw [hh] at hB
      simp only [Option.map_some', Option.some.injEq] at hB
      simp only []
      split_ifs
      · cases hf : w.popFault.2.files h.path with
        | none => rfl
        | some file =>
          simp only []
          rw [hB]
          simp [Function.update_noteq hA, popFault_files]
      · rfl
  · have hw1 : w1 = w.popFault.2 := by rw [hp]
    subst hw1
    rfl

/-- The loop of `io.Copy` writing through a descriptor of the file `B` changes no other
file. -/
theorem Copy_posix_files_other (src dst : File) (A B : String) (hA : A ≠ B) :
    ∀ (fuel : Nat) (written : Int) (w w' : World) (res : Int × Option Error) (u : Unit),
      Copy posix dst (fileReader posix src) fuel written () w = some (res, u, w') →
      (w.handles dst.fd).map Handle.path = some B →
      w'.files A = w.files A := by
  intro fuel
  induction fuel with
  | zero => intro written w w' res u h; simp [Copy] at h
  | succ fuel ih =>
    intro written w w' res u h hB
    have hR : posix.Read src copyBufSize w = posixRead src copyBufSize w := rfl
    have hrh := (posixRead_frame src copyBufSize w).2 dst.fd
    have hrf := posixRead_files src copyBufSize w
    rw [Copy] at h
    simp only [fileReader, hR] at h
    rcases hrd : posixRead src copyBufSize w with ⟨⟨buf, er⟩, w1⟩
    rw [hrd] at h hrh hrf
    simp only [] at h hrh hrf
    have hB1 : (w1.handles dst.fd).map Handle.path = some B := hrh.trans hB
    have hW : ∀ wr, writeChunk posix dst buf wr w1
        = (chunkResult buf.length wr (posixWrite dst buf w1).1.1 (posixWrite dst buf w1).1.2,
            (posixWrite dst buf w1).2) := fun _ => rfl
    have hwh := (posixWrite_frame dst buf w1).2 dst.fd
    have hwf := posixWrite_files_other dst buf w1 A B hA hB1
    by_cases hbuf : 0 < buf.length
    · simp only [if_pos hbuf, hW] at h
      rcases hcr : chunkResult buf.length written (posixWrite dst buf w1).1.1
          (posixWrite dst buf w1).1.2 with ⟨written1, _ | e⟩
      · rw [hcr] at h
        simp only [] at h
        cases er with
        | some e =>
          simp only [Option.some.injEq, Prod.mk.injEq] at h
          rw [← h.2.2, hwf, hrf]
        | none =>
          simp only [] at h
          rw [ih _ _ _ _ _ h (hwh.trans hB1), hwf, hrf]
      · rw [hcr] at h
        simp only [Option.some.injEq, Prod.mk.injEq] at h
        rw [← h.2.2, hwf, hrf]
    · simp only [if_neg hbuf] at h
      cases er with
      | some e =>
        simp only [Option.some.injEq, Prod.mk.injEq] at h
        rw [← h.2.2, hrf]
      | none =>
        simp only [] at h
        rw [ih _ _ _ _ _ h hB1, hrf]

/-- The deferred function of `writeFile` changes no file other than the one written. -/
theorem writeFileDeferred_posix_files_other (filePath : String) (dst : File)
    (finishedWriting : Bool) (err retErr : Option Error) (w : World) (A : String)
    (hA : A ≠ filePath) :
    (writeFileDeferred posix filePath dst finishedWriting err retErr w).2.files A
      = w.files A := by
  have hCl : posix.Close = posixClose := rfl
  have hRm : posix.Remove = posixRemove := rfl
  have hc := posixClose_files dst w
  have hr := posixRemove_files_other filePath (posixClose dst w).2 A hA
  unfold writeFileDeferred
  simp only [hCl, hRm]
  cases finishedWriting with
  | true => simp [hc]
  | false =>
    simp only [Bool.not_false, if_true]
    rcases hrm : posixRemove filePath (posixClose dst w).2 with ⟨_ | remErr, w2⟩
    · rw [hrm] at hr
      simp only [] at hr ⊢
      rw [hr, hc]
    · rw [hrm] at hr
      simp only [] at hr ⊢
      cases hne : IsNotExist remErr <;> cases err <;> simp [hr, hc]

/-- The function `writeFile` changes no file other than the one it writes, whatever its
outcome. -/
theorem writeFile_posix_files_other (fuel : Nat) (filePath : String) (src : File) (perm : Nat)
    (w w' : World) (res : Int × Option Error) (A : String) (hA : A ≠ filePath)
    (h : writeFile posix fuel filePath (fileReader posix src) () perm w = some (res, w')) :
    w'.files A = w.files A := by
  have hOp : posix.OpenFile = posixOpenFile := rfl
  have hof : (openFile posix filePath (Int.lor (Int.lor O_WRONLY O_TRUNC) O_CREATE) perm w).2.files A
      = w.files A := by
    rw [openFile_posix_files, posixOpenFile_files_other _ _ _ _ _ hA]
  rcases ho : openFile posix filePath (Int.lor (Int.lor O_WRONLY O_TRUNC) O_CREATE) perm w
    with ⟨e | dst, w1⟩
  · rw [ho] at hof
    unfold writeFile at h
    rw [ho] at h
    simp only [Option.some.injEq, Prod.mk.injEq] at h
    rw [← h.2]
    exact hof
  · rw [ho] at hof
    simp only [] at hof
    obtain ⟨wa, hopen, hlock⟩ := openFile_ok_inv posix _ _ _ _ _ _ ho
    rw [hOp] at hopen
    obtain ⟨hdst, -, hh, -, -⟩ := posixOpenFile_create_inv _ _ _ _ _ hopen
    have hlh := (lockForFlag_posix_frame dst.fd
      (Int.lor (Int.lor O_WRONLY O_TRUNC) O_CREATE) wa).2.1
    rw [hlock] at hlh
    simp only [] at hlh
    have hB : (w1.handles dst.fd).map Handle.path = some filePath := by
      rw [hlh, hh, hdst]
      simp
    rw [writeFile_of_open posix fuel filePath (fileReader posix src) () perm w w1 dst ho] at h
    rcases hc : Copy posix dst (fileReader posix src) fuel 0 () w1 with _ | ⟨r, u, w2⟩
    · rw [hc] at h; simp at h
    · rw [hc] at h
      simp only [Option.map_some', Option.some.injEq, Prod.mk.injEq] at h
      rw [← h.2, writeFileDeferred_posix_files_other _ _ _ _ _ _ _ hA,
        Copy_posix_files_other src dst A filePath hA fuel 0 w1 w2 r u hc hB, hof]

/-- Whenever `moveFile` returns an error, the source file is what it was. -/
theorem moveFile_posix_error_keeps_source (fuel : Nat) (fromFilePath toFilePath : String)
    (hne : fromFilePath ≠ toFilePath) (w w' : World) (n : Int) (e : Error)
    (h : moveFile posix fuel fromFilePath toFilePath w = some ((n, some e), w')) :
    w'.files fromFilePath = w.files fromFilePath := by
  have hSt : posix.Stat = posixStat := rfl
  have hCl : posix.Close = posixClose := rfl
  have hRm : posix.Remove = posixRemove := rfl
  have hsf := posixStat_frame fromFilePath w
  unfold moveFile at h
  rw [hSt] at h
  rcases hS : posixStat fromFilePath w with ⟨e1 | fi, w1⟩
  · rw [hS] at h hsf
    simp only [Option.some.injEq, Prod.mk.injEq] at h hsf
    rw [← h.2, hsf]
    rfl
  · rw [hS] at h hsf
    simp only [] at h hsf
    have hw1 : w1.files = w.files := by rw [hsf]; rfl
    have hof : (openFile posix fromFilePath O_RDONLY 0o660 w1).2.files = w1.files := by
      rw [openFile_posix_files, posixOpenFile_rdonly_files]
    rcases hO : openFile posix fromFilePath O_RDONLY 0o660 w1 with ⟨e2 | src, w2⟩
    · rw [hO] at h hof
      simp only [Option.some.injEq, Prod.mk.injEq] at h hof
      rw [← h.2, hof, hw1]
    · rw [hO] at h hof
      simp only [] at h hof
      rcases hW : writeFile posix fuel toFilePath (fileReader posix src) () fi.Perm w2
        with _ | ⟨⟨m, _ | e3⟩, w3⟩
      · rw [hW] at h; simp at h
      · have hwf := writeFile_posix_files_other fuel toFilePath src fi.Perm w2 w3 _
          fromFilePath hne hW
        rw [hW] at h
        simp only [hRm, hCl] at h
        rcases hR : posixRemove fromFilePath w3 with ⟨_ | e4, w4⟩
        · rw [hR] at h; simp at h
        · rw [hR] at h
          simp only [Option.some.injEq, Prod.mk.injEq] at h
          rw [← h.2, posixClose_files, posixRemove_err_files _ _ _ _ hR, hwf, hof, hw1]
      · have hwf := writeFile_posix_files_other fuel toFilePath src fi.Perm w2 w3 _
          fromFilePath hne hW
        rw [hW] at h
        simp only [hCl, Option.some.injEq, Prod.mk.injEq] at h
        rw [← h.2, posixClose_files, hwf, hof, hw1]

/-- C13: `moveFile(A, B)` for distinct paths `A` and `B`, on any filesystem behind the call
recorder. When the `Stat` of `A` fails, when the locked open of `A` fails, when the locked
open of `B` fails, or when the transfer (`io.Copy`) stops with an error, `moveFile` returns
an error and no recorded call is `Remove A`. On the reference filesystem, whenever
`moveFile` returns an error the file at `A` is what it was before the call. -/
theorem moveFile_failure_never_removes_source (fs : FileSystem σ) (fuel : Nat)
    (fromFilePath toFilePath : String) (hne : fromFilePath ≠ toFilePath) (s : σ) :
    (∀ e s1, fs.Stat fromFilePath s = (.error e, s1) →
        ∃ err log, moveFile (traced fs) fuel fromFilePath toFilePath (s, [])
            = some ((0, some err), s1, log)
          ∧ Call.Remove fromFilePath ∉ log)
      ∧ (∀ fileInfo s1 e s2, fs.Stat fromFilePath s = (.ok fileInfo, s1) →
          openFile fs fromFilePath O_RDONLY 0o660 s1 = (.error e, s2) →
          ∃ err log, moveFile (traced fs) fuel fromFilePath toFilePath (s, [])
              = some ((0, some err), s2, log)
            ∧ Call.Remove fromFilePath ∉ log)
      ∧ (∀ fileInfo s1 src s2 e s3, fs.Stat fromFilePath s = (.ok fileInfo, s1) →
          openFile fs fromFilePath O_RDONLY 0o660 s1 = (.ok src, s2) →
          openFile fs toFilePath (Int.lor (Int.lor O_WRONLY O_TRUNC) O_CREATE) fileInfo.Perm s2
            = (.error e, s3) →
          ∃ err log, moveFile (traced fs) fuel fromFilePath toFilePath (s, [])
              = some ((0, some err), (fs.Close src s3).2, log)
            ∧ Call.Remove fromFilePath ∉ log)
      ∧ (∀ fileInfo s1 src s2 dst s3 n e s4, fs.Stat fromFilePath s = (.ok fileInfo, s1) →
          openFile fs fromFilePath O_RDONLY 0o660 s1 = (.ok src, s2) →
          openFile fs toFilePath (Int.lor (Int.lor O_WRONLY O_TRUNC) O_CREATE) fileInfo.Perm s2
            = (.ok dst, s3) →
          Copy fs dst (fileReader fs src) fuel 0 () s3 = some ((n, some e), (), s4) →
          ∃ err s5 log, moveFile (traced fs) fuel fromFilePath toFilePath (s, [])
              = some ((n, some err), s5, log)
            ∧ Call.Remove fromFilePath ∉ log)
      ∧ (∀ (w w' : World) (n : Int) (e : Error),
          moveFile posix fuel fromFilePath toFilePath w = some ((n, some e), w') →
          w'.files fromFilePath = w.files fromFilePath) := by
  refine ⟨?_, ?_, ?_, ?_, ?_⟩
  · intro e s1 hS
    refine ⟨Error.wrapError ("move '" ++ fromFilePath ++ "' to '" ++ toFilePath
      ++ "': stat source: " ++ e.message) e, [Call.Stat fromFilePath], ?_, ?_⟩
    · unfold moveFile
      simp only [traced_Stat, hS, List.nil_append]
    · simp
  · intro fileInfo s1 e s2 hS hO
    refine ⟨Error.wrapError ("move '" ++ fromFilePath ++ "' to '" ++ toFilePath
      ++ "': open source: " ++ e.message) e,
      [] ++ [Call.Stat fromFilePath] ++ openCalls fs fromFilePath O_RDONLY 0o660 s1, ?_, ?_⟩
    · unfold moveFile
      simp only [traced_Stat, hS, openFile_traced, hO]
    · intro hm
      simp only [List.nil_append, List.singleton_append, List.mem_cons] at hm
      rcases hm with hm | hm
      · cases hm
      · exact openCalls_no_Remove fs _ _ _ _ _ hm
  · intro fileInfo s1 src s2 e s3 hS hO hD
    have hW : writeFile fs fuel toFilePath (fileReader fs src) () fileInfo.Perm s2
        = some ((0, some e), s3) := by
      unfold writeFile
      rw [hD]
    exact moveFile_traced_writeFile_error fs fuel fromFilePath toFilePath hne s s1 s2 s3
      fileInfo src 0 e hS hO hW
  · intro fileInfo s1 src s2 dst s3 n e s4 hS hO hD hC
    have hW : writeFile fs fuel toFilePath (fileReader fs src) () fileInfo.Perm s2
        = some ((n, some (rollbackError e (fs.Remove toFilePath (fs.Close dst s4).2).1)),
            (fs.Remove toFilePath (fs.Close dst s4).2).2) := by
      rw [writeFile_of_open fs fuel toFilePath (fileReader fs src) () fileInfo.Perm s2 s3 dst hD,
        hC]
      simp [writeFileDeferred_rollback]
    obtain ⟨err, log, hrun, hlog⟩ := moveFile_traced_writeFile_error fs fuel fromFilePath
      toFilePath hne s s1 s2 _ fileInfo src n _ hS hO hW
    exact ⟨err, _, log, hrun, hlog⟩
  · intro w w' n e h
    exact moveFile_posix_error_keeps_source fuel fromFilePath toFilePath hne w w' n e h

theorem moveFile_failure_never_removes_source_witness :
    "foo" ≠ "bar"
      ∧ (∃ err s5 log, moveFile (traced posix) 12 "foo" "bar"
            ({ fooWorld with faults := [none, none, none, none, none,
                some "input/output error"] }, [])
            = some ((0, some err), s5, log)
          ∧ Call.Remove "foo" ∉ log)
      ∧ (∃ n e w', moveFile posix 12 "foo" "bar"
            { fooWorld with faults := [none, none, none, none, none,
                some "input/output error"] }
            = some ((n, some e), w')
          ∧ w'.files "foo" = some ⟨helloWorld, 0o644⟩) := by
  refine ⟨by decide, ?_, ?_⟩
  · exact (moveFile_failure_never_removes_source posix 12 "foo" "bar" (by decide)
      { fooWorld with faults := [none, none, none, none, none,
          some "input/output error"] }).2.2.2.1
      ⟨"foo", 11, 0o644⟩ _ ⟨3, "foo"⟩ _ ⟨4, "bar"⟩ _ 0 (Error.sys "input/output error" false) _
      rfl rfl rfl rfl
  · have hsome : (moveFile posix 12 "foo" "bar"
        { fooWorld with faults := [none, none, none, none, none,
            some "input/output error"] }).map (fun x => x.1.2.isSome) = some true := by
      decide
    rcases hrun : moveFile posix 12 "foo" "bar"
        { fooWorld with faults := [none, none, none, none, none,
            some "input/output error"] } with _ | ⟨⟨n, _ | e⟩, w'⟩
    · rw [hrun] at hsome; simp at hsome
    · rw [hrun] at hsome; simp at hsome
    · refine ⟨n, e, w', rfl, ?_⟩
      rw [(moveFile_failure_never_removes_source posix 12 "foo" "bar" (by decide)
        fooWorld).2.2.2.2 _ w' n e hrun]
      decide

end Fio
